import Mathlib

/-!
# migration-db-cc2: batch insert chaincode

A shallow embedding of `src/migration-db-cc2/main.go`.

* Go `string` and `[]byte` values are Lean `String`s (JSON text is UTF-8).
* Go `int` counters are `Nat`: every counter is bounded by the length of the
  document slice, so 64-bit overflow cannot occur.
* The world state behind `shim.ChaincodeStubInterface` is threaded explicitly
  as a value of a state type `σ`.
* A Go panic is an explicit outcome of the call.
* `encoding/json`, the stub and the clock are collaborators of the program and
  are parameters of the embedding.
-/

namespace MigrationDbCc2

/-! ## Data model -/

/-- Go `float64`, carried as its IEEE-754 binary64 bit pattern. The program
never computes with numbers; it only moves them around. -/
structure Float64 where
  bits : Nat
deriving DecidableEq, Repr

/-- The dynamic values `json.Unmarshal` stores into an `interface{}`:
`nil`, `bool`, `float64`, `string`, `[]interface{}`, `map[string]interface{}`. -/
inductive Value where
  | null
  | bool (b : Bool)
  | number (f : Float64)
  | string (s : String)
  | array (xs : List Value)
  | object (fields : List (String × Value))
deriving Repr

/-- Go `map[string]interface{}`: an association list, read by first match.
The nil map of a JSON `null` array element reads like the empty map. -/
abbrev Doc := List (String × Value)

/-- BatchData represents the data structure from dApp for migration. -/
structure BatchData where
  Documents : List Doc
deriving Repr

/-- BatchResult shows the result of batch operation. -/
structure BatchResult where
  TotalDocs : Nat
  SuccessfulDocs : Nat
  FailedDocs : Nat
  ProcessingTime : String
  Errors : List String
deriving DecidableEq, Repr

/-- The `pb.Response` message: status code, message, payload (`none` is a nil
byte slice). -/
structure Response where
  Status : Int
  Message : String
  Payload : Option String
deriving DecidableEq, Repr

/-- Result of running a Go function body: it returns, or it panics. -/
inductive Outcome (α : Type) where
  | returned (a : α)
  | panicked (msg : String)
deriving DecidableEq, Repr

/-! ## Collaborators -/

/-- The part of `shim.ChaincodeStubInterface` the program and its test use.
`PutState` yields the error it reports (`none` for a nil error) and the state
it leaves behind. -/
structure ChaincodeStubInterface (σ : Type) where
  PutState : σ → String → String → Option String × σ
  GetState : σ → String → Except String (Option String)
  GetTxID : σ → String

/-- The calls into `encoding/json` made by the program and its test, one
field per call site and static type. -/
structure Json where
  /-- `json.Unmarshal([]byte(args[0]), &batchData)` (main.go:58). -/
  UnmarshalBatch : String → Except String BatchData
  /-- `json.Marshal(doc)` (main.go:86). -/
  MarshalDoc : Doc → Except String String
  /-- `json.Marshal(result)` (main.go:106); its error is discarded. -/
  MarshalResult : BatchResult → String
  /-- `json.Unmarshal(data, &doc)` (real_data_test.go:131). -/
  UnmarshalDoc : String → Except String Doc
  /-- `json.Marshal(response)` (main.go:119) of the health map, given the
  timestamp and the transaction id. -/
  MarshalHealth : String → String → String

namespace shim

/-- Status code `shim.OK`. -/
def OK : Int := 200

/-- Status code `shim.ERROR`. -/
def ERROR : Int := 500

/-- The `shim.Success` response constructor. -/
def Success (payload : String) : Response :=
  { Status := OK, Message := "", Payload := some payload }

/-- The `shim.Error` response constructor. -/
def Error (msg : String) : Response :=
  { Status := ERROR, Message := msg, Payload := none }

end shim

/-! ## The program -/

/-- Dynamic type name the Go runtime prints for an interface value. -/
def Value.goType : Value → String
  | .null => "nil"
  | .bool _ => "bool"
  | .number _ => "float64"
  | .string _ => "string"
  | .array _ => "[]interface {}"
  | .object _ => "map[string]interface {}"

/-- The run-time panic of the unchecked assertion `id.(string)` (main.go:78)
on a value whose dynamic type is not `string`. -/
def assertStringPanic (id : Value) : String :=
  "interface conversion: interface {} is " ++ id.goType ++ ", not string"

/-- The initial result (main.go:68-71): `TotalDocs` is the number of
documents, the counters are zero, `Errors` is the empty slice. -/
def newResult (total : Nat) : BatchResult :=
  { TotalDocs := total, SuccessfulDocs := 0, FailedDocs := 0,
    ProcessingTime := "", Errors := [] }

/-- The body of one failed iteration: `result.FailedDocs++` and
`result.Errors = append(result.Errors, msg)`. -/
def BatchResult.fail (result : BatchResult) (msg : String) : BatchResult :=
  { result with FailedDocs := result.FailedDocs + 1, Errors := result.Errors ++ [msg] }

/-- The last statement of a successful iteration: `result.SuccessfulDocs++`. -/
def BatchResult.succeed (result : BatchResult) : BatchResult :=
  { result with SuccessfulDocs := result.SuccessfulDocs + 1 }

/-- The loop `for i, doc := range batchData.Documents` of `batchInsert`
(main.go:74-101), started at index `i` on the documents still to visit. -/
def processDocuments {σ : Type} (json : Json) (stub : ChaincodeStubInterface σ) :
    Nat → List Doc → BatchResult → σ → Outcome BatchResult × σ
  | _, [], result, st => (.returned result, st)
  | i, doc :: rest, result, st =>
    match doc.lookup "_id" with
    | some (.string key) =>
      match json.MarshalDoc doc with
      | .error err =>
        processDocuments json stub (i + 1) rest
          (result.fail ("Doc " ++ toString i ++ ": marshal error: " ++ err)) st
      | .ok docBytes =>
        match stub.PutState st key docBytes with
        | (some err, st') =>
          processDocuments json stub (i + 1) rest
            (result.fail ("Doc " ++ toString i ++ ": storage error: " ++ err)) st'
        | (none, st') =>
          processDocuments json stub (i + 1) rest result.succeed st'
    | some id => (.panicked (assertStringPanic id), st)
    | none =>
      processDocuments json stub (i + 1) rest
        (result.fail ("Doc " ++ toString i ++ ": missing _id")) st

/-- The function `batchInsert` (main.go:49-108). `elapsed` is the string
`time.Since(startTime).String()` evaluates to in this call. -/
def batchInsert {σ : Type} (json : Json) (stub : ChaincodeStubInterface σ)
    (elapsed : String) (st : σ) (args : List String) : Outcome Response × σ :=
  match args with
  | [arg] =>
    match json.UnmarshalBatch arg with
    | .error err =>
      (.returned (shim.Error ("Failed to parse batch data: " ++ err)), st)
    | .ok batchData =>
      if batchData.Documents.length = 0 then
        (.returned (shim.Error "No documents provided"), st)
      else
        match processDocuments json stub 0 batchData.Documents
            (newResult batchData.Documents.length) st with
        | (.returned result, st') =>
          (.returned (shim.Success
            (json.MarshalResult { result with ProcessingTime := elapsed })), st')
        | (.panicked msg, st') => (.panicked msg, st')
  | _ => (.returned (shim.Error "Expecting 1 argument: JSON batch data"), st)

/-- The function `healthCheck` (main.go:111-121). `timestamp` is the string
`time.Now().UTC().Format(time.RFC3339)` evaluates to in this call. -/
def healthCheck {σ : Type} (json : Json) (stub : ChaincodeStubInterface σ)
    (timestamp : String) (st : σ) (_args : List String) : Outcome Response × σ :=
  (.returned (shim.Success (json.MarshalHealth timestamp (stub.GetTxID st))), st)

/-- The method `Invoke` (main.go:35-46), on the function name and parameters
that `stub.GetFunctionAndParameters()` returns. -/
def Invoke {σ : Type} (json : Json) (stub : ChaincodeStubInterface σ)
    (elapsed timestamp : String) (st : σ) (function : String) (args : List String) :
    Outcome Response × σ :=
  if function = "batchInsert" then batchInsert json stub elapsed st args
  else if function = "healthCheck" then healthCheck json stub timestamp st args
  else (.returned (shim.Error ("Unknown function: " ++ function)), st)

/-! ## Vocabulary of the properties -/

/-- The storage key the loop derives from a document (main.go:77-78): the
value of `_id` when it is a string. -/
def Doc.key? (doc : Doc) : Option String :=
  match doc.lookup "_id" with
  | some (.string key) => some key
  | _ => none

/-- The document has no `_id` field. -/
def Doc.lacksId (doc : Doc) : Bool := (doc.lookup "_id").isNone

/-- The document passes the key derivation without a panic: `_id` is absent
or a string. -/
def Doc.idChecked (doc : Doc) : Bool := doc.lacksId || doc.key?.isSome

/-- A store whose put succeeds: `PutState` reports no error, a later
`GetState` of the key returns the value put, and other keys read as before. -/
structure PutSucceeds {σ : Type} (stub : ChaincodeStubInterface σ) : Prop where
  put_ok : ∀ st key value, (stub.PutState st key value).1 = none
  get_same : ∀ st key value,
    stub.GetState (stub.PutState st key value).2 key = .ok (some value)
  get_other : ∀ st key value other, other ≠ key →
    stub.GetState (stub.PutState st key value).2 other = stub.GetState st other

/-- The puts the loop issues on `docs` when none is refused, in order, up to
the first panic. -/
def putsOf (json : Json) : List Doc → List (String × String)
  | [] => []
  | doc :: rest =>
    match doc.lookup "_id" with
    | some (.string key) =>
      match json.MarshalDoc doc with
      | .ok docBytes => (key, docBytes) :: putsOf json rest
      | .error _ => putsOf json rest
    | some _ => []
    | none => putsOf json rest

/-- The errors the loop appends for the documents without `_id`, the first
document having index `i`. -/
def missingIdErrors : Nat → List Doc → List String
  | _, [] => []
  | i, doc :: rest =>
    if doc.lacksId then ("Doc " ++ toString i ++ ": missing _id") :: missingIdErrors (i + 1) rest
    else missingIdErrors (i + 1) rest

/-- The state after a sequence of puts. -/
def runPuts {σ : Type} (stub : ChaincodeStubInterface σ) (st : σ) :
    List (String × String) → σ
  | [] => st
  | (key, value) :: rest => runPuts stub (stub.PutState st key value).2 rest

/-- A keyed store: a put that reports no error stores the value under the key
and leaves the other keys as they were; a put that reports an error leaves
every key as it was. -/
structure KeyedStore {σ : Type} (stub : ChaincodeStubInterface σ) : Prop where
  put_same : ∀ st key value st', stub.PutState st key value = (none, st') →
    stub.GetState st' key = .ok (some value)
  put_other : ∀ st key value st' other, stub.PutState st key value = (none, st') →
    other ≠ key → stub.GetState st' other = stub.GetState st other
  put_error : ∀ st key value err st' other, stub.PutState st key value = (some err, st') →
    stub.GetState st' other = stub.GetState st other

/-- The stub together with a record of the puts that reported no error, in the
order they were made. -/
def withLog {σ : Type} (stub : ChaincodeStubInterface σ) :
    ChaincodeStubInterface (σ × List (String × String)) where
  PutState st key value :=
    match stub.PutState st.1 key value with
    | (none, st') => (none, (st', st.2 ++ [(key, value)]))
    | (some err, st') => (some err, (st', st.2))
  GetState st key := stub.GetState st.1 key
  GetTxID st := stub.GetTxID st.1

/-- The puts a call of `batchInsert` makes that report no error, in order. -/
def putLog {σ : Type} (json : Json) (stub : ChaincodeStubInterface σ) (st : σ)
    (args : List String) : List (String × String) :=
  (batchInsert json (withLog stub) "" (st, []) args).2.2

/-- The loop of a call on `docs` after its first `k` iterations. -/
def afterIterations {σ : Type} (json : Json) (stub : ChaincodeStubInterface σ)
    (docs : List Doc) (st : σ) (k : Nat) : Outcome BatchResult × σ :=
  processDocuments json stub 0 (docs.take k) (newResult docs.length) st

/-- Document `k` is counted as failed: iteration `k` of the loop adds one to
`FailedDocs`. -/
def failedAt {σ : Type} (json : Json) (stub : ChaincodeStubInterface σ)
    (docs : List Doc) (st : σ) (k : Nat) : Bool :=
  match (afterIterations json stub docs st k).1,
    (afterIterations json stub docs st (k + 1)).1 with
  | .returned before, .returned after => decide (after.FailedDocs = before.FailedDocs + 1)
  | _, _ => false

/-- Document `k` is counted as successful: iteration `k` of the loop adds one
to `SuccessfulDocs`. -/
def storedAt {σ : Type} (json : Json) (stub : ChaincodeStubInterface σ)
    (docs : List Doc) (st : σ) (k : Nat) : Bool :=
  match (afterIterations json stub docs st k).1,
    (afterIterations json stub docs st (k + 1)).1 with
  | .returned before, .returned after =>
    decide (after.SuccessfulDocs = before.SuccessfulDocs + 1)
  | _, _ => false

/-- The positions of the documents counted as failed, in input order. -/
def failedDocs {σ : Type} (json : Json) (stub : ChaincodeStubInterface σ)
    (docs : List Doc) (st : σ) : List Nat :=
  (List.range docs.length).filter (failedAt json stub docs st)

/-- The positions of the documents counted as successful, in input order. -/
def storedDocs {σ : Type} (json : Json) (stub : ChaincodeStubInterface σ)
    (docs : List Doc) (st : σ) : List Nat :=
  (List.range docs.length).filter (storedAt json stub docs st)

/-- The `_id`s of the documents counted as successful, in input order. -/
def storedIds {σ : Type} (json : Json) (stub : ChaincodeStubInterface σ)
    (docs : List Doc) (st : σ) : List String :=
  (storedDocs json stub docs st).filterMap (fun k => docs[k]?.bind Doc.key?)

/-- The outcome of one document (spec.md, section 3, IngestOutcome): stored,
or failed with a reason. -/
inductive IngestOutcome where
  | Stored
  | Failed (reason : String)
deriving DecidableEq, Repr

/-- The outcome is a failure. -/
def IngestOutcome.isFailed : IngestOutcome → Bool
  | .Stored => false
  | .Failed _ => true

/-- The outcome is a store. -/
def IngestOutcome.isStored : IngestOutcome → Bool
  | .Stored => true
  | .Failed _ => false

/-- What happens to each document of a batch, in input order, in the words of
the specification (spec.md, section 4.1, steps 1 to 3): a document whose
`_id` is absent or not a string fails with "missing _id" and no write is
attempted; one that does not serialize fails with "marshal error: ..."; the
others are put under their `_id`, in the state the documents before left,
and fail with "storage error: ..." when the store reports an error, and are
stored when it reports none. -/
def specOutcomes {σ : Type} (json : Json) (stub : ChaincodeStubInterface σ) :
    σ → List Doc → List IngestOutcome
  | _, [] => []
  | st, doc :: rest =>
    match doc.lookup "_id" with
    | some (.string key) =>
      match json.MarshalDoc doc with
      | .error err => .Failed ("marshal error: " ++ err) :: specOutcomes json stub st rest
      | .ok docBytes =>
        match stub.PutState st key docBytes with
        | (some err, st') => .Failed ("storage error: " ++ err) :: specOutcomes json stub st' rest
        | (none, st') => .Stored :: specOutcomes json stub st' rest
    | _ => .Failed "missing _id" :: specOutcomes json stub st rest

/-- The errors list the specification asks for (spec.md, section 4.1): the
reasons of the failed documents in input order, each tagged with the
zero-based index of its document; `i` is the index of the first outcome. -/
def specErrors : Nat → List IngestOutcome → List String
  | _, [] => []
  | i, .Stored :: rest => specErrors (i + 1) rest
  | i, .Failed reason :: rest =>
    ("Doc " ++ toString i ++ ": " ++ reason) :: specErrors (i + 1) rest

/-- Two error entries that are equal, or that are the storage errors of the
same document and differ at most in the text the store reported. -/
def sameUpToStoreText (a b : String) : Prop :=
  a = b ∨ ∃ (i : Nat) (e1 e2 : String),
    a = "Doc " ++ toString i ++ ": storage error: " ++ e1 ∧
    b = "Doc " ++ toString i ++ ": storage error: " ++ e2

/-- A stateless store that accepts every put. -/
def nullStub : ChaincodeStubInterface Unit where
  PutState _ _ _ := (none, ())
  GetState _ _ := .ok none
  GetTxID _ := ""

/-! ## Sample collaborators

Executable instances of the collaborators, used to run the program on concrete
inputs. The properties of the program are proved for every instance. -/

/-- An in-memory world state: `PutState` records the value under the key and
reports no error; `GetState` reads it back, `none` for an absent key. -/
def memStub : ChaincodeStubInterface (List (String × String)) where
  PutState st key value := (none, (key, value) :: st.filter (fun kv => kv.1 ≠ key))
  GetState st key := .ok (st.lookup key)
  GetTxID _ := "txid"

/-- An in-memory world state whose `PutState` rejects the empty key, the way
`shim.ChaincodeStub.PutState` does, and leaves the state as it was. -/
def strictStub : ChaincodeStubInterface (List (String × String)) where
  PutState st key value :=
    if key = "" then (some "key must not be an empty string", st)
    else (none, (key, value) :: st.filter (fun kv => kv.1 ≠ key))
  GetState st key := .ok (st.lookup key)
  GetTxID _ := "txid"

/-- An in-memory world state whose `PutState` rejects the empty key with a
message that tells how many keys the state holds, and leaves the state as it
was. -/
def countingStub : ChaincodeStubInterface (List (String × String)) where
  PutState st key value :=
    if key = "" then
      (some ("key must not be an empty string, " ++ toString st.length ++ " keys stored"), st)
    else (none, (key, value) :: st.filter (fun kv => kv.1 ≠ key))
  GetState st key := .ok (st.lookup key)
  GetTxID _ := "txid"

/-- An in-memory world state that keeps the contents it started from next to
the current ones: `PutState` rejects the empty key and then rolls the current
contents back to the ones it started from; `GetState` reads the current
contents. -/
def rollbackStub :
    ChaincodeStubInterface (List (String × String) × List (String × String)) where
  PutState st key value :=
    if key = "" then (some "key must not be an empty string", (st.1, st.1))
    else (none, (st.1, (key, value) :: st.2.filter (fun kv => kv.1 ≠ key)))
  GetState st key := .ok (st.2.lookup key)
  GetTxID _ := "txid"

namespace SampleJson

/-! A compact JSON codec for a fragment of JSON: objects without repeated
keys, arrays, strings, integers of magnitude below 2^64, booleans and null.
An integer beyond 2^53 is decoded to the nearest `float64`, as `json.Unmarshal`
decodes a number into an `interface{}`; values beyond 2^53 are not rendered.
Text outside the fragment is reported as an error. -/

def quoteChar : Char := Char.ofNat 34

def backslash : Char := Char.ofNat 92

def isSpace (c : Char) : Bool :=
  c = ' ' || c = Char.ofNat 10 || c = Char.ofNat 9 || c = Char.ofNat 13

def skipSpace : List Char → List Char
  | [] => []
  | c :: cs => if isSpace c then skipSpace cs else c :: cs

def hexDigit (n : Nat) : Char :=
  if n < 10 then Char.ofNat (48 + n) else Char.ofNat (87 + n)

def hexValue (c : Char) : Option Nat :=
  let n := c.toNat
  if 48 ≤ n ∧ n ≤ 57 then some (n - 48)
  else if 97 ≤ n ∧ n ≤ 102 then some (n - 87)
  else if 65 ≤ n ∧ n ≤ 70 then some (n - 55)
  else none

/-- String escaping of `json.Marshal` (HTML-safe, short escapes for newline,
carriage return and tab). -/
def escapeChar (c : Char) : List Char :=
  if c = quoteChar then [backslash, quoteChar]
  else if c = backslash then [backslash, backslash]
  else if c = Char.ofNat 10 then [backslash, 'n']
  else if c = Char.ofNat 13 then [backslash, 'r']
  else if c = Char.ofNat 9 then [backslash, 't']
  else if c.toNat < 32 || c = '<' || c = '>' || c = '&' then
    [backslash, 'u', '0', '0', hexDigit (c.toNat / 16), hexDigit (c.toNat % 16)]
  else if c.toNat = 8232 || c.toNat = 8233 then
    [backslash, 'u', '2', '0', '2', hexDigit (c.toNat % 16)]
  else [c]

def quote (s : List Char) : List Char :=
  quoteChar :: (s.flatMap escapeChar ++ [quoteChar])

/-- Exponent of the leading bit: `log2Fuel n n = ⌊log₂ n⌋` for `n > 0`. -/
def log2Fuel : Nat → Nat → Nat
  | 0, _ => 0
  | fuel + 1, n => if n < 2 then 0 else log2Fuel fuel (n / 2) + 1

/-- The `float64` of a natural number of at most 2^53 (exact). -/
def float64OfNat (n : Nat) : Float64 :=
  if n = 0 then ⟨0⟩
  else
    let e := log2Fuel n n
    ⟨(e + 1023) * 2 ^ 52 + (n * 2 ^ 52 / 2 ^ e - 2 ^ 52)⟩

/-- The `float64` nearest to a natural number beyond 2^53, ties to the even
mantissa, as `strconv.ParseFloat` rounds. -/
def float64Nearest (n : Nat) : Float64 :=
  let e := log2Fuel n n
  let q := n / 2 ^ (e - 52)
  let r := n % 2 ^ (e - 52)
  let half := 2 ^ (e - 53)
  let q' := if half < r ∨ (r = half ∧ q % 2 = 1) then q + 1 else q
  ⟨(e + 1023) * 2 ^ 52 + (q' - 2 ^ 52)⟩

/-- Sign and magnitude of an integer-valued `float64` of magnitude at most
2^53, `none` for every other bit pattern. -/
def float64ToInt (f : Float64) : Option (Bool × Nat) :=
  let neg := decide (f.bits / 2 ^ 63 % 2 = 1)
  let ex := f.bits / 2 ^ 52 % 2048
  let mant := f.bits % 2 ^ 52
  if 2 ^ 64 ≤ f.bits then none
  else if ex = 0 ∧ mant = 0 then some (neg, 0)
  else if 1023 ≤ ex ∧ ex ≤ 1076 ∧ (2 ^ 52 + mant) * 2 ^ (ex - 1023) % 2 ^ 52 = 0
      ∧ (2 ^ 52 + mant) * 2 ^ (ex - 1023) / 2 ^ 52 ≤ 2 ^ 53 then
    some (neg, (2 ^ 52 + mant) * 2 ^ (ex - 1023) / 2 ^ 52)
  else none

def ltChars : List Char → List Char → Bool
  | [], [] => false
  | [], _ :: _ => true
  | _ :: _, [] => false
  | a :: as, b :: bs => a.toNat < b.toNat || (a.toNat = b.toNat && ltChars as bs)

/-- Insert a member into a key-sorted member list; `none` on a repeated key. -/
def insertMember (k : String) (v : Value) :
    List (String × Value) → Option (List (String × Value))
  | [] => some [(k, v)]
  | (k', v') :: rest =>
    if k = k' then none
    else if ltChars k.data k'.data then some ((k, v) :: (k', v') :: rest)
    else (insertMember k v rest).map ((k', v') :: ·)

def sortMembers : List (String × Value) → Option (List (String × Value))
  | [] => some []
  | (k, v) :: rest => (sortMembers rest).bind (insertMember k v)

mutual

/-- Rendering of a value the way `json.Marshal` prints it. -/
def render : Value → Except String (List Char)
  | .null => .ok "null".data
  | .bool true => .ok "true".data
  | .bool false => .ok "false".data
  | .number f =>
    match float64ToInt f with
    | some (neg, n) => .ok ((if neg then ['-'] else []) ++ (Nat.repr n).data)
    | none => .error "json: unsupported value: number outside the sample fragment"
  | .string s => .ok (quote s.data)
  | .array xs => (renderElems xs).map (fun body => '[' :: (body ++ [']']))
  | .object fields => (renderMembers fields).map (fun body => '{' :: (body ++ ['}']))

def renderElems : List Value → Except String (List Char)
  | [] => .ok []
  | [x] => render x
  | x :: y :: rest =>
    match render x, renderElems (y :: rest) with
    | .ok a, .ok b => .ok (a ++ ',' :: b)
    | .error e, _ => .error e
    | _, .error e => .error e

def renderMembers : List (String × Value) → Except String (List Char)
  | [] => .ok []
  | [(k, v)] => (render v).map (fun a => quote k.data ++ ':' :: a)
  | (k, v) :: m :: rest =>
    match render v, renderMembers (m :: rest) with
    | .ok a, .ok b => .ok (quote k.data ++ ':' :: (a ++ ',' :: b))
    | .error e, _ => .error e
    | _, .error e => .error e

end

/-- Body of a string literal, after the opening quote: the decoded characters
and the rest of the input. -/
def parseString : List Char → List Char → Except String (List Char × List Char)
  | _, [] => .error "unexpected end of JSON input"
  | acc, c :: cs =>
    if c = quoteChar then .ok (acc.reverse, cs)
    else if c = backslash then
      match cs with
      | 'n' :: r => parseString (Char.ofNat 10 :: acc) r
      | 'r' :: r => parseString (Char.ofNat 13 :: acc) r
      | 't' :: r => parseString (Char.ofNat 9 :: acc) r
      | 'b' :: r => parseString (Char.ofNat 8 :: acc) r
      | 'f' :: r => parseString (Char.ofNat 12 :: acc) r
      | '/' :: r => parseString ('/' :: acc) r
      | 'u' :: h1 :: h2 :: h3 :: h4 :: r =>
        match hexValue h1, hexValue h2, hexValue h3, hexValue h4 with
        | some a, some b, some c, some d =>
          let n := ((a * 16 + b) * 16 + c) * 16 + d
          if 55296 ≤ n ∧ n ≤ 57343 then
            .error "surrogate escape outside the sample fragment"
          else parseString (Char.ofNat n :: acc) r
        | _, _, _, _ => .error "invalid character in \\u hexadecimal character escape"
      | e :: r =>
        if e = quoteChar ∨ e = backslash then parseString (e :: acc) r
        else .error "invalid character in string escape code"
      | [] => .error "unexpected end of JSON input"
    else if c.toNat < 32 then .error "invalid character in string literal"
    else parseString (c :: acc) cs

/-- Leading decimal digits: their value, their count and the rest. -/
def parseDigits : Nat → Nat → List Char → Nat × Nat × List Char
  | n, k, [] => (n, k, [])
  | n, k, c :: cs =>
    if 48 ≤ c.toNat ∧ c.toNat ≤ 57 then parseDigits (n * 10 + (c.toNat - 48)) (k + 1) cs
    else (n, k, c :: cs)

/-- An integer literal of magnitude below 2^64. -/
def parseNumber (cs : List Char) : Except String (Value × List Char) :=
  let (neg, body) := match cs with
    | '-' :: r => (true, r)
    | r => (false, r)
  let (n, k, rest) := parseDigits 0 0 body
  if k = 0 then .error "invalid character looking for beginning of value"
  else if 1 < k ∧ body.head? = some '0' then .error "invalid character after top-level value"
  else if rest.head? = some '.' ∨ rest.head? = some 'e' ∨ rest.head? = some 'E' then
    .error "fraction or exponent outside the sample fragment"
  else if 2 ^ 64 ≤ n then .error "integer outside the sample fragment"
  else if 2 ^ 53 < n then
    .ok (.number ⟨(float64Nearest n).bits + (if neg then 2 ^ 63 else 0)⟩, rest)
  else .ok (.number ⟨(float64OfNat n).bits + (if neg then 2 ^ 63 else 0)⟩, rest)

mutual

/-- Parser of one JSON value; the fuel bounds the nesting and element count
and is at most the length of the input. -/
def parseValue : Nat → List Char → Except String (Value × List Char)
  | 0, _ => .error "out of fuel"
  | fuel + 1, cs =>
    match skipSpace cs with
    | [] => .error "unexpected end of JSON input"
    | 'n' :: 'u' :: 'l' :: 'l' :: r => .ok (.null, r)
    | 't' :: 'r' :: 'u' :: 'e' :: r => .ok (.bool true, r)
    | 'f' :: 'a' :: 'l' :: 's' :: 'e' :: r => .ok (.bool false, r)
    | '[' :: r =>
      match skipSpace r with
      | ']' :: r2 => .ok (.array [], r2)
      | r2 => parseElems fuel r2 []
    | '{' :: r =>
      match skipSpace r with
      | '}' :: r2 => .ok (.object [], r2)
      | r2 => parseMembers fuel r2 []
    | c :: r =>
      if c = quoteChar then
        match parseString [] r with
        | .ok (s, r2) => .ok (.string (String.mk s), r2)
        | .error e => .error e
      else parseNumber (c :: r)

/-- Elements of an array after the first bracket, up to the closing one. -/
def parseElems : Nat → List Char → List Value → Except String (Value × List Char)
  | 0, _, _ => .error "out of fuel"
  | fuel + 1, cs, acc =>
    match parseValue fuel cs with
    | .error e => .error e
    | .ok (v, r) =>
      match skipSpace r with
      | ',' :: r2 => parseElems fuel r2 (v :: acc)
      | ']' :: r2 => .ok (.array (v :: acc).reverse, r2)
      | _ => .error "invalid character after array element"

/-- Members of an object after the opening brace, up to the closing one; the
members come out sorted by key. -/
def parseMembers : Nat → List Char → List (String × Value) →
    Except String (Value × List Char)
  | 0, _, _ => .error "out of fuel"
  | fuel + 1, cs, acc =>
    match skipSpace cs with
    | [] => .error "unexpected end of JSON input"
    | c :: r =>
      if c = quoteChar then
        match parseString [] r with
        | .error e => .error e
        | .ok (k, r2) =>
          match skipSpace r2 with
          | ':' :: r3 =>
            match parseValue fuel r3 with
            | .error e => .error e
            | .ok (v, r4) =>
              match skipSpace r4 with
              | ',' :: r5 => parseMembers fuel r5 ((String.mk k, v) :: acc)
              | '}' :: r5 =>
                match sortMembers ((String.mk k, v) :: acc) with
                | some fields => .ok (.object fields, r5)
                | none => .error "repeated key outside the sample fragment"
              | _ => .error "invalid character after object key:value pair"
          | _ => .error "invalid character after object key"
      else .error "invalid character looking for beginning of object key string"

end

/-- A whole JSON text: one value, then only white space. -/
def parse (s : String) : Except String Value :=
  match parseValue (s.data.length + 1) s.data with
  | .error e => .error e
  | .ok (v, rest) =>
    match skipSpace rest with
    | [] => .ok v
    | _ => .error "invalid character after top-level value"

/-- A Go field name match: `documents`, compared without regard to case. -/
def isDocumentsKey (k : String) : Bool :=
  k.data.map Char.toLower = "documents".data

/-- Name of the kind of a JSON value in the errors of `json.Unmarshal`. -/
def kind : Value → String
  | .null => "null"
  | .bool _ => "bool"
  | .number _ => "number"
  | .string _ => "string"
  | .array _ => "array"
  | .object _ => "object"

/-- Elements of the `documents` array: objects, or `null` for a nil map. -/
def toDocs : List Value → Except String (List Doc)
  | [] => .ok []
  | .object fields :: rest => (toDocs rest).map (fields :: ·)
  | .null :: rest => (toDocs rest).map ([] :: ·)
  | v :: _ =>
    .error ("json: cannot unmarshal " ++ kind v ++
      " into Go struct field BatchData.documents of type map[string]interface {}")

def UnmarshalBatch (s : String) : Except String BatchData :=
  match parse s with
  | .error e => .error e
  | .ok .null => .ok { Documents := [] }
  | .ok (.object fields) =>
    if (fields.filter (fun kv => isDocumentsKey kv.1 && kv.1 ≠ "documents")).length ≠ 0 then
      .error "field name in another case outside the sample fragment"
    else
      match fields.lookup "documents" with
      | none => .ok { Documents := [] }
      | some .null => .ok { Documents := [] }
      | some (.array xs) => (toDocs xs).map (fun docs => { Documents := docs })
      | some v =>
        .error ("json: cannot unmarshal " ++ kind v ++
          " into Go struct field BatchData.documents of type []map[string]interface {}")
  | .ok v =>
    .error ("json: cannot unmarshal " ++ kind v ++ " into Go value of type main.BatchData")

def MarshalDoc (doc : Doc) : Except String String :=
  (render (.object doc)).map String.mk

def UnmarshalDoc (s : String) : Except String Doc :=
  match parse s with
  | .error e => .error e
  | .ok .null => .ok []
  | .ok (.object fields) => .ok fields
  | .ok v =>
    .error ("json: cannot unmarshal " ++ kind v ++
      " into Go value of type map[string]interface {}")

def natLit (n : Nat) : List Char := (Nat.repr n).data

def MarshalResult (result : BatchResult) : String :=
  String.mk ('{' :: quote "totalDocs".data ++ ':' :: natLit result.TotalDocs
    ++ ',' :: quote "successfulDocs".data ++ ':' :: natLit result.SuccessfulDocs
    ++ ',' :: quote "failedDocs".data ++ ':' :: natLit result.FailedDocs
    ++ ',' :: quote "processingTime".data ++ ':' :: quote result.ProcessingTime.data
    ++ (if result.Errors.length = 0 then []
        else ',' :: quote "errors".data ++ ':' :: '[' ::
          (",".data.intercalate (result.Errors.map (fun e => quote e.data)) ++ [']']))
    ++ ['}'])

def MarshalHealth (timestamp txId : String) : String :=
  String.mk ('{' :: quote "chaincode".data ++ ':' :: quote "SimpleBatchChaincode".data
    ++ ',' :: quote "status".data ++ ':' :: quote "OK".data
    ++ ',' :: quote "timestamp".data ++ ':' :: quote timestamp.data
    ++ ',' :: quote "txId".data ++ ':' :: quote txId.data ++ ['}'])

end SampleJson

/-- The sample instance of the `encoding/json` collaborator. -/
def sampleJson : Json where
  UnmarshalBatch := SampleJson.UnmarshalBatch
  MarshalDoc := SampleJson.MarshalDoc
  MarshalResult := SampleJson.MarshalResult
  UnmarshalDoc := SampleJson.UnmarshalDoc
  MarshalHealth := SampleJson.MarshalHealth

/-! ## The data of the repository's test -/

/-- The batch of the concrete scenario: two documents with the `_id` "A" and,
between them, one without `_id`. -/
def scenarioPayload : String :=
  "\x7b\"documents\":[\x7b\"_id\":\"A\",\"v\":1\x7d,\x7b\"v\":2\x7d,\x7b\"_id\":\"A\",\"v\":3\x7d]\x7d"

section Loop

variable {σ : Type} (json : Json) (stub : ChaincodeStubInterface σ)

theorem processDocuments_nil (i : Nat) (result : BatchResult) (st : σ) :
    processDocuments json stub i [] result st = (.returned result, st) := rfl

theorem processDocuments_lacksId (i : Nat) (doc : Doc) (rest : List Doc)
    (result : BatchResult) (st : σ) (h : doc.lookup "_id" = none) :
    processDocuments json stub i (doc :: rest) result st =
      processDocuments json stub (i + 1) rest
        (result.fail ("Doc " ++ toString i ++ ": missing _id")) st := by
  rw [processDocuments]; simp only [h]

theorem processDocuments_notString (i : Nat) (doc : Doc) (rest : List Doc)
    (result : BatchResult) (st : σ) (id : Value) (h : doc.lookup "_id" = some id)
    (hid : ∀ key, id ≠ .string key) :
    processDocuments json stub i (doc :: rest) result st =
      (.panicked (assertStringPanic id), st) := by
  rw [processDocuments]
  cases id with
  | string key => exact absurd rfl (hid key)
  | _ => simp only [h]

theorem processDocuments_marshalError (i : Nat) (doc : Doc) (rest : List Doc)
    (result : BatchResult) (st : σ) (key err : String)
    (h : doc.lookup "_id" = some (.string key)) (hm : json.MarshalDoc doc = .error err) :
    processDocuments json stub i (doc :: rest) result st =
      processDocuments json stub (i + 1) rest
        (result.fail ("Doc " ++ toString i ++ ": marshal error: " ++ err)) st := by
  rw [processDocuments]; simp only [h, hm]

theorem processDocuments_putError (i : Nat) (doc : Doc) (rest : List Doc)
    (result : BatchResult) (st st' : σ) (key docBytes err : String)
    (h : doc.lookup "_id" = some (.string key)) (hm : json.MarshalDoc doc = .ok docBytes)
    (hp : stub.PutState st key docBytes = (some err, st')) :
    processDocuments json stub i (doc :: rest) result st =
      processDocuments json stub (i + 1) rest
        (result.fail ("Doc " ++ toString i ++ ": storage error: " ++ err)) st' := by
  rw [processDocuments]; simp only [h, hm, hp]

theorem processDocuments_stored (i : Nat) (doc : Doc) (rest : List Doc)
    (result : BatchResult) (st st' : σ) (key docBytes : String)
    (h : doc.lookup "_id" = some (.string key)) (hm : json.MarshalDoc doc = .ok docBytes)
    (hp : stub.PutState st key docBytes = (none, st')) :
    processDocuments json stub i (doc :: rest) result st =
      processDocuments json stub (i + 1) rest result.succeed st' := by
  rw [processDocuments]; simp only [h, hm, hp]

/-! ## The loop over a whole batch -/

theorem processDocuments_append (pre post : List Doc) (i : Nat)
    (result : BatchResult) (st : σ) :
    processDocuments json stub i (pre ++ post) result st =
      match processDocuments json stub i pre result st with
      | (.returned result', st') =>
        processDocuments json stub (i + pre.length) post result' st'
      | (.panicked msg, st') => (.panicked msg, st') := by
  induction pre generalizing i result st with
  | nil => simp [processDocuments]
  | cons d pre ih =>
    have hlen : i + (d :: pre).length = i + 1 + pre.length := by
      simp only [List.length_cons]; omega
    rw [List.cons_append, hlen, processDocuments, processDocuments]
    split
    · split
      · exact ih _ _ _
      · split
        · exact ih _ _ _
        · exact ih _ _ _
    · rfl
    · exact ih _ _ _


theorem Doc.idChecked_cases (doc : Doc) (h : doc.idChecked = true) :
    doc.lookup "_id" = none ∨ ∃ key, doc.lookup "_id" = some (.string key) := by
  unfold Doc.idChecked Doc.lacksId Doc.key? at h
  cases hl : doc.lookup "_id" with
  | none => exact Or.inl rfl
  | some id =>
    cases id with
    | string key => exact Or.inr ⟨key, rfl⟩
    | _ => simp [hl] at h

theorem Doc.key?_eq_some (doc : Doc) (key : String) :
    doc.key? = some key ↔ doc.lookup "_id" = some (.string key) := by
  unfold Doc.key?
  cases hl : doc.lookup "_id" with
  | none => simp
  | some id => cases id <;> simp

/-- A loop over documents that all pass the key derivation returns. -/
theorem processDocuments_returns (docs : List Doc) (i : Nat) (result : BatchResult)
    (st : σ) (h : ∀ d ∈ docs, d.idChecked = true) :
    ∃ result' st', processDocuments json stub i docs result st = (.returned result', st') := by
  induction docs generalizing i result st with
  | nil => exact ⟨result, st, rfl⟩
  | cons d docs ih =>
    have hrest : ∀ d' ∈ docs, d'.idChecked = true :=
      fun d' hd' => h d' (List.mem_cons_of_mem _ hd')
    rcases Doc.idChecked_cases d (h d (List.mem_cons_self _ _)) with hl | ⟨key, hl⟩
    · rw [processDocuments_lacksId json stub i d docs result st hl]
      exact ih _ _ _ hrest
    · cases hm : json.MarshalDoc d with
      | error err =>
        rw [processDocuments_marshalError json stub i d docs result st key err hl hm]
        exact ih _ _ _ hrest
      | ok docBytes =>
        rcases hp : stub.PutState st key docBytes with ⟨_ | err, st'⟩
        · rw [processDocuments_stored json stub i d docs result st st' key docBytes hl hm hp]
          exact ih _ _ _ hrest
        · rw [processDocuments_putError json stub i d docs result st st' key docBytes err hl hm hp]
          exact ih _ _ _ hrest

/-- Accounting over a returning loop: every visited document is counted once,
as stored or as failed, and every failure appends one error. -/
theorem processDocuments_accounting (docs : List Doc) (i : Nat)
    (result result' : BatchResult) (st st' : σ)
    (h : processDocuments json stub i docs result st = (.returned result', st')) :
    result'.TotalDocs = result.TotalDocs ∧
    result'.ProcessingTime = result.ProcessingTime ∧
    result'.SuccessfulDocs + result'.FailedDocs =
      result.SuccessfulDocs + result.FailedDocs + docs.length ∧
    result'.Errors.length + result.FailedDocs =
      result.Errors.length + result'.FailedDocs ∧
    result.SuccessfulDocs ≤ result'.SuccessfulDocs ∧
    result.FailedDocs ≤ result'.FailedDocs := by
  induction docs generalizing i result st with
  | nil =>
    rw [processDocuments_nil] at h
    cases h
    simp
  | cons d docs ih =>
    have hl : (d :: docs).length = docs.length + 1 := rfl
    have hfail : ∀ (msg : String) (stm : σ),
        processDocuments json stub (i + 1) docs (result.fail msg) stm =
          (.returned result', st') →
        result'.TotalDocs = result.TotalDocs ∧
        result'.ProcessingTime = result.ProcessingTime ∧
        result'.SuccessfulDocs + result'.FailedDocs =
          result.SuccessfulDocs + result.FailedDocs + (d :: docs).length ∧
        result'.Errors.length + result.FailedDocs =
          result.Errors.length + result'.FailedDocs ∧
        result.SuccessfulDocs ≤ result'.SuccessfulDocs ∧
        result.FailedDocs ≤ result'.FailedDocs := by
      intro msg stm hrun
      obtain ⟨g1, g2, g3, g4, g5, g6⟩ := ih _ _ _ hrun
      simp only [BatchResult.fail, List.length_append, List.length_cons,
        List.length_nil] at g1 g2 g3 g4 g5 g6
      refine ⟨g1, g2, ?_, ?_, ?_, ?_⟩ <;> omega
    rw [processDocuments] at h
    split at h
    · split at h
      · exact hfail _ _ h
      · split at h
        · exact hfail _ _ h
        · obtain ⟨g1, g2, g3, g4, g5, g6⟩ := ih _ _ _ h
          simp only [BatchResult.succeed] at g1 g2 g3 g4 g5 g6
          refine ⟨g1, g2, ?_, ?_, ?_, ?_⟩ <;> omega
    · cases h
    · exact hfail _ _ h

/-- A returning loop returns on every prefix of its documents. -/
theorem processDocuments_prefix_returns (pre post : List Doc) (i : Nat)
    (result result' : BatchResult) (st st' : σ)
    (h : processDocuments json stub i (pre ++ post) result st = (.returned result', st')) :
    ∃ mid stm, processDocuments json stub i pre result st = (.returned mid, stm) ∧
      processDocuments json stub (i + pre.length) post mid stm = (.returned result', st') := by
  rw [processDocuments_append] at h
  rcases hp : processDocuments json stub i pre result st with ⟨_ | msg, stm⟩
  · rw [hp] at h; exact ⟨_, _, rfl, h⟩
  · rw [hp] at h; cases h


/-! ## Stores whose put succeeds -/

/-- When no put is refused, the result of the loop does not depend on the
store, and the final state is the state after the puts of `putsOf`. -/
theorem processDocuments_putOk (hput : ∀ st key value, (stub.PutState st key value).1 = none)
    (docs : List Doc) (i : Nat) (result : BatchResult) (st : σ) :
    processDocuments json stub i docs result st =
      ((processDocuments json nullStub i docs result ()).1,
        runPuts stub st (putsOf json docs)) := by
  induction docs generalizing i result st with
  | nil => rfl
  | cons d docs ih =>
    cases hl : d.lookup "_id" with
    | none =>
      rw [processDocuments_lacksId json stub i d docs result st hl,
        processDocuments_lacksId json nullStub i d docs result () hl, ih]
      simp only [putsOf, hl]
    | some id =>
      by_cases hid : ∃ key, id = .string key
      · obtain ⟨key, rfl⟩ := hid
        cases hm : json.MarshalDoc d with
        | error err =>
          rw [processDocuments_marshalError json stub i d docs result st key err hl hm,
            processDocuments_marshalError json nullStub i d docs result () key err hl hm, ih]
          simp only [putsOf, hl, hm]
        | ok docBytes =>
          have hp : stub.PutState st key docBytes =
              (none, (stub.PutState st key docBytes).2) :=
            Prod.ext (hput st key docBytes) rfl
          rw [processDocuments_stored json stub i d docs result st _ key docBytes hl hm hp,
            processDocuments_stored json nullStub i d docs result () () key docBytes hl hm rfl,
            ih]
          simp only [putsOf, hl, hm, runPuts]
      · have hns : ∀ key, id ≠ .string key := fun key h => hid ⟨key, h⟩
        rw [processDocuments_notString json stub i d docs result st id hl hns,
          processDocuments_notString json nullStub i d docs result () id hl hns]
        cases id with
        | string key => exact absurd rfl (hns key)
        | _ => simp only [putsOf, hl, runPuts]

theorem runPuts_append (st : σ) (a b : List (String × String)) :
    runPuts stub st (a ++ b) = runPuts stub (runPuts stub st a) b := by
  induction a generalizing st with
  | nil => rfl
  | cons kv a ih => obtain ⟨k, v⟩ := kv; exact ih _

/-- Reading a key no put names returns what the state held before. -/
theorem get_runPuts_other (hs : PutSucceeds stub) (st : σ)
    (puts : List (String × String)) (key : String)
    (h : ∀ kv ∈ puts, kv.1 ≠ key) :
    stub.GetState (runPuts stub st puts) key = stub.GetState st key := by
  induction puts generalizing st with
  | nil => rfl
  | cons kv puts ih =>
    obtain ⟨k, v⟩ := kv
    rw [runPuts, ih _ (fun kv hkv => h kv (List.mem_cons_of_mem _ hkv))]
    exact hs.get_other st k v key (fun e => h (k, v) (List.mem_cons_self _ _) e.symm)

/-- Reading a key returns the value of the last put that names it. -/
theorem get_runPuts_last (hs : PutSucceeds stub) (st : σ)
    (a b : List (String × String)) (key value : String)
    (h : ∀ kv ∈ b, kv.1 ≠ key) :
    stub.GetState (runPuts stub st (a ++ (key, value) :: b)) key = .ok (some value) := by
  rw [runPuts_append, runPuts, get_runPuts_other stub hs _ b key h]
  exact hs.get_same _ key value

/-- Replaying a sequence of puts on the state they produced changes no
reading. -/
theorem get_runPuts_twice (hs : PutSucceeds stub) (st : σ)
    (puts : List (String × String)) (key : String) :
    stub.GetState (runPuts stub (runPuts stub st puts) puts) key =
      stub.GetState (runPuts stub st puts) key := by
  by_cases hmem : ∃ kv ∈ puts, kv.1 = key
  · -- split at the last put naming `key`
    have hsplit : ∀ (l : List (String × String)), (∃ kv ∈ l, kv.1 = key) →
        ∃ a value b, l = a ++ (key, value) :: b ∧ ∀ kv ∈ b, kv.1 ≠ key := by
      intro l
      induction l with
      | nil => rintro ⟨kv, hkv, -⟩; cases hkv
      | cons x l ih =>
        intro _
        by_cases hl : ∃ kv ∈ l, kv.1 = key
        · obtain ⟨a, value, b, rfl, hb⟩ := ih hl
          exact ⟨x :: a, value, b, rfl, hb⟩
        · have hx : x.1 = key := by
            rename_i hex
            obtain ⟨kv, hkv, hk⟩ := hex
            rcases List.mem_cons.mp hkv with rfl | hin
            · exact hk
            · exact absurd ⟨kv, hin, hk⟩ hl
          refine ⟨[], x.2, l, ?_, fun kv hkv hk => hl ⟨kv, hkv, hk⟩⟩
          obtain ⟨k, v⟩ := x
          cases hx
          rfl
    obtain ⟨a, value, b, hab, hb⟩ := hsplit puts hmem
    rw [hab, get_runPuts_last stub hs _ a b key value hb,
      get_runPuts_last stub hs _ a b key value hb]
  · have hno : ∀ kv ∈ puts, kv.1 ≠ key := fun kv hkv hk => hmem ⟨kv, hkv, hk⟩
    rw [get_runPuts_other stub hs _ puts key hno]


theorem missingIdErrors_length (docs : List Doc) (i : Nat) :
    (missingIdErrors i docs).length = docs.countP Doc.lacksId := by
  induction docs generalizing i with
  | nil => rfl
  | cons d docs ih =>
    by_cases h : d.lacksId = true
    · simp [missingIdErrors, h, ih, List.countP_cons]
    · simp [missingIdErrors, h, ih, List.countP_cons]

/-- The loop on documents that all pass the key derivation and serialize,
against a store that refuses no put: every document with a key is stored and
counted, every document without `_id` is counted as failed. -/
theorem processDocuments_clean (hput : ∀ st key value, (stub.PutState st key value).1 = none)
    (docs : List Doc) (hid : ∀ d ∈ docs, d.idChecked = true)
    (hser : ∀ d ∈ docs, d.key?.isSome = true → (json.MarshalDoc d).isOk = true)
    (i : Nat) (result : BatchResult) (st : σ) :
    processDocuments json stub i docs result st =
      (.returned
        { result with
          SuccessfulDocs := result.SuccessfulDocs + docs.countP (fun d => d.key?.isSome)
          FailedDocs := result.FailedDocs + docs.countP Doc.lacksId
          Errors := result.Errors ++ missingIdErrors i docs },
        runPuts stub st (putsOf json docs)) := by
  induction docs generalizing i result st with
  | nil => simp [processDocuments, missingIdErrors, runPuts, putsOf]
  | cons d docs ih =>
    have hid' : ∀ d' ∈ docs, d'.idChecked = true :=
      fun d' hd' => hid d' (List.mem_cons_of_mem _ hd')
    have hser' : ∀ d' ∈ docs, d'.key?.isSome = true → (json.MarshalDoc d').isOk = true :=
      fun d' hd' => hser d' (List.mem_cons_of_mem _ hd')
    rcases Doc.idChecked_cases d (hid d (List.mem_cons_self _ _)) with hl | ⟨key, hl⟩
    · have hlack : d.lacksId = true := by simp [Doc.lacksId, hl]
      have hkey : d.key?.isSome = false := by simp [Doc.key?, hl]
      rw [processDocuments_lacksId json stub i d docs result st hl, ih hid' hser']
      simp [BatchResult.fail, missingIdErrors, putsOf, hl, hlack, hkey, List.countP_cons,
        Nat.add_assoc, Nat.add_comm 1]
    · have hlack : d.lacksId = false := by simp [Doc.lacksId, hl]
      have hkey : d.key?.isSome = true := by simp [Doc.key?, hl]
      have hok := hser d (List.mem_cons_self _ _) hkey
      cases hm : json.MarshalDoc d with
      | error err => simp [hm, Except.isOk, Except.toBool] at hok
      | ok docBytes =>
        have hp : stub.PutState st key docBytes =
            (none, (stub.PutState st key docBytes).2) :=
          Prod.ext (hput st key docBytes) rfl
        rw [processDocuments_stored json stub i d docs result st _ key docBytes hl hm hp,
          ih hid' hser']
        simp [BatchResult.succeed, missingIdErrors, putsOf, runPuts, hl, hm, hlack, hkey,
          List.countP_cons, Nat.add_assoc, Nat.add_comm 1]

/-- Every put of `putsOf` stores the serialization of a document under its key. -/
theorem mem_putsOf (docs : List Doc) (kv : String × String) (h : kv ∈ putsOf json docs) :
    ∃ d ∈ docs, d.key? = some kv.1 ∧ json.MarshalDoc d = .ok kv.2 := by
  induction docs with
  | nil => cases h
  | cons d docs ih =>
    have lift : (∃ d' ∈ docs, d'.key? = some kv.1 ∧ json.MarshalDoc d' = .ok kv.2) →
        ∃ d' ∈ d :: docs, d'.key? = some kv.1 ∧ json.MarshalDoc d' = .ok kv.2 := by
      rintro ⟨d', hd', h1, h2⟩
      exact ⟨d', List.mem_cons_of_mem _ hd', h1, h2⟩
    unfold putsOf at h
    split at h
    · rename_i key hl
      split at h
      · rename_i docBytes hm
        rcases List.mem_cons.mp h with rfl | hin
        · exact ⟨d, List.mem_cons_self _ _, (Doc.key?_eq_some d key).mpr hl, hm⟩
        · exact lift (ih hin)
      · exact lift (ih h)
    · cases h
    · exact lift (ih h)

/-- The puts of a batch whose first part passes the key derivation: those of
the first part, then those of the rest. -/
theorem putsOf_append (pre post : List Doc) (h : ∀ d ∈ pre, d.idChecked = true) :
    putsOf json (pre ++ post) = putsOf json pre ++ putsOf json post := by
  induction pre with
  | nil => rfl
  | cons d pre ih =>
    have ih' := ih (fun d' hd' => h d' (List.mem_cons_of_mem _ hd'))
    rcases Doc.idChecked_cases d (h d (List.mem_cons_self _ _)) with hl | ⟨key, hl⟩
    · simp only [List.cons_append, putsOf, hl]
      exact ih'
    · cases hm : json.MarshalDoc d with
      | error err =>
        simp only [List.cons_append, putsOf, hl, hm]
        exact ih'
      | ok docBytes =>
        simp only [List.cons_append, putsOf, hl, hm]
        exact congrArg _ ih'

/-! ## The call as a whole -/

/-- Past the argument, parse and emptiness checks, `batchInsert` runs the loop
and wraps its result. -/
theorem batchInsert_loop (elapsed : String) (st : σ) (payload : String) (docs : List Doc)
    (hparse : json.UnmarshalBatch payload = .ok ⟨docs⟩) (hne : docs ≠ []) :
    batchInsert json stub elapsed st [payload] =
      match processDocuments json stub 0 docs (newResult docs.length) st with
      | (.returned result, st') =>
        (.returned (shim.Success
          (json.MarshalResult { result with ProcessingTime := elapsed })), st')
      | (.panicked msg, st') => (.panicked msg, st') := by
  have hlen : ¬ docs.length = 0 := fun h => hne (List.length_eq_zero.mp h)
  simp only [batchInsert, hparse, hlen, if_false]

end Loop

theorem lookup_filter_ne (st : List (String × String)) (key other : String)
    (h : other ≠ key) :
    (st.filter (fun kv => kv.1 ≠ key)).lookup other = st.lookup other := by
  induction st with
  | nil => rfl
  | cons kv st ih =>
    obtain ⟨k, v⟩ := kv
    by_cases hk : k = key
    · subst hk
      have : (other == k) = false := by simpa using h
      simpa [List.filter_cons, List.lookup_cons, this] using ih
    · by_cases ho : other = k
      · subst ho; simp [List.filter_cons, List.lookup_cons, hk]
      · have : (other == k) = false := by simpa using ho
        simpa [List.filter_cons, List.lookup_cons, hk, this] using ih

/-- The in-memory sample store is a store whose put succeeds. -/
theorem memStub_putSucceeds : PutSucceeds memStub where
  put_ok _ _ _ := rfl
  get_same st key value := by simp [memStub, List.lookup_cons]
  get_other st key value other h := by
    have : (other == key) = false := by simpa using h
    have hf := lookup_filter_ne st key other h
    simpa [memStub, List.lookup_cons, this] using hf

/-- The sample store that rejects the empty key is a keyed store. -/
theorem strictStub_keyedStore : KeyedStore strictStub where
  put_same st key value st' h := by
    by_cases hk : key = ""
    · simp [strictStub, hk] at h
    · simp only [strictStub, hk, if_false, Prod.mk.injEq, true_and] at h
      subst h
      simp [strictStub, List.lookup_cons]
  put_other st key value st' other h hne := by
    by_cases hk : key = ""
    · simp [strictStub, hk] at h
    · simp only [strictStub, hk, if_false, Prod.mk.injEq, true_and] at h
      subst h
      have hb : (other == key) = false := by simpa using hne
      have hf := lookup_filter_ne st key other hne
      simpa [strictStub, List.lookup_cons, hb] using hf
  put_error st key value err st' other h := by
    by_cases hk : key = ""
    · simp only [strictStub, hk, if_true, Prod.mk.injEq] at h
      rw [← h.2]
    · simp [strictStub, hk] at h

/-- The sample store whose refusal tells the number of keys is a keyed store. -/
theorem countingStub_keyedStore : KeyedStore countingStub where
  put_same st key value st' h := by
    by_cases hk : key = ""
    · simp [countingStub, hk] at h
    · simp only [countingStub, hk, if_false, Prod.mk.injEq, true_and] at h
      subst h
      simp [countingStub, List.lookup_cons]
  put_other st key value st' other h hne := by
    by_cases hk : key = ""
    · simp [countingStub, hk] at h
    · simp only [countingStub, hk, if_false, Prod.mk.injEq, true_and] at h
      subst h
      have hb : (other == key) = false := by simpa using hne
      have hf := lookup_filter_ne st key other hne
      simpa [countingStub, List.lookup_cons, hb] using hf
  put_error st key value err st' other h := by
    by_cases hk : key = ""
    · simp only [countingStub, hk, if_true, Prod.mk.injEq] at h
      rw [← h.2]
    · simp [countingStub, hk] at h

/-! ## One iteration, whatever follows -/

section Iterations

variable {σ : Type} (json : Json) (stub : ChaincodeStubInterface σ)

theorem errorText_missing (a : String) : a ++ ": " ++ "missing _id" = a ++ ": missing _id" := by
  rw [String.append_assoc]; rfl

theorem errorText_marshal (a err : String) :
    a ++ ": " ++ ("marshal error: " ++ err) = a ++ ": marshal error: " ++ err := by
  have h : (": marshal error: " : String) = ": " ++ "marshal error: " := by decide
  rw [h]
  simp only [String.append_assoc]

theorem errorText_storage (a err : String) :
    a ++ ": " ++ ("storage error: " ++ err) = a ++ ": storage error: " ++ err := by
  have h : (": storage error: " : String) = ": " ++ "storage error: " := by decide
  rw [h]
  simp only [String.append_assoc]

/-- The three ways an iteration can go, whatever documents follow: the key
assertion panics; or the document is counted as failed, with an error that
starts with its index, and no put is made or the put made is refused; or the
put reports no error and the document is counted as successful. -/
theorem processDocuments_step (i : Nat) (d : Doc) (r : BatchResult) (s : σ) :
    (∃ id, d.lookup "_id" = some id ∧ (∀ key, id ≠ .string key) ∧
      ∀ tail, processDocuments json stub i (d :: tail) r s =
        (.panicked (assertStringPanic id), s)) ∨
    (∃ reason s1,
      (s1 = s ∨ ∃ key bytes err, d.lookup "_id" = some (.string key) ∧
        json.MarshalDoc d = .ok bytes ∧ stub.PutState s key bytes = (some err, s1)) ∧
      ∀ tail, processDocuments json stub i (d :: tail) r s =
        processDocuments json stub (i + 1) tail
          (r.fail ("Doc " ++ toString i ++ ": " ++ reason)) s1) ∨
    (∃ key bytes s1, d.lookup "_id" = some (.string key) ∧ json.MarshalDoc d = .ok bytes ∧
      stub.PutState s key bytes = (none, s1) ∧
      ∀ tail, processDocuments json stub i (d :: tail) r s =
        processDocuments json stub (i + 1) tail r.succeed s1) := by
  cases hl : d.lookup "_id" with
  | none =>
    refine Or.inr (Or.inl ⟨"missing _id", s, Or.inl rfl, fun tail => ?_⟩)
    rw [processDocuments_lacksId json stub i d tail r s hl, errorText_missing]
  | some id =>
    by_cases hid : ∃ key, id = .string key
    · obtain ⟨key, rfl⟩ := hid
      cases hm : json.MarshalDoc d with
      | error err =>
        refine Or.inr (Or.inl ⟨"marshal error: " ++ err, s, Or.inl rfl, fun tail => ?_⟩)
        rw [processDocuments_marshalError json stub i d tail r s key err hl hm,
          errorText_marshal]
      | ok bytes =>
        rcases hp : stub.PutState s key bytes with ⟨_ | err, s1⟩
        · exact Or.inr (Or.inr ⟨key, bytes, s1, rfl, rfl, hp, fun tail =>
            processDocuments_stored json stub i d tail r s s1 key bytes hl hm hp⟩)
        · refine Or.inr (Or.inl ⟨"storage error: " ++ err, s1,
            Or.inr ⟨key, bytes, err, rfl, rfl, hp⟩, fun tail => ?_⟩)
          rw [processDocuments_putError json stub i d tail r s s1 key bytes err hl hm hp,
            errorText_storage]
    · have hns : ∀ key, id ≠ .string key := fun key h => hid ⟨key, h⟩
      exact Or.inl ⟨id, rfl, hns, fun tail =>
        processDocuments_notString json stub i d tail r s id hl hns⟩

theorem afterIterations_zero (docs : List Doc) (st : σ) :
    afterIterations json stub docs st 0 = (.returned (newResult docs.length), st) := rfl

theorem afterIterations_length (docs : List Doc) (st : σ) :
    afterIterations json stub docs st docs.length =
      processDocuments json stub 0 docs (newResult docs.length) st := by
  simp [afterIterations]

/-- Iteration `k` runs the loop body on document `k` from the result and state
the first `k` iterations left; after a panic nothing more runs. -/
theorem afterIterations_succ (docs : List Doc) (st : σ) (k : Nat) (d : Doc)
    (hd : docs[k]? = some d) :
    afterIterations json stub docs st (k + 1) =
      match afterIterations json stub docs st k with
      | (.returned r, s) => processDocuments json stub k [d] r s
      | (.panicked msg, s) => (.panicked msg, s) := by
  have hk : k < docs.length := by
    rcases Nat.lt_or_ge k docs.length with h | h
    · exact h
    · rw [List.getElem?_eq_none h] at hd; cases hd
  have hlen : (docs.take k).length = k := by
    rw [List.length_take]; exact Nat.min_eq_left (Nat.le_of_lt hk)
  unfold afterIterations
  rw [List.take_succ, hd, Option.toList, processDocuments_append, hlen, Nat.zero_add]

/-- What iteration `k` does to the result and state the earlier iterations
left. -/
theorem afterIterations_step (docs : List Doc) (st : σ) (k : Nat) (d : Doc)
    (hd : docs[k]? = some d) (r : BatchResult) (s : σ)
    (hk : afterIterations json stub docs st k = (.returned r, s)) :
    (∃ msg, afterIterations json stub docs st (k + 1) = (.panicked msg, s)) ∨
    (∃ reason s1,
      (s1 = s ∨ ∃ key bytes err, d.lookup "_id" = some (.string key) ∧
        json.MarshalDoc d = .ok bytes ∧ stub.PutState s key bytes = (some err, s1)) ∧
      afterIterations json stub docs st (k + 1) =
        (.returned (r.fail ("Doc " ++ toString k ++ ": " ++ reason)), s1)) ∨
    (∃ key bytes s1, d.lookup "_id" = some (.string key) ∧ json.MarshalDoc d = .ok bytes ∧
      stub.PutState s key bytes = (none, s1) ∧
      afterIterations json stub docs st (k + 1) = (.returned r.succeed, s1)) := by
  rw [afterIterations_succ json stub docs st k d hd, hk]
  rcases processDocuments_step json stub k d r s with
    ⟨id, -, -, h⟩ | ⟨reason, s1, hs1, h⟩ | ⟨key, bytes, s1, h1, h2, h3, h⟩
  · exact Or.inl ⟨_, h []⟩
  · exact Or.inr (Or.inl ⟨reason, s1, hs1, (h []).trans rfl⟩)
  · exact Or.inr (Or.inr ⟨key, bytes, s1, h1, h2, h3, (h []).trans rfl⟩)

theorem afterIterations_panicked (docs : List Doc) (st : σ) (k : Nat) (d : Doc)
    (hd : docs[k]? = some d) (msg : String) (s : σ)
    (hk : afterIterations json stub docs st k = (.panicked msg, s)) :
    afterIterations json stub docs st (k + 1) = (.panicked msg, s) := by
  rw [afterIterations_succ json stub docs st k d hd, hk]

theorem afterIterations_beyond (docs : List Doc) (st : σ) (k : Nat) (hk : docs.length ≤ k) :
    afterIterations json stub docs st (k + 1) = afterIterations json stub docs st k := by
  unfold afterIterations
  rw [List.take_of_length_le hk, List.take_of_length_le (Nat.le_succ_of_le hk)]

theorem failedAt_of_fail (docs : List Doc) (st : σ) (k : Nat) (r : BatchResult)
    (s s1 : σ) (msg : String)
    (hk : afterIterations json stub docs st k = (.returned r, s))
    (hk1 : afterIterations json stub docs st (k + 1) = (.returned (r.fail msg), s1)) :
    failedAt json stub docs st k = true ∧ storedAt json stub docs st k = false := by
  simp [failedAt, storedAt, hk, hk1, BatchResult.fail]

theorem storedAt_of_succeed (docs : List Doc) (st : σ) (k : Nat) (r : BatchResult)
    (s s1 : σ)
    (hk : afterIterations json stub docs st k = (.returned r, s))
    (hk1 : afterIterations json stub docs st (k + 1) = (.returned r.succeed, s1)) :
    failedAt json stub docs st k = false ∧ storedAt json stub docs st k = true := by
  simp [failedAt, storedAt, hk, hk1, BatchResult.succeed]

theorem failedAt_of_panicked (docs : List Doc) (st : σ) (k : Nat) (msg : String) (s : σ)
    (hk1 : afterIterations json stub docs st (k + 1) = (.panicked msg, s)) :
    failedAt json stub docs st k = false ∧ storedAt json stub docs st k = false := by
  unfold failedAt storedAt
  rw [hk1]
  cases (afterIterations json stub docs st k).1 <;> exact ⟨rfl, rfl⟩

end Iterations

/-! ## The outcome of each document -/

section Outcomes

variable {σ : Type} (json : Json) (stub : ChaincodeStubInterface σ)

/-- After `k` iterations that all returned, the errors are the entries of the
documents counted as failed so far, in input order, each starting with the
index of its document; the counters count the failed and the stored
documents; and every document visited is counted as exactly one of the two. -/
theorem afterIterations_errors (docs : List Doc) (st : σ) (k : Nat) (hk : k ≤ docs.length)
    (rk : BatchResult) (sk : σ)
    (hrun : afterIterations json stub docs st k = (.returned rk, sk)) :
    ∃ reasons : List String,
      reasons.length = ((List.range k).filter (failedAt json stub docs st)).length ∧
      rk.Errors = List.zipWith (fun i reason => "Doc " ++ toString i ++ ": " ++ reason)
        ((List.range k).filter (failedAt json stub docs st)) reasons ∧
      rk.FailedDocs = ((List.range k).filter (failedAt json stub docs st)).length ∧
      rk.SuccessfulDocs = ((List.range k).filter (storedAt json stub docs st)).length ∧
      ∀ j, j < k →
        (failedAt json stub docs st j = true ∧ storedAt json stub docs st j = false) ∨
        (failedAt json stub docs st j = false ∧ storedAt json stub docs st j = true) := by
  induction k generalizing rk sk with
  | zero =>
    rw [afterIterations_zero] at hrun
    cases hrun
    exact ⟨[], rfl, rfl, rfl, rfl, fun j hj => absurd hj (Nat.not_lt_zero j)⟩
  | succ k ih =>
    have hklt : k < docs.length := hk
    have hd : docs[k]? = some docs[k] := List.getElem?_eq_getElem hklt
    rcases hprev : afterIterations json stub docs st k with ⟨r | msg, s⟩
    · obtain ⟨reasons, hlen, herr, hfail, hsucc, hone⟩ := ih (Nat.le_of_lt hklt) r s hprev
      rcases afterIterations_step json stub docs st k docs[k] hd r s hprev with
        ⟨msg, h⟩ | ⟨reason, s1, -, h⟩ | ⟨key, bytes, s1, -, -, -, h⟩
      · rw [h] at hrun; cases hrun
      · obtain ⟨hf, hs⟩ := failedAt_of_fail json stub docs st k r s s1 _ hprev h
        rw [h] at hrun
        cases hrun
        refine ⟨reasons ++ [reason], ?_, ?_, ?_, ?_, ?_⟩
        · simp [List.range_succ, List.filter_append, hf, hlen]
        · simp only [List.range_succ, List.filter_append, List.filter_cons, hf,
            List.filter_nil, if_true]
          rw [List.zipWith_append _ _ _ _ _ hlen.symm]
          simp [BatchResult.fail, herr]
        · simp [List.range_succ, List.filter_append, hf, BatchResult.fail, hfail]
        · simp [List.range_succ, List.filter_append, hs, BatchResult.fail, hsucc]
        · intro j hj
          rcases Nat.lt_or_ge j k with hlt | hge
          · exact hone j hlt
          · have : j = k := by omega
            subst this
            exact Or.inl ⟨hf, hs⟩
      · obtain ⟨hf, hs⟩ := storedAt_of_succeed json stub docs st k r s s1 hprev h
        rw [h] at hrun
        cases hrun
        refine ⟨reasons, ?_, ?_, ?_, ?_, ?_⟩
        · simp [List.range_succ, List.filter_append, hf, hlen]
        · simp [List.range_succ, List.filter_append, hf, BatchResult.succeed, herr]
        · simp [List.range_succ, List.filter_append, hf, BatchResult.succeed, hfail]
        · simp [List.range_succ, List.filter_append, hs, BatchResult.succeed, hsucc]
        · intro j hj
          rcases Nat.lt_or_ge j k with hlt | hge
          · exact hone j hlt
          · have : j = k := by omega
            subst this
            exact Or.inr ⟨hf, hs⟩
    · rw [afterIterations_panicked json stub docs st k docs[k] hd msg s hprev] at hrun
      cases hrun

end Outcomes

/-! ## The result a success response carries -/

section Whole

variable {σ : Type} (json : Json) (stub : ChaincodeStubInterface σ)

/-- A success response of `batchInsert` carries the result of the loop over
the documents the payload parsed to. -/
theorem batchInsert_success (elapsed : String) (st st' : σ) (payload : String)
    (resp : Response)
    (hret : batchInsert json stub elapsed st [payload] = (.returned resp, st'))
    (hok : resp.Status = shim.OK) :
    ∃ docs result,
      json.UnmarshalBatch payload = .ok ⟨docs⟩ ∧
      processDocuments json stub 0 docs (newResult docs.length) st = (.returned result, st') ∧
      resp = shim.Success (json.MarshalResult { result with ProcessingTime := elapsed }) := by
  cases hparse : json.UnmarshalBatch payload with
  | error err =>
    simp [batchInsert, hparse] at hret
    rw [← hret.1] at hok
    simp [shim.Error, shim.ERROR, shim.OK] at hok
  | ok batchData =>
    obtain ⟨docs⟩ := batchData
    by_cases hne : docs = []
    · simp [batchInsert, hparse, hne] at hret
      rw [← hret.1] at hok
      simp [shim.Error, shim.ERROR, shim.OK] at hok
    · rw [batchInsert_loop json stub elapsed st payload docs hparse hne] at hret
      rcases hloop : processDocuments json stub 0 docs (newResult docs.length) st with
        ⟨result | msg, stf⟩
      · rw [hloop] at hret
        simp only [Prod.mk.injEq, Outcome.returned.injEq] at hret
        obtain ⟨hresp, hst⟩ := hret
        subst hst
        exact ⟨docs, result, rfl, hloop, hresp.symm⟩
      · rw [hloop] at hret
        simp at hret

end Whole

/-! ## The record of the puts -/

section Log

variable {σ : Type} (json : Json) (stub : ChaincodeStubInterface σ)

/-- A put through the recording stub is the put of the stub; the record grows
by the pair exactly when no error is reported. -/
theorem withLog_put (s : σ) (log : List (String × String)) (key bytes : String)
    (e : Option String) (s1 : σ × List (String × String))
    (h : (withLog stub).PutState (s, log) key bytes = (e, s1)) :
    stub.PutState s key bytes = (e, s1.1) ∧
    s1.2 = (match e with
      | none => log ++ [(key, bytes)]
      | some _ => log) := by
  unfold withLog at h
  simp only at h
  rcases hp : stub.PutState s key bytes with ⟨_ | err, s'⟩
  · rw [hp] at h
    simp only [Prod.mk.injEq] at h
    obtain ⟨rfl, rfl⟩ := h
    exact ⟨rfl, rfl⟩
  · rw [hp] at h
    simp only [Prod.mk.injEq] at h
    obtain ⟨rfl, rfl⟩ := h
    exact ⟨rfl, rfl⟩

/-- Recording the puts changes neither the outcome of the loop nor the state
of the store it leaves. -/
theorem processDocuments_withLog (docs : List Doc) (i : Nat) (r : BatchResult) (s : σ)
    (log : List (String × String)) :
    (processDocuments json (withLog stub) i docs r (s, log)).1 =
      (processDocuments json stub i docs r s).1 ∧
    (processDocuments json (withLog stub) i docs r (s, log)).2.1 =
      (processDocuments json stub i docs r s).2 := by
  induction docs generalizing i r s log with
  | nil => exact ⟨rfl, rfl⟩
  | cons d docs ih =>
    cases hl : d.lookup "_id" with
    | none =>
      rw [processDocuments_lacksId json (withLog stub) i d docs r (s, log) hl,
        processDocuments_lacksId json stub i d docs r s hl]
      exact ih _ _ _ _
    | some id =>
      by_cases hid : ∃ key, id = .string key
      · obtain ⟨key, rfl⟩ := hid
        cases hm : json.MarshalDoc d with
        | error err =>
          rw [processDocuments_marshalError json (withLog stub) i d docs r (s, log) key err
              hl hm,
            processDocuments_marshalError json stub i d docs r s key err hl hm]
          exact ih _ _ _ _
        | ok bytes =>
          rcases hp : stub.PutState s key bytes with ⟨_ | err, s1⟩
          · have hw : (withLog stub).PutState (s, log) key bytes =
                (none, (s1, log ++ [(key, bytes)])) := by
              simp [withLog, hp]
            rw [processDocuments_stored json (withLog stub) i d docs r (s, log) _ key bytes
                hl hm hw,
              processDocuments_stored json stub i d docs r s s1 key bytes hl hm hp]
            exact ih _ _ _ _
          · have hw : (withLog stub).PutState (s, log) key bytes = (some err, (s1, log)) := by
              simp [withLog, hp]
            rw [processDocuments_putError json (withLog stub) i d docs r (s, log) _ key bytes
                err hl hm hw,
              processDocuments_putError json stub i d docs r s s1 key bytes err hl hm hp]
            exact ih _ _ _ _
      · have hns : ∀ key, id ≠ .string key := fun key h => hid ⟨key, h⟩
        rw [processDocuments_notString json (withLog stub) i d docs r (s, log) id hl hns,
          processDocuments_notString json stub i d docs r s id hl hns]
        exact ⟨rfl, rfl⟩

/-- The loop uses the stub only through `PutState`: two stubs with the same
`PutState` give the same run. -/
theorem processDocuments_congr_put (stub1 stub2 : ChaincodeStubInterface σ)
    (h : stub1.PutState = stub2.PutState) (docs : List Doc) (i : Nat) (r : BatchResult)
    (s : σ) :
    processDocuments json stub1 i docs r s = processDocuments json stub2 i docs r s := by
  induction docs generalizing i r s with
  | nil => rfl
  | cons d docs ih =>
    rw [processDocuments, processDocuments, h]
    simp only [ih]

/-- When the error a put reports, or its absence, does not depend on the state,
neither do the outcome of the loop and the record of its puts. -/
theorem processDocuments_withLog_dep
    (hdep : ∀ s1 s2 key value, (stub.PutState s1 key value).1 = (stub.PutState s2 key value).1)
    (docs : List Doc) (i : Nat) (r : BatchResult) (s1 s2 : σ)
    (log : List (String × String)) :
    (processDocuments json (withLog stub) i docs r (s1, log)).1 =
      (processDocuments json (withLog stub) i docs r (s2, log)).1 ∧
    (processDocuments json (withLog stub) i docs r (s1, log)).2.2 =
      (processDocuments json (withLog stub) i docs r (s2, log)).2.2 := by
  induction docs generalizing i r s1 s2 log with
  | nil => exact ⟨rfl, rfl⟩
  | cons d docs ih =>
    cases hl : d.lookup "_id" with
    | none =>
      rw [processDocuments_lacksId json (withLog stub) i d docs r (s1, log) hl,
        processDocuments_lacksId json (withLog stub) i d docs r (s2, log) hl]
      exact ih _ _ _ _ _
    | some id =>
      by_cases hid : ∃ key, id = .string key
      · obtain ⟨key, rfl⟩ := hid
        cases hm : json.MarshalDoc d with
        | error err =>
          rw [processDocuments_marshalError json (withLog stub) i d docs r (s1, log) key err
              hl hm,
            processDocuments_marshalError json (withLog stub) i d docs r (s2, log) key err
              hl hm]
          exact ih _ _ _ _ _
        | ok bytes =>
          rcases hp1 : stub.PutState s1 key bytes with ⟨e1, t1⟩
          rcases hp2 : stub.PutState s2 key bytes with ⟨e2, t2⟩
          have he : e1 = e2 := by
            have := hdep s1 s2 key bytes
            rw [hp1, hp2] at this
            exact this
          subst he
          cases e1 with
          | none =>
            have hw1 : (withLog stub).PutState (s1, log) key bytes =
                (none, (t1, log ++ [(key, bytes)])) := by simp [withLog, hp1]
            have hw2 : (withLog stub).PutState (s2, log) key bytes =
                (none, (t2, log ++ [(key, bytes)])) := by simp [withLog, hp2]
            rw [processDocuments_stored json (withLog stub) i d docs r (s1, log) _ key bytes
                hl hm hw1,
              processDocuments_stored json (withLog stub) i d docs r (s2, log) _ key bytes
                hl hm hw2]
            exact ih _ _ _ _ _
          | some err =>
            have hw1 : (withLog stub).PutState (s1, log) key bytes =
                (some err, (t1, log)) := by simp [withLog, hp1]
            have hw2 : (withLog stub).PutState (s2, log) key bytes =
                (some err, (t2, log)) := by simp [withLog, hp2]
            rw [processDocuments_putError json (withLog stub) i d docs r (s1, log) _ key
                bytes err hl hm hw1,
              processDocuments_putError json (withLog stub) i d docs r (s2, log) _ key
                bytes err hl hm hw2]
            exact ih _ _ _ _ _
      · have hns : ∀ key, id ≠ .string key := fun key h => hid ⟨key, h⟩
        rw [processDocuments_notString json (withLog stub) i d docs r (s1, log) id hl hns,
          processDocuments_notString json (withLog stub) i d docs r (s2, log) id hl hns]
        exact ⟨rfl, rfl⟩

/-- Over a keyed store, the loop extends the record by its puts, and afterwards
a key reads the last value recorded for it, or what it read before when none
is. -/
theorem processDocuments_withLog_reads (hs : KeyedStore stub) (docs : List Doc) (i : Nat)
    (r : BatchResult) (s : σ) (log : List (String × String)) :
    ∃ new : List (String × String),
      (processDocuments json (withLog stub) i docs r (s, log)).2.2 = log ++ new ∧
      ∀ key,
        stub.GetState (processDocuments json (withLog stub) i docs r (s, log)).2.1 key =
          match new.reverse.lookup key with
          | some value => .ok (some value)
          | none => stub.GetState s key := by
  induction docs generalizing i r s log with
  | nil => exact ⟨[], by simp [processDocuments], fun key => rfl⟩
  | cons d docs ih =>
    rcases processDocuments_step json (withLog stub) i d r (s, log) with
      ⟨id, -, -, h⟩ | ⟨reason, s1, hs1, h⟩ | ⟨key, bytes, s1, -, -, hput, h⟩
    · rw [h docs]
      exact ⟨[], by simp, fun key => rfl⟩
    · rw [h docs]
      rcases hs1 with rfl | ⟨key, bytes, err, -, -, hput⟩
      · exact ih _ _ _ _
      · obtain ⟨hp, hlog⟩ := withLog_put stub s log key bytes _ s1 hput
        obtain ⟨new, h1, h2⟩ := ih (i + 1)
          (r.fail ("Doc " ++ toString i ++ ": " ++ reason)) s1.1 s1.2
        refine ⟨new, ?_, ?_⟩
        · rw [show s1 = (s1.1, s1.2) from rfl, h1, hlog]
        · intro key'
          rw [show s1 = (s1.1, s1.2) from rfl, h2 key']
          cases new.reverse.lookup key' with
          | some value => rfl
          | none => exact hs.put_error s key bytes err s1.1 key' hp
    · rw [h docs]
      obtain ⟨hp, hlog⟩ := withLog_put stub s log key bytes _ s1 hput
      obtain ⟨new, h1, h2⟩ := ih (i + 1) r.succeed s1.1 s1.2
      refine ⟨(key, bytes) :: new, ?_, ?_⟩
      · rw [show s1 = (s1.1, s1.2) from rfl, h1, hlog]
        simp
      · intro key'
        rw [show s1 = (s1.1, s1.2) from rfl, h2 key', List.reverse_cons, List.lookup_append]
        cases new.reverse.lookup key' with
        | some value => rfl
        | none =>
          by_cases hk : key' = key
          · subst hk
            simp [List.lookup_cons, hs.put_same s key' bytes s1.1 hp]
          · have hb : (key' == key) = false := by simpa using hk
            simp [List.lookup_cons, hb, hs.put_other s key bytes s1.1 key' hp hk]

theorem lookup_reverse_of_mem (log : List (String × String)) (key : String)
    (h : key ∈ log.map Prod.fst) :
    ∃ value, log.reverse.lookup key = some value ∧ (key, value) ∈ log := by
  induction log using List.reverseRecOn with
  | nil => simp at h
  | append_singleton log kv ih =>
    obtain ⟨k, v⟩ := kv
    rw [List.reverse_append, List.reverse_singleton, List.singleton_append]
    by_cases hk : key = k
    · subst hk
      exact ⟨v, by simp [List.lookup_cons], by simp⟩
    · have hb : (key == k) = false := by simpa using hk
      have hin : key ∈ log.map Prod.fst := by
        simp only [List.map_append, List.map_cons, List.map_nil, List.mem_append,
          List.mem_singleton] at h
        rcases h with h | h
        · exact h
        · exact absurd h hk
      obtain ⟨value, h1, h2⟩ := ih hin
      exact ⟨value, by simp [List.lookup_cons, hb, h1], by simp [h2]⟩

theorem lookup_reverse_of_not_mem (log : List (String × String)) (key : String)
    (h : key ∉ log.map Prod.fst) : log.reverse.lookup key = none := by
  induction log using List.reverseRecOn with
  | nil => rfl
  | append_singleton log kv ih =>
    obtain ⟨k, v⟩ := kv
    rw [List.reverse_append, List.reverse_singleton, List.singleton_append]
    simp only [List.map_append, List.map_cons, List.map_nil, List.mem_append,
      List.mem_singleton, not_or] at h
    have hb : (key == k) = false := by simpa using h.2
    simp [List.lookup_cons, hb, ih h.1]

end Log

/-! ## What a call changes in the store -/

section Frame

variable {σ : Type} (json : Json) (stub : ChaincodeStubInterface σ)

theorem afterIterations_withLog (docs : List Doc) (st : σ) (log : List (String × String))
    (k : Nat) :
    (afterIterations json (withLog stub) docs (st, log) k).1 =
      (afterIterations json stub docs st k).1 ∧
    (afterIterations json (withLog stub) docs (st, log) k).2.1 =
      (afterIterations json stub docs st k).2 :=
  processDocuments_withLog json stub _ _ _ _ _

/-- Which documents are counted as successful does not depend on recording the
puts. -/
theorem storedAt_withLog (docs : List Doc) (st : σ) (log : List (String × String))
    (k : Nat) :
    storedAt json (withLog stub) docs (st, log) k = storedAt json stub docs st k := by
  unfold storedAt
  rw [(afterIterations_withLog json stub docs st log k).1,
    (afterIterations_withLog json stub docs st log (k + 1)).1]

/-- After `k` iterations the keys recorded are the `_id`s of the documents
counted as successful so far, in input order. -/
theorem afterIterations_log (docs : List Doc) (st : σ) (k : Nat) (hk : k ≤ docs.length) :
    ((afterIterations json (withLog stub) docs (st, []) k).2.2).map Prod.fst =
      ((List.range k).filter (storedAt json stub docs st)).filterMap
        (fun j => docs[j]?.bind Doc.key?) := by
  induction k with
  | zero => rfl
  | succ k ih =>
    have hklt : k < docs.length := hk
    have hd : docs[k]? = some docs[k] := List.getElem?_eq_getElem hklt
    rw [List.range_succ, List.filter_append, List.filterMap_append,
      ← ih (Nat.le_of_lt hklt)]
    have hsame := storedAt_withLog json stub docs st [] k
    rcases hprev : afterIterations json (withLog stub) docs (st, []) k with ⟨r | msg, sW⟩
    · rcases afterIterations_step json (withLog stub) docs (st, []) k docs[k] hd r sW hprev
        with ⟨msg, h⟩ | ⟨reason, s1, hs1, h⟩ | ⟨key, bytes, s1, hkey, -, hput, h⟩
      · have hst := (failedAt_of_panicked json (withLog stub) docs (st, []) k msg sW h).2
        rw [hsame] at hst
        rw [h]
        simp [hst]
      · have hst := (failedAt_of_fail json (withLog stub) docs (st, []) k r sW s1 _
          hprev h).2
        have hlog : s1.2 = sW.2 := by
          rcases hs1 with rfl | ⟨key, bytes, err, -, -, hput⟩
          · rfl
          · exact (withLog_put stub sW.1 sW.2 key bytes _ s1 hput).2
        rw [hsame] at hst
        rw [h]
        simp [hst, hlog]
      · have hst := (storedAt_of_succeed json (withLog stub) docs (st, []) k r sW s1
          hprev h).2
        have hlog : s1.2 = sW.2 ++ [(key, bytes)] :=
          (withLog_put stub sW.1 sW.2 key bytes _ s1 hput).2
        have hid : docs[k].key? = some key := (Doc.key?_eq_some docs[k] key).mpr hkey
        rw [hsame] at hst
        rw [h]
        simp [hst, hlog, hd, hid]
    · have h := afterIterations_panicked json (withLog stub) docs (st, []) k docs[k] hd
        msg sW hprev
      have hst := (failedAt_of_panicked json (withLog stub) docs (st, []) k msg sW h).2
      rw [hsame] at hst
      rw [h]
      simp [hst]

/-- Over a keyed store, the iteration of a document counted as failed leaves
every key reading as before it. -/
theorem failedAt_reads (hs : KeyedStore stub) (docs : List Doc) (st : σ) (k : Nat)
    (hf : failedAt json stub docs st k = true) (key : String) :
    stub.GetState (afterIterations json stub docs st (k + 1)).2 key =
      stub.GetState (afterIterations json stub docs st k).2 key := by
  rcases Nat.lt_or_ge k docs.length with hklt | hge
  · have hd : docs[k]? = some docs[k] := List.getElem?_eq_getElem hklt
    rcases hprev : afterIterations json stub docs st k with ⟨r | msg, s⟩
    · rcases afterIterations_step json stub docs st k docs[k] hd r s hprev with
        ⟨msg, h⟩ | ⟨reason, s1, hs1, h⟩ | ⟨key', bytes, s1, -, -, -, h⟩
      · rw [h]
      · rw [h]
        rcases hs1 with rfl | ⟨key', bytes, err, -, -, hput⟩
        · rfl
        · exact hs.put_error s key' bytes err s1 key hput
      · rw [(storedAt_of_succeed json stub docs st k r s s1 hprev h).1] at hf
        cases hf
    · rw [afterIterations_panicked json stub docs st k docs[k] hd msg s hprev]
  · rw [afterIterations_beyond json stub docs st k hge]

/-- The state `batchInsert` leaves is the state the loop leaves. -/
theorem batchInsert_loop_state (elapsed : String) (st : σ) (payload : String)
    (docs : List Doc) (hparse : json.UnmarshalBatch payload = .ok ⟨docs⟩) (hne : docs ≠ []) :
    (batchInsert json stub elapsed st [payload]).2 =
      (processDocuments json stub 0 docs (newResult docs.length) st).2 := by
  rw [batchInsert_loop json stub elapsed st payload docs hparse hne]
  rcases processDocuments json stub 0 docs (newResult docs.length) st with ⟨_ | _, _⟩ <;> rfl

/-- The outcome of `batchInsert` is a function of the outcome of the loop and
the elapsed time. -/
theorem batchInsert_loop_outcome (elapsed : String) (st : σ) (payload : String)
    (docs : List Doc) (hparse : json.UnmarshalBatch payload = .ok ⟨docs⟩) (hne : docs ≠ []) :
    (batchInsert json stub elapsed st [payload]).1 =
      match (processDocuments json stub 0 docs (newResult docs.length) st).1 with
      | .returned result =>
        .returned (shim.Success (json.MarshalResult { result with ProcessingTime := elapsed }))
      | .panicked msg => .panicked msg := by
  rw [batchInsert_loop json stub elapsed st payload docs hparse hne]
  rcases processDocuments json stub 0 docs (newResult docs.length) st with ⟨_ | _, _⟩ <;> rfl

/-- A payload that does not parse to a non-empty batch is answered by an error
response that depends on the payload alone; the state is left as it was. -/
theorem batchInsert_noLoop (payload : String)
    (h : ∀ docs, json.UnmarshalBatch payload = .ok ⟨docs⟩ → docs = []) :
    ∃ resp, ∀ (τ : Type) (stub' : ChaincodeStubInterface τ) (elapsed : String) (s : τ),
      batchInsert json stub' elapsed s [payload] = (.returned resp, s) := by
  cases hparse : json.UnmarshalBatch payload with
  | error err =>
    exact ⟨shim.Error ("Failed to parse batch data: " ++ err),
      fun τ stub' elapsed s => by simp [batchInsert, hparse]⟩
  | ok batchData =>
    obtain ⟨docs⟩ := batchData
    have hnil := h docs hparse
    subst hnil
    exact ⟨shim.Error "No documents provided",
      fun τ stub' elapsed s => by simp [batchInsert, hparse]⟩

end Frame

/-! ## Runs from two stores -/

section Independence

variable {σ : Type} (json : Json) (stub : ChaincodeStubInterface σ)

/-- The run of `batchInsert` is the same against every stub with the same put:
`batchInsert` calls neither the get nor the transaction id of its stub. -/
theorem batchInsert_congr_put (stub1 stub2 : ChaincodeStubInterface σ)
    (h : stub1.PutState = stub2.PutState) (elapsed : String) (st : σ) (args : List String) :
    batchInsert json stub1 elapsed st args = batchInsert json stub2 elapsed st args := by
  unfold batchInsert
  simp only [processDocuments_congr_put json stub1 stub2 h]

/-- Over a keyed store, a key reads after `batchInsert` the value of the last
recorded put that names it, and what it read before when none does. -/
theorem batchInsert_reads (hs : KeyedStore stub) (elapsed : String) (st : σ)
    (payload : String) (key : String) :
    stub.GetState (batchInsert json stub elapsed st [payload]).2 key =
      match (putLog json stub st [payload]).reverse.lookup key with
      | some value => .ok (some value)
      | none => stub.GetState st key := by
  by_cases hloop : ∃ docs, json.UnmarshalBatch payload = .ok ⟨docs⟩ ∧ docs ≠ []
  · obtain ⟨docs, hparse, hne⟩ := hloop
    have hput : putLog json stub st [payload] =
        (processDocuments json (withLog stub) 0 docs (newResult docs.length) (st, [])).2.2 := by
      unfold putLog
      rw [batchInsert_loop_state json (withLog stub) "" (st, []) payload docs hparse hne]
    obtain ⟨_, t2⟩ := processDocuments_withLog json stub docs 0 (newResult docs.length) st []
    obtain ⟨new, hnew, hreads⟩ := processDocuments_withLog_reads json stub hs docs 0
      (newResult docs.length) st []
    rw [List.nil_append] at hnew
    rw [batchInsert_loop_state json stub elapsed st payload docs hparse hne, ← t2, hput, hnew]
    exact hreads key
  · have hnone : ∀ docs, json.UnmarshalBatch payload = .ok ⟨docs⟩ → docs = [] := by
      intro docs hparse
      by_contra hne
      exact hloop ⟨docs, hparse, hne⟩
    obtain ⟨resp, hresp⟩ := batchInsert_noLoop json payload hnone
    have hput : putLog json stub st [payload] = [] := by
      unfold putLog
      rw [hresp]
    rw [hput, hresp]
    rfl

/-- When the error a put reports, or its absence, does not depend on the state,
two runs of `batchInsert` on a payload record the same puts, and have the same
outcome up to the processing time. -/
theorem batchInsert_dep
    (hdep : ∀ s1 s2 key value, (stub.PutState s1 key value).1 = (stub.PutState s2 key value).1)
    (e1 e2 : String) (st1 st2 : σ) (payload : String) :
    putLog json stub st1 [payload] = putLog json stub st2 [payload] ∧
    ((batchInsert json stub e1 st1 [payload]).1 = (batchInsert json stub e2 st2 [payload]).1 ∨
      ∃ result : BatchResult,
        (batchInsert json stub e1 st1 [payload]).1 =
          .returned (shim.Success
            (json.MarshalResult { result with ProcessingTime := e1 })) ∧
        (batchInsert json stub e2 st2 [payload]).1 =
          .returned (shim.Success
            (json.MarshalResult { result with ProcessingTime := e2 }))) := by
  by_cases hloop : ∃ docs, json.UnmarshalBatch payload = .ok ⟨docs⟩ ∧ docs ≠ []
  · obtain ⟨docs, hparse, hne⟩ := hloop
    obtain ⟨d1, d2⟩ := processDocuments_withLog_dep json stub hdep docs 0
      (newResult docs.length) st1 st2 []
    obtain ⟨a1, _⟩ := processDocuments_withLog json stub docs 0 (newResult docs.length) st1 []
    obtain ⟨b1, _⟩ := processDocuments_withLog json stub docs 0 (newResult docs.length) st2 []
    refine ⟨?_, ?_⟩
    · unfold putLog
      rw [batchInsert_loop_state json (withLog stub) "" (st1, []) payload docs hparse hne,
        batchInsert_loop_state json (withLog stub) "" (st2, []) payload docs hparse hne]
      exact d2
    · rw [batchInsert_loop_outcome json stub e1 st1 payload docs hparse hne,
        batchInsert_loop_outcome json stub e2 st2 payload docs hparse hne, ← a1, ← b1, d1]
      cases (processDocuments json (withLog stub) 0 docs (newResult docs.length) (st2, [])).1 with
      | returned result => exact Or.inr ⟨result, rfl, rfl⟩
      | panicked msg => exact Or.inl rfl
  · have hnone : ∀ docs, json.UnmarshalBatch payload = .ok ⟨docs⟩ → docs = [] := by
      intro docs hparse
      by_contra hne
      exact hloop ⟨docs, hparse, hne⟩
    obtain ⟨resp, hresp⟩ := batchInsert_noLoop json payload hnone
    refine ⟨?_, Or.inl ?_⟩
    · unfold putLog
      rw [hresp, hresp]
    · rw [hresp, hresp]

end Independence

/-! ## The documents after a refused put -/

section Later

variable {σ : Type} (json : Json) (stub : ChaincodeStubInterface σ)

/-- The documents counted as successful are as many as the puts that reported
no error. -/
theorem processDocuments_withLog_count (docs : List Doc) (i : Nat) (r r' : BatchResult)
    (s : σ) (log : List (String × String)) (s' : σ × List (String × String))
    (h : processDocuments json (withLog stub) i docs r (s, log) = (.returned r', s')) :
    r'.SuccessfulDocs + log.length = r.SuccessfulDocs + s'.2.length := by
  induction docs generalizing i r s log with
  | nil =>
    rw [processDocuments_nil] at h
    cases h
    rfl
  | cons d docs ih =>
    rcases processDocuments_step json (withLog stub) i d r (s, log) with
      ⟨id, _, _, hp⟩ | ⟨reason, s1, hs1, hp⟩ | ⟨key, bytes, s1, _, _, hput, hp⟩
    · rw [hp docs] at h
      cases h
    · rw [hp docs] at h
      obtain ⟨t, l⟩ := s1
      have hl : l = log := by
        rcases hs1 with h1 | ⟨key, bytes, err, _, _, hput⟩
        · cases h1; rfl
        · exact (withLog_put stub s log key bytes (some err) (t, l) hput).2
      subst hl
      have := ih (i + 1) _ t l h
      simpa [BatchResult.fail] using this
    · rw [hp docs] at h
      obtain ⟨t, l⟩ := s1
      have hl : l = log ++ [(key, bytes)] :=
        (withLog_put stub s log key bytes none (t, l) hput).2
      subst hl
      have := ih (i + 1) _ t _ h
      simp only [BatchResult.succeed, List.length_append, List.length_singleton] at this
      omega

/-- One more document with a string `_id` that serializes: its put is made in
the state the earlier documents left, and decides how it is counted. -/
theorem processDocuments_snoc (docs : List Doc) (d : Doc) (i : Nat) (r rj : BatchResult)
    (s sj : σ) (key bytes : String)
    (h : processDocuments json stub i docs r s = (.returned rj, sj))
    (hkey : d.lookup "_id" = some (.string key)) (hm : json.MarshalDoc d = .ok bytes) :
    processDocuments json stub i (docs ++ [d]) r s =
      match stub.PutState sj key bytes with
      | (none, sj') => (.returned rj.succeed, sj')
      | (some err, sj') =>
        (.returned (rj.fail ("Doc " ++ toString (i + docs.length) ++ ": storage error: " ++ err)),
          sj') := by
  rw [processDocuments_append, h]
  rcases hp : stub.PutState sj key bytes with ⟨_ | err, sj'⟩
  · exact processDocuments_stored json stub _ d [] rj sj sj' key bytes hkey hm hp
  · exact processDocuments_putError json stub _ d [] rj sj sj' key bytes err hkey hm hp

end Later

/-! ## The loop against the outcomes of the specification -/

section PerDocument

variable {σ : Type} (json : Json) (stub : ChaincodeStubInterface σ)

theorem specOutcomes_length (docs : List Doc) (s : σ) :
    (specOutcomes json stub s docs).length = docs.length := by
  induction docs generalizing s with
  | nil => rfl
  | cons d docs ih =>
    unfold specOutcomes
    split
    · split
      · simp [ih]
      · split <;> simp [ih]
    · simp [ih]

theorem specOutcomes_take (docs : List Doc) (s : σ) (k : Nat) :
    specOutcomes json stub s (docs.take k) = (specOutcomes json stub s docs).take k := by
  induction docs generalizing s k with
  | nil => simp [specOutcomes]
  | cons d docs ih =>
    cases k with
    | zero => simp [specOutcomes]
    | succ k =>
      rw [List.take_succ_cons]
      unfold specOutcomes
      split
      · split
        · simp [ih]
        · split <;> simp [ih]
      · simp [ih]

theorem specErrors_append (xs ys : List IngestOutcome) (i : Nat) :
    specErrors i (xs ++ ys) = specErrors i xs ++ specErrors (i + xs.length) ys := by
  induction xs generalizing i with
  | nil => simp [specErrors]
  | cons x xs ih =>
    have e : i + (xs.length + 1) = i + 1 + xs.length := by omega
    cases x with
    | Stored =>
      simp only [List.cons_append, specErrors, List.length_cons, e]
      exact ih (i + 1)
    | Failed reason =>
      simp only [List.cons_append, specErrors, List.length_cons, e]
      exact congrArg _ (ih (i + 1))

/-- A loop that returns has done to each document what the specification says:
it has appended the error entries of the failed documents and counted the
failed and the stored ones. -/
theorem processDocuments_outcomes (docs : List Doc) (i : Nat) (r r' : BatchResult)
    (s s' : σ) (h : processDocuments json stub i docs r s = (.returned r', s')) :
    r'.Errors = r.Errors ++ specErrors i (specOutcomes json stub s docs) ∧
    r'.FailedDocs = r.FailedDocs + (specOutcomes json stub s docs).countP IngestOutcome.isFailed ∧
    r'.SuccessfulDocs =
      r.SuccessfulDocs + (specOutcomes json stub s docs).countP IngestOutcome.isStored := by
  induction docs generalizing i r s with
  | nil =>
    rw [processDocuments_nil] at h
    cases h
    simp [specOutcomes, specErrors]
  | cons d docs ih =>
    cases hl : d.lookup "_id" with
    | none =>
      rw [processDocuments_lacksId json stub i d docs r s hl] at h
      obtain ⟨h1, h2, h3⟩ := ih _ _ _ h
      have ho : specOutcomes json stub s (d :: docs) =
          .Failed "missing _id" :: specOutcomes json stub s docs := by
        simp [specOutcomes, hl]
      rw [ho, h1, h2, h3]
      refine ⟨?_, ?_, ?_⟩
      · simp [BatchResult.fail, specErrors, errorText_missing, errorText_marshal, errorText_storage]
      · simp only [BatchResult.fail, List.countP_cons, IngestOutcome.isFailed]
        simp only [if_true]
        omega
      · simp [BatchResult.fail, List.countP_cons, IngestOutcome.isStored]
    | some id =>
      by_cases hid : ∃ key, id = .string key
      · obtain ⟨key, rfl⟩ := hid
        cases hm : json.MarshalDoc d with
        | error err =>
          rw [processDocuments_marshalError json stub i d docs r s key err hl hm] at h
          obtain ⟨h1, h2, h3⟩ := ih _ _ _ h
          have ho : specOutcomes json stub s (d :: docs) =
              .Failed ("marshal error: " ++ err) :: specOutcomes json stub s docs := by
            simp [specOutcomes, hl, hm]
          rw [ho, h1, h2, h3]
          refine ⟨?_, ?_, ?_⟩
          · simp [BatchResult.fail, specErrors, errorText_missing, errorText_marshal, errorText_storage]
          · simp only [BatchResult.fail, List.countP_cons, IngestOutcome.isFailed]
            simp only [if_true]
            omega
          · simp [BatchResult.fail, List.countP_cons, IngestOutcome.isStored]
        | ok bytes =>
          rcases hp : stub.PutState s key bytes with ⟨_ | err, s1⟩
          · rw [processDocuments_stored json stub i d docs r s s1 key bytes hl hm hp] at h
            obtain ⟨h1, h2, h3⟩ := ih _ _ _ h
            have ho : specOutcomes json stub s (d :: docs) =
                .Stored :: specOutcomes json stub s1 docs := by
              simp [specOutcomes, hl, hm, hp]
            rw [ho, h1, h2, h3]
            refine ⟨?_, ?_, ?_⟩
            · simp [BatchResult.succeed, specErrors]
            · simp [BatchResult.succeed, List.countP_cons, IngestOutcome.isFailed]
            · simp only [BatchResult.succeed, List.countP_cons, IngestOutcome.isStored]
              simp only [if_true]
              omega
          · rw [processDocuments_putError json stub i d docs r s s1 key bytes err hl hm hp]
              at h
            obtain ⟨h1, h2, h3⟩ := ih _ _ _ h
            have ho : specOutcomes json stub s (d :: docs) =
                .Failed ("storage error: " ++ err) :: specOutcomes json stub s1 docs := by
              simp [specOutcomes, hl, hm, hp]
            rw [ho, h1, h2, h3]
            refine ⟨?_, ?_, ?_⟩
            · simp [BatchResult.fail, specErrors, errorText_missing, errorText_marshal, errorText_storage]
            · simp only [BatchResult.fail, List.countP_cons, IngestOutcome.isFailed]
              simp only [if_true]
              omega
            · simp [BatchResult.fail, List.countP_cons, IngestOutcome.isStored]
      · have hns : ∀ key, id ≠ .string key := fun key hk => hid ⟨key, hk⟩
        rw [processDocuments_notString json stub i d docs r s id hl hns] at h
        cases h

/-- In a loop that returns, document `k` is counted as failed exactly when the
specification has it fail, and as successful exactly when it has it stored. -/
theorem failedAt_iff_outcome (docs : List Doc) (st st' : σ) (result : BatchResult)
    (h : processDocuments json stub 0 docs (newResult docs.length) st = (.returned result, st'))
    (k : Nat) (hk : k < docs.length) :
    (failedAt json stub docs st k = true ↔
      ∃ reason, (specOutcomes json stub st docs)[k]? = some (.Failed reason)) ∧
    (storedAt json stub docs st k = true ↔
      (specOutcomes json stub st docs)[k]? = some .Stored) := by
  have hsplit : docs = docs.take (k + 1) ++ docs.drop (k + 1) := (List.take_append_drop _ _).symm
  rw [hsplit] at h
  have hlenEq : (docs.take (k + 1) ++ docs.drop (k + 1)).length = docs.length := by
    rw [← hsplit]
  rw [hlenEq] at h
  obtain ⟨r1, s1, hr1, -⟩ := processDocuments_prefix_returns json stub _ _ _ _ _ _ _ h
  have hsplit2 : docs.take (k + 1) = docs.take k ++ (docs.take (k + 1)).drop k := by
    have := (List.take_append_drop k (docs.take (k + 1))).symm
    rwa [List.take_take, Nat.min_eq_left (Nat.le_succ k)] at this
  have hr1' := hr1
  rw [hsplit2] at hr1'
  obtain ⟨r0, s0, hr0, -⟩ := processDocuments_prefix_returns json stub _ _ _ _ _ _ _ hr1'
  obtain ⟨-, f0, g0⟩ := processDocuments_outcomes json stub _ _ _ _ _ _ hr0
  obtain ⟨-, f1, g1⟩ := processDocuments_outcomes json stub _ _ _ _ _ _ hr1
  rw [specOutcomes_take] at f0 g0 f1 g1
  have hklen : k < (specOutcomes json stub st docs).length := by
    rw [specOutcomes_length]; exact hk
  have hget : (specOutcomes json stub st docs)[k]? = some ((specOutcomes json stub st docs)[k]) :=
    List.getElem?_eq_getElem hklen
  have htake : (specOutcomes json stub st docs).take (k + 1) =
      (specOutcomes json stub st docs).take k ++ [(specOutcomes json stub st docs)[k]] := by
    rw [List.take_succ, hget]
    rfl
  rw [htake, List.countP_append] at f1 g1
  have ha : (afterIterations json stub docs st k).1 = .returned r0 := by
    unfold afterIterations; rw [hr0]
  have hb : (afterIterations json stub docs st (k + 1)).1 = .returned r1 := by
    unfold afterIterations; rw [hr1]
  rw [hget]
  unfold failedAt storedAt
  rw [ha, hb]
  simp only [newResult, Nat.zero_add] at f0 g0 f1 g1
  cases ho : (specOutcomes json stub st docs)[k] with
  | Stored =>
    rw [ho] at f1 g1
    simp [IngestOutcome.isFailed, IngestOutcome.isStored, List.countP_cons] at f1 g1
    simp [f0, f1, g0, g1]
  | Failed reason =>
    rw [ho] at f1 g1
    simp [IngestOutcome.isFailed, IngestOutcome.isStored, List.countP_cons] at f1 g1
    simp [f0, f1, g0, g1]

end PerDocument

/-! ## Runs from two stores, when only the success of a put is fixed -/

section Counters

variable {σ : Type} (json : Json) (stub : ChaincodeStubInterface σ)

/-- When whether a put reports an error does not depend on the state, two runs
of the loop record the same puts, and both panic alike or both return, with
the same counters and with errors that differ at most in the text the store
reported. -/
theorem processDocuments_withLog_rel
    (hsucc : ∀ s1 s2 key value,
      (stub.PutState s1 key value).1.isSome = (stub.PutState s2 key value).1.isSome)
    (docs : List Doc) (i : Nat) (r1 r2 : BatchResult) (s1 s2 : σ)
    (log : List (String × String))
    (ht : r1.TotalDocs = r2.TotalDocs) (hsd : r1.SuccessfulDocs = r2.SuccessfulDocs)
    (hfd : r1.FailedDocs = r2.FailedDocs)
    (he : List.Forall₂ sameUpToStoreText r1.Errors r2.Errors) :
    (processDocuments json (withLog stub) i docs r1 (s1, log)).2.2 =
      (processDocuments json (withLog stub) i docs r2 (s2, log)).2.2 ∧
    ((∃ msg, (processDocuments json (withLog stub) i docs r1 (s1, log)).1 = .panicked msg ∧
        (processDocuments json (withLog stub) i docs r2 (s2, log)).1 = .panicked msg) ∨
      ∃ r1' r2',
        (processDocuments json (withLog stub) i docs r1 (s1, log)).1 = .returned r1' ∧
        (processDocuments json (withLog stub) i docs r2 (s2, log)).1 = .returned r2' ∧
        r1'.TotalDocs = r2'.TotalDocs ∧ r1'.SuccessfulDocs = r2'.SuccessfulDocs ∧
        r1'.FailedDocs = r2'.FailedDocs ∧
        List.Forall₂ sameUpToStoreText r1'.Errors r2'.Errors) := by
  induction docs generalizing i r1 r2 s1 s2 log with
  | nil => exact ⟨rfl, Or.inr ⟨r1, r2, rfl, rfl, ht, hsd, hfd, he⟩⟩
  | cons d docs ih =>
    have hsame : ∀ msg : String, List.Forall₂ sameUpToStoreText
        (r1.fail msg).Errors (r2.fail msg).Errors :=
      fun msg => List.rel_append he (List.Forall₂.cons (Or.inl rfl) List.Forall₂.nil)
    cases hl : d.lookup "_id" with
    | none =>
      rw [processDocuments_lacksId json (withLog stub) i d docs r1 (s1, log) hl,
        processDocuments_lacksId json (withLog stub) i d docs r2 (s2, log) hl]
      exact ih _ _ _ _ _ _ ht hsd (by simp [BatchResult.fail, hfd]) (hsame _)
    | some id =>
      by_cases hid : ∃ key, id = .string key
      · obtain ⟨key, rfl⟩ := hid
        cases hm : json.MarshalDoc d with
        | error err =>
          rw [processDocuments_marshalError json (withLog stub) i d docs r1 (s1, log) key err
              hl hm,
            processDocuments_marshalError json (withLog stub) i d docs r2 (s2, log) key err
              hl hm]
          exact ih _ _ _ _ _ _ ht hsd (by simp [BatchResult.fail, hfd]) (hsame _)
        | ok bytes =>
          rcases hp1 : stub.PutState s1 key bytes with ⟨e1, t1⟩
          rcases hp2 : stub.PutState s2 key bytes with ⟨e2, t2⟩
          have hsome : e1.isSome = e2.isSome := by
            have := hsucc s1 s2 key bytes
            rw [hp1, hp2] at this
            exact this
          cases e1 with
          | none =>
            cases e2 with
            | some err2 => simp at hsome
            | none =>
              have hw1 : (withLog stub).PutState (s1, log) key bytes =
                  (none, (t1, log ++ [(key, bytes)])) := by simp [withLog, hp1]
              have hw2 : (withLog stub).PutState (s2, log) key bytes =
                  (none, (t2, log ++ [(key, bytes)])) := by simp [withLog, hp2]
              rw [processDocuments_stored json (withLog stub) i d docs r1 (s1, log) _ key
                  bytes hl hm hw1,
                processDocuments_stored json (withLog stub) i d docs r2 (s2, log) _ key
                  bytes hl hm hw2]
              exact ih _ _ _ _ _ _ ht (by simp [BatchResult.succeed, hsd]) hfd he
          | some err1 =>
            cases e2 with
            | none => simp at hsome
            | some err2 =>
              have hw1 : (withLog stub).PutState (s1, log) key bytes =
                  (some err1, (t1, log)) := by simp [withLog, hp1]
              have hw2 : (withLog stub).PutState (s2, log) key bytes =
                  (some err2, (t2, log)) := by simp [withLog, hp2]
              rw [processDocuments_putError json (withLog stub) i d docs r1 (s1, log) _ key
                  bytes err1 hl hm hw1,
                processDocuments_putError json (withLog stub) i d docs r2 (s2, log) _ key
                  bytes err2 hl hm hw2]
              exact ih _ _ _ _ _ _ ht hsd (by simp [BatchResult.fail, hfd])
                (List.rel_append he
                  (List.Forall₂.cons (Or.inr ⟨i, err1, err2, rfl, rfl⟩) List.Forall₂.nil))
      · have hns : ∀ key, id ≠ .string key := fun key h => hid ⟨key, h⟩
        rw [processDocuments_notString json (withLog stub) i d docs r1 (s1, log) id hl hns,
          processDocuments_notString json (withLog stub) i d docs r2 (s2, log) id hl hns]
        exact ⟨rfl, Or.inl ⟨_, rfl, rfl⟩⟩

/-- When whether a put reports an error does not depend on the state, two runs
of `batchInsert` on a payload record the same puts; they have the same error
response or panic, or success responses whose results have the same counters
and errors that differ at most in the text the store reported, and the same
errors when that text does not depend on the state either. -/
theorem batchInsert_rel
    (hsucc : ∀ s1 s2 key value,
      (stub.PutState s1 key value).1.isSome = (stub.PutState s2 key value).1.isSome)
    (e1 e2 : String) (st1 st2 : σ) (payload : String) :
    putLog json stub st1 [payload] = putLog json stub st2 [payload] ∧
    ((batchInsert json stub e1 st1 [payload]).1 = (batchInsert json stub e2 st2 [payload]).1 ∨
      ∃ r1 r2 : BatchResult,
        (batchInsert json stub e1 st1 [payload]).1 =
          .returned (shim.Success (json.MarshalResult { r1 with ProcessingTime := e1 })) ∧
        (batchInsert json stub e2 st2 [payload]).1 =
          .returned (shim.Success (json.MarshalResult { r2 with ProcessingTime := e2 })) ∧
        r1.TotalDocs = r2.TotalDocs ∧ r1.SuccessfulDocs = r2.SuccessfulDocs ∧
        r1.FailedDocs = r2.FailedDocs ∧
        List.Forall₂ sameUpToStoreText r1.Errors r2.Errors ∧
        ((∀ s1 s2 key value,
            (stub.PutState s1 key value).1 = (stub.PutState s2 key value).1) →
          r1.Errors = r2.Errors)) := by
  by_cases hloop : ∃ docs, json.UnmarshalBatch payload = .ok ⟨docs⟩ ∧ docs ≠ []
  · obtain ⟨docs, hparse, hne⟩ := hloop
    obtain ⟨d2, d1⟩ := processDocuments_withLog_rel json stub hsucc docs 0
      (newResult docs.length) (newResult docs.length) st1 st2 [] rfl rfl rfl List.Forall₂.nil
    obtain ⟨a1, _⟩ := processDocuments_withLog json stub docs 0 (newResult docs.length) st1 []
    obtain ⟨b1, _⟩ := processDocuments_withLog json stub docs 0 (newResult docs.length) st2 []
    refine ⟨?_, ?_⟩
    · unfold putLog
      rw [batchInsert_loop_state json (withLog stub) "" (st1, []) payload docs hparse hne,
        batchInsert_loop_state json (withLog stub) "" (st2, []) payload docs hparse hne]
      exact d2
    · rw [batchInsert_loop_outcome json stub e1 st1 payload docs hparse hne,
        batchInsert_loop_outcome json stub e2 st2 payload docs hparse hne, ← a1, ← b1]
      rcases d1 with ⟨msg, h1, h2⟩ | ⟨r1, r2, h1, h2, ht, hsd, hfd, he⟩
      · rw [h1, h2]
        exact Or.inl rfl
      · refine Or.inr ⟨r1, r2, by rw [h1], by rw [h2], ht, hsd, hfd, he, ?_⟩
        intro hdep
        have := (processDocuments_withLog_dep json stub hdep docs 0 (newResult docs.length)
          st1 st2 []).1
        rw [h1, h2] at this
        cases this
        rfl
  · have hnone : ∀ docs, json.UnmarshalBatch payload = .ok ⟨docs⟩ → docs = [] := by
      intro docs hparse
      by_contra hne
      exact hloop ⟨docs, hparse, hne⟩
    obtain ⟨resp, hresp⟩ := batchInsert_noLoop json payload hnone
    refine ⟨?_, Or.inl ?_⟩
    · unfold putLog
      rw [hresp, hresp]
    · rw [hresp, hresp]

end Counters

/-! ## The call on whole batches -/

section Claims

variable {σ : Type}

/-- Last write wins on the store: after the puts of a batch, the key of a
document that serialized and that no later document shares holds that
document's serialization. -/
theorem get_after_putsOf (json : Json) (stub : ChaincodeStubInterface σ)
    (hs : PutSucceeds stub) (st : σ) (pre post : List Doc) (d : Doc)
    (key docBytes : String) (hpre : ∀ d' ∈ pre, d'.idChecked = true)
    (hkey : d.lookup "_id" = some (.string key)) (hm : json.MarshalDoc d = .ok docBytes)
    (hlast : ∀ d' ∈ post, d'.key? ≠ some key) :
    stub.GetState (runPuts stub st (putsOf json (pre ++ d :: post))) key =
      .ok (some docBytes) := by
  have hcons : putsOf json (d :: post) = (key, docBytes) :: putsOf json post := by
    simp only [putsOf, hkey, hm]
  rw [putsOf_append json pre (d :: post) hpre, hcons]
  refine get_runPuts_last stub hs st _ _ key docBytes ?_
  intro kv hkv hk
  obtain ⟨d', hd', hk', -⟩ := mem_putsOf json post kv hkv
  exact hlast d' hd' (hk ▸ hk')

theorem countP_key_add_lacks (docs : List Doc) (h : ∀ d ∈ docs, d.idChecked = true) :
    docs.countP (fun d => d.key?.isSome) + docs.countP Doc.lacksId = docs.length := by
  induction docs with
  | nil => rfl
  | cons d docs ih =>
    have ih' := ih (fun d' hd' => h d' (List.mem_cons_of_mem _ hd'))
    rcases Doc.idChecked_cases d (h d (List.mem_cons_self _ _)) with hl | ⟨key, hl⟩
    · have h1 : d.lacksId = true := by simp [Doc.lacksId, hl]
      have h2 : d.key?.isSome = false := by simp [Doc.key?, hl]
      simp only [List.countP_cons, h1, h2, List.length_cons]
      simp
      omega
    · have h1 : d.lacksId = false := by simp [Doc.lacksId, hl]
      have h2 : d.key?.isSome = true := by simp [Doc.key?, hl]
      simp only [List.countP_cons, h1, h2, List.length_cons]
      simp
      omega

/-- The errors recorded before a loop starts are kept, in order, at the front
of the errors it returns. -/
theorem processDocuments_errors_prefix (json : Json) (stub : ChaincodeStubInterface σ)
    (docs : List Doc) (i : Nat) (result result' : BatchResult) (st st' : σ)
    (h : processDocuments json stub i docs result st = (.returned result', st')) :
    ∃ errs, result'.Errors = result.Errors ++ errs := by
  induction docs generalizing i result st with
  | nil =>
    rw [processDocuments_nil] at h
    cases h
    exact ⟨[], by simp⟩
  | cons d docs ih =>
    have hfail : ∀ (msg : String) (stm : σ),
        processDocuments json stub (i + 1) docs (result.fail msg) stm =
          (.returned result', st') → ∃ errs, result'.Errors = result.Errors ++ errs := by
      intro msg stm hrun
      obtain ⟨errs, he⟩ := ih _ _ _ hrun
      exact ⟨msg :: errs, by simp [he, BatchResult.fail]⟩
    rw [processDocuments] at h
    split at h
    · split at h
      · exact hfail _ _ h
      · split at h
        · exact hfail _ _ h
        · obtain ⟨errs, he⟩ := ih _ result.succeed _ h
          exact ⟨errs, he⟩
    · cases h
    · exact hfail _ _ h

/-- Against a store that refuses no put, the outcome of `batchInsert` on a
non-empty batch is a function of the documents alone, and the state it leaves
is the state after the puts of `putsOf`. -/
theorem batchInsert_putOk (json : Json) (stub : ChaincodeStubInterface σ)
    (hput : ∀ st key value, (stub.PutState st key value).1 = none)
    (elapsed : String) (st : σ) (payload : String) (docs : List Doc)
    (hparse : json.UnmarshalBatch payload = .ok ⟨docs⟩) (hne : docs ≠ []) :
    batchInsert json stub elapsed st [payload] =
      (match (processDocuments json nullStub 0 docs (newResult docs.length) ()).1 with
        | .returned result =>
          .returned (shim.Success
            (json.MarshalResult { result with ProcessingTime := elapsed }))
        | .panicked msg => .panicked msg,
        runPuts stub st (putsOf json docs)) := by
  rw [batchInsert_loop json stub elapsed st payload docs hparse hne,
    processDocuments_putOk json stub hput]
  cases (processDocuments json nullStub 0 docs (newResult docs.length) ()).1 <;> rfl

/-- The result and final state of `batchInsert` on a batch whose documents all
pass the key derivation and serialize, against a store that refuses no put. -/
theorem batchInsert_clean (json : Json) (stub : ChaincodeStubInterface σ)
    (hput : ∀ st key value, (stub.PutState st key value).1 = none)
    (elapsed : String) (st : σ) (payload : String) (docs : List Doc)
    (hparse : json.UnmarshalBatch payload = .ok ⟨docs⟩) (hne : docs ≠ [])
    (hchk : ∀ d ∈ docs, d.idChecked = true)
    (hser : ∀ d ∈ docs, d.key?.isSome = true → (json.MarshalDoc d).isOk = true) :
    batchInsert json stub elapsed st [payload] =
      (.returned (shim.Success (json.MarshalResult
        { TotalDocs := docs.length
          SuccessfulDocs := docs.countP (fun d => d.key?.isSome)
          FailedDocs := docs.countP Doc.lacksId
          ProcessingTime := elapsed
          Errors := missingIdErrors 0 docs })),
        runPuts stub st (putsOf json docs)) := by
  rw [batchInsert_loop json stub elapsed st payload docs hparse hne,
    processDocuments_clean json stub hput docs hchk hser]
  simp [newResult]

/-- A document without `_id` that the loop reaches: the iteration records the
failure "Doc i: missing _id", leaves the counters of stored documents and the
state of the store as they were, and the loop runs on over the later
documents. -/
theorem batchInsert_missing_id (json : Json) (stub : ChaincodeStubInterface σ)
    (elapsed : String) (st : σ) (payload : String) (pre post : List Doc) (doc : Doc)
    (hparse : json.UnmarshalBatch payload = .ok ⟨pre ++ doc :: post⟩)
    (hpre : ∀ d ∈ pre, d.idChecked = true)
    (hmiss : doc.lookup "_id" = none) :
    ∃ mid stm,
      processDocuments json stub 0 pre (newResult (pre ++ doc :: post).length) st =
        (.returned mid, stm) ∧
      processDocuments json stub pre.length [doc] mid stm =
        (.returned
          { mid with
            FailedDocs := mid.FailedDocs + 1
            Errors := mid.Errors ++ ["Doc " ++ toString pre.length ++ ": missing _id"] },
          stm) ∧
      batchInsert json stub elapsed st [payload] =
        match processDocuments json stub (pre.length + 1) post
            { mid with
              FailedDocs := mid.FailedDocs + 1
              Errors := mid.Errors ++ ["Doc " ++ toString pre.length ++ ": missing _id"] }
            stm with
        | (.returned final, st') =>
          (.returned (shim.Success
            (json.MarshalResult { final with ProcessingTime := elapsed })), st')
        | (.panicked msg, st') => (.panicked msg, st') := by
  have hne : pre ++ doc :: post ≠ [] := by simp
  obtain ⟨mid, stm, hmid⟩ := processDocuments_returns json stub pre 0
    (newResult (pre ++ doc :: post).length) st hpre
  refine ⟨mid, stm, hmid, ?_, ?_⟩
  · rw [processDocuments_lacksId json stub _ doc [] mid stm hmiss, processDocuments_nil]
    rfl
  · rw [batchInsert_loop json stub elapsed st payload _ hparse hne,
      processDocuments_append, hmid]
    simp only [Nat.zero_add]
    rw [processDocuments_lacksId json stub _ doc post mid stm hmiss]
    rfl

/-- Last write wins, on a batch whose documents all pass the key derivation
and serialize, against a store whose put succeeds: every document with a
string `_id` is counted as stored, and each key holds the serialization of the
last document that carries it. -/
theorem batchInsert_last_write (json : Json) (stub : ChaincodeStubInterface σ)
    (hs : PutSucceeds stub) (elapsed : String) (st : σ) (payload : String)
    (docs : List Doc)
    (hparse : json.UnmarshalBatch payload = .ok ⟨docs⟩) (hne : docs ≠ [])
    (hchk : ∀ d ∈ docs, d.idChecked = true)
    (hser : ∀ d ∈ docs, d.key?.isSome = true → (json.MarshalDoc d).isOk = true) :
    ∃ st',
      batchInsert json stub elapsed st [payload] =
        (.returned (shim.Success (json.MarshalResult
          { TotalDocs := docs.length
            SuccessfulDocs := docs.countP (fun d => d.key?.isSome)
            FailedDocs := docs.countP Doc.lacksId
            ProcessingTime := elapsed
            Errors := missingIdErrors 0 docs })), st') ∧
      ∀ (pre post : List Doc) (d : Doc) (key docBytes : String),
        docs = pre ++ d :: post →
        d.lookup "_id" = some (.string key) →
        (∀ d' ∈ post, d'.key? ≠ some key) →
        json.MarshalDoc d = .ok docBytes →
        stub.GetState st' key = .ok (some docBytes) := by
  refine ⟨runPuts stub st (putsOf json docs),
    batchInsert_clean json stub hs.put_ok elapsed st payload docs hparse hne hchk hser, ?_⟩
  intro pre post d key docBytes hdocs hkey hlast hm
  subst hdocs
  exact get_after_putsOf json stub hs st pre post d key docBytes
    (fun d' hd' => hchk d' (List.mem_append_left _ hd')) hkey hm hlast

/-! ## The claims -/

/-- C2 (what the code does): for a payload that parses to a batch whose
document at index `pre.length` has an `_id` that is present but not a string,
the earlier documents passing the key derivation, `batchInsert` does not
return: the unchecked assertion `id.(string)` panics. No response and no
BatchResult is produced, the document is not recorded as failed, and the
documents after it are never visited: the state is the one the earlier
documents left. -/
theorem batchInsert_panics_on_non_string_id (json : Json) (stub : ChaincodeStubInterface σ)
    (elapsed : String) (st : σ) (payload : String) (pre post : List Doc) (doc : Doc)
    (id : Value)
    (hparse : json.UnmarshalBatch payload = .ok ⟨pre ++ doc :: post⟩)
    (hpre : ∀ d ∈ pre, d.idChecked = true)
    (hid : doc.lookup "_id" = some id)
    (hns : ∀ key, id ≠ .string key) :
    batchInsert json stub elapsed st [payload] =
      (.panicked (assertStringPanic id),
        (processDocuments json stub 0 pre (newResult (pre ++ doc :: post).length) st).2) := by
  have hne : pre ++ doc :: post ≠ [] := by simp
  obtain ⟨mid, stm, hmid⟩ := processDocuments_returns json stub pre 0
    (newResult (pre ++ doc :: post).length) st hpre
  rw [batchInsert_loop json stub elapsed st payload _ hparse hne,
    processDocuments_append, hmid]
  simp only []
  rw [processDocuments_notString json stub _ doc post mid stm id hid hns]

set_option maxRecDepth 1000000 in
/-- C2 at a concrete input: the second of three documents has the number 1 as
`_id`; the call panics after storing the first document and never visits the
third. -/
theorem batchInsert_panics_on_non_string_id_witness :
    batchInsert sampleJson memStub "1ms" []
        ["\x7b\"documents\":[\x7b\"_id\":\"A\",\"v\":1\x7d,\x7b\"_id\":1\x7d,\x7b\"_id\":\"B\"\x7d]\x7d"] =
      (.panicked "interface conversion: interface {} is float64, not string",
        [("A", "\x7b\"_id\":\"A\",\"v\":1\x7d")]) :=
  batchInsert_panics_on_non_string_id sampleJson memStub "1ms" [] _
    [[("_id", .string "A"), ("v", .number ⟨4607182418800017408⟩)]]
    [[("_id", .string "B")]] [("_id", .number ⟨4607182418800017408⟩)]
    (.number ⟨4607182418800017408⟩) (by rfl) (by decide) (by rfl) (by intro key h; cases h)

set_option maxRecDepth 1000000 in
/-- C3 (what the code does): on the batch whose first document has the number
1 as `_id` and whose second document has no `_id`, `batchInsert` panics at the
first document, so the second is never recorded as failed and no result is
returned. When every earlier document passes the key derivation, a document
without `_id` is recorded as failed with "Doc i: missing _id", no put is made
for it, and the loop runs on. -/
theorem batchInsert_missing_id_after_panic :
    (sampleJson.UnmarshalBatch "\x7b\"documents\":[\x7b\"_id\":1\x7d,\x7b\"v\":2\x7d]\x7d" =
        .ok ⟨[[("_id", .number ⟨4607182418800017408⟩)],
          [("v", .number ⟨4611686018427387904⟩)]]⟩ ∧
      batchInsert sampleJson memStub "1ms" []
          ["\x7b\"documents\":[\x7b\"_id\":1\x7d,\x7b\"v\":2\x7d]\x7d"] =
        (.panicked "interface conversion: interface {} is float64, not string", [])) ∧
    ∀ (τ : Type) (json : Json) (stub : ChaincodeStubInterface τ) (elapsed : String) (st : τ)
      (payload : String) (pre post : List Doc) (doc : Doc),
      json.UnmarshalBatch payload = .ok ⟨pre ++ doc :: post⟩ →
      (∀ d ∈ pre, d.idChecked = true) →
      doc.lookup "_id" = none →
      ∃ mid stm,
        processDocuments json stub 0 pre (newResult (pre ++ doc :: post).length) st =
          (.returned mid, stm) ∧
        processDocuments json stub pre.length [doc] mid stm =
          (.returned
            { mid with
              FailedDocs := mid.FailedDocs + 1
              Errors := mid.Errors ++ ["Doc " ++ toString pre.length ++ ": missing _id"] },
            stm) ∧
        batchInsert json stub elapsed st [payload] =
          match processDocuments json stub (pre.length + 1) post
              { mid with
                FailedDocs := mid.FailedDocs + 1
                Errors := mid.Errors ++ ["Doc " ++ toString pre.length ++ ": missing _id"] }
              stm with
          | (.returned final, st') =>
            (.returned (shim.Success
              (json.MarshalResult { final with ProcessingTime := elapsed })), st')
          | (.panicked msg, st') => (.panicked msg, st') :=
  ⟨⟨by rfl, by rfl⟩,
    fun _ json stub elapsed st payload pre post doc hparse hpre hmiss =>
      batchInsert_missing_id json stub elapsed st payload pre post doc hparse hpre hmiss⟩

/-- C4: in a batch of documents with string `_id`s, when the put of the
document at index `pre.length` reports the error `err`, `batchInsert` still
returns a success response. The iteration leaves SuccessfulDocs as it was,
adds one to FailedDocs and appends "Doc i: storage error: err", and leaves the
state the refused put left; the loop then runs on over every later document
from that result, and the response carries the result it ends with, the error
among its errors. Every later document that serializes has its put made, in
the state the documents before it left: the state after its iteration is the
state that put leaves, the document is counted as successful when the put
reports no error, and as failed with the storage error of the put otherwise.
The successful documents of the result are as many as the puts of the call
that reported no error. -/
theorem batchInsert_isolates_put_error (json : Json) (stub : ChaincodeStubInterface σ)
    (elapsed : String) (st stm stm' : σ) (payload : String) (pre post : List Doc)
    (doc : Doc) (key docBytes err : String)
    (hparse : json.UnmarshalBatch payload = .ok ⟨pre ++ doc :: post⟩)
    (hids : ∀ d ∈ pre ++ doc :: post, d.key?.isSome = true)
    (hkey : doc.lookup "_id" = some (.string key))
    (hm : json.MarshalDoc doc = .ok docBytes)
    (hstate : (processDocuments json stub 0 pre (newResult (pre ++ doc :: post).length) st).2
      = stm)
    (hput : stub.PutState stm key docBytes = (some err, stm')) :
    ∃ mid final st',
      processDocuments json stub 0 pre (newResult (pre ++ doc :: post).length) st =
        (.returned mid, stm) ∧
      processDocuments json stub (pre.length + 1) post
        { mid with
          FailedDocs := mid.FailedDocs + 1
          Errors := mid.Errors ++ ["Doc " ++ toString pre.length ++ ": storage error: " ++ err] }
        stm' = (.returned final, st') ∧
      batchInsert json stub elapsed st [payload] =
        (.returned (shim.Success
          (json.MarshalResult { final with ProcessingTime := elapsed })), st') ∧
      ("Doc " ++ toString pre.length ++ ": storage error: " ++ err) ∈ final.Errors ∧
      mid.SuccessfulDocs ≤ final.SuccessfulDocs ∧
      final.SuccessfulDocs + final.FailedDocs = (pre ++ doc :: post).length ∧
      processDocuments json stub 0 (pre ++ [doc]) (newResult (pre ++ doc :: post).length) st =
        (.returned
          { mid with
            FailedDocs := mid.FailedDocs + 1
            Errors := mid.Errors ++
              ["Doc " ++ toString pre.length ++ ": storage error: " ++ err] }, stm') ∧
      (∀ (earlier rest : List Doc) (later : Doc) (laterKey laterBytes : String),
        post = earlier ++ later :: rest →
        later.lookup "_id" = some (.string laterKey) →
        json.MarshalDoc later = .ok laterBytes →
        ∃ before reached,
          processDocuments json stub 0 (pre ++ doc :: earlier)
            (newResult (pre ++ doc :: post).length) st = (.returned before, reached) ∧
          (∀ after, stub.PutState reached laterKey laterBytes = (none, after) →
            processDocuments json stub 0 (pre ++ doc :: earlier ++ [later])
                (newResult (pre ++ doc :: post).length) st =
              (.returned before.succeed, after)) ∧
          (∀ laterErr after, stub.PutState reached laterKey laterBytes = (some laterErr, after) →
            processDocuments json stub 0 (pre ++ doc :: earlier ++ [later])
                (newResult (pre ++ doc :: post).length) st =
              (.returned (before.fail ("Doc " ++ toString (pre.length + 1 + earlier.length) ++
                ": storage error: " ++ laterErr)), after))) ∧
      final.SuccessfulDocs = (putLog json stub st [payload]).length := by
  have hchk : ∀ d ∈ pre ++ doc :: post, d.idChecked = true := by
    intro d hd
    simp [Doc.idChecked, hids d hd]
  have hne : pre ++ doc :: post ≠ [] := by simp
  obtain ⟨mid, stm0, hmid⟩ := processDocuments_returns json stub pre 0
    (newResult (pre ++ doc :: post).length) st
    (fun d hd => hchk d (List.mem_append_left _ hd))
  have hstm : stm0 = stm := by rw [hmid] at hstate; exact hstate
  subst hstm
  obtain ⟨final, st', hfinal⟩ := processDocuments_returns json stub post (pre.length + 1)
    (mid.fail ("Doc " ++ toString pre.length ++ ": storage error: " ++ err)) stm'
    (fun d hd => hchk d (List.mem_append_right _ (List.mem_cons_of_mem _ hd)))
  have hwhole : processDocuments json stub 0 (pre ++ doc :: post)
      (newResult (pre ++ doc :: post).length) st = (.returned final, st') := by
    rw [processDocuments_append, hmid]
    simp only [Nat.zero_add]
    rw [processDocuments_putError json stub _ doc post mid stm0 stm' key docBytes err
      hkey hm hput]
    exact hfinal
  obtain ⟨errs, herrs⟩ := processDocuments_errors_prefix json stub post _ _ _ _ _ hfinal
  obtain ⟨-, -, hsum, -, -, -⟩ := processDocuments_accounting json stub _ _ _ _ _ _ hwhole
  obtain ⟨-, -, -, -, hsucc, -⟩ := processDocuments_accounting json stub _ _ _ _ _ _ hfinal
  refine ⟨mid, final, st', hmid, hfinal, ?_, ?_, hsucc, ?_, ?_, ?_, ?_⟩
  · rw [batchInsert_loop json stub elapsed st payload _ hparse hne, hwhole]
  · rw [herrs]; simp [BatchResult.fail]
  · simpa [newResult] using hsum
  · rw [processDocuments_append, hmid]
    simp only [Nat.zero_add]
    exact (processDocuments_putError json stub _ doc [] mid stm0 stm' key docBytes err
      hkey hm hput).trans rfl
  · intro earlier rest later laterKey laterBytes hpost hlk hlm
    obtain ⟨before, reached, hbefore⟩ := processDocuments_returns json stub
      (pre ++ doc :: earlier) 0 (newResult (pre ++ doc :: post).length) st
      (fun d hd => hchk d (by
        rw [hpost]
        simp only [List.mem_append, List.mem_cons] at hd ⊢
        tauto))
    refine ⟨before, reached, hbefore, ?_⟩
    have h := processDocuments_snoc json stub (pre ++ doc :: earlier) later 0
      (newResult (pre ++ doc :: post).length) before st reached laterKey laterBytes hbefore
      hlk hlm
    have hlen : 0 + (pre ++ doc :: earlier).length = pre.length + 1 + earlier.length := by
      simp only [List.length_append, List.length_cons]
      omega
    rw [hlen] at h
    have h2 : processDocuments json stub 0 (pre ++ doc :: earlier ++ [later])
        (newResult (pre ++ doc :: post).length) st =
        processDocuments json stub 0 ((pre ++ doc :: earlier) ++ [later])
          (newResult (pre ++ doc :: post).length) st := by
      simp only [List.append_assoc, List.cons_append]
    rw [h2, h]
    exact ⟨fun after hp => by rw [hp], fun laterErr after hp => by rw [hp]⟩
  · have hW := processDocuments_withLog json stub (pre ++ doc :: post) 0
      (newResult (pre ++ doc :: post).length) st []
    rw [hwhole] at hW
    have hlog : putLog json stub st [payload] =
        (processDocuments json (withLog stub) 0 (pre ++ doc :: post)
          (newResult (pre ++ doc :: post).length) (st, [])).2.2 := by
      unfold putLog
      rw [batchInsert_loop_state json (withLog stub) "" (st, []) payload _ hparse hne]
    rcases hrun : processDocuments json (withLog stub) 0 (pre ++ doc :: post)
      (newResult (pre ++ doc :: post).length) (st, []) with ⟨o, sW⟩
    rw [hrun] at hW hlog
    obtain ⟨h1, _⟩ := hW
    simp only at h1
    subst h1
    have := processDocuments_withLog_count json stub _ 0 _ final st [] sW hrun
    rw [hlog]
    simpa [newResult] using this

set_option maxRecDepth 1000000 in
/-- C4 at a concrete input: the store refuses the empty key of the second of
three documents; the other two are stored and counted, the third after the
refusal. -/
theorem batchInsert_isolates_put_error_witness :
    (∃ mid final st',
      processDocuments sampleJson strictStub 0 [[("_id", .string "A")]] (newResult 3) [] =
        (.returned mid, [("A", "\x7b\"_id\":\"A\"\x7d")]) ∧
      processDocuments sampleJson strictStub 2 [[("_id", .string "B")]]
        { mid with
          FailedDocs := mid.FailedDocs + 1
          Errors := mid.Errors ++
            ["Doc " ++ toString 1 ++ ": storage error: " ++ "key must not be an empty string"] }
        [("A", "\x7b\"_id\":\"A\"\x7d")] = (.returned final, st') ∧
      batchInsert sampleJson strictStub "1ms" []
          ["\x7b\"documents\":[\x7b\"_id\":\"A\"\x7d,\x7b\"_id\":\"\"\x7d,\x7b\"_id\":\"B\"\x7d]\x7d"] =
        (.returned (shim.Success
          (sampleJson.MarshalResult { final with ProcessingTime := "1ms" })), st') ∧
      ("Doc " ++ toString 1 ++ ": storage error: " ++ "key must not be an empty string")
        ∈ final.Errors ∧
      mid.SuccessfulDocs ≤ final.SuccessfulDocs ∧
      final.SuccessfulDocs + final.FailedDocs = 3 ∧
      processDocuments sampleJson strictStub 0
          ([[("_id", .string "A")]] ++ [[("_id", .string "")]]) (newResult 3) [] =
        (.returned
          { mid with
            FailedDocs := mid.FailedDocs + 1
            Errors := mid.Errors ++
              ["Doc " ++ toString 1 ++ ": storage error: " ++
                "key must not be an empty string"] },
          [("A", "\x7b\"_id\":\"A\"\x7d")]) ∧
      (∀ (earlier rest : List Doc) (later : Doc) (laterKey laterBytes : String),
        [[("_id", .string "B")]] = earlier ++ later :: rest →
        later.lookup "_id" = some (.string laterKey) →
        sampleJson.MarshalDoc later = .ok laterBytes →
        ∃ before reached,
          processDocuments sampleJson strictStub 0
            ([[("_id", .string "A")]] ++ [("_id", .string "")] :: earlier)
            (newResult 3) [] = (.returned before, reached) ∧
          (∀ after, strictStub.PutState reached laterKey laterBytes = (none, after) →
            processDocuments sampleJson strictStub 0
                ([[("_id", .string "A")]] ++ [("_id", .string "")] :: earlier ++ [later])
                (newResult 3) [] =
              (.returned before.succeed, after)) ∧
          (∀ laterErr after,
            strictStub.PutState reached laterKey laterBytes = (some laterErr, after) →
            processDocuments sampleJson strictStub 0
                ([[("_id", .string "A")]] ++ [("_id", .string "")] :: earlier ++ [later])
                (newResult 3) [] =
              (.returned (before.fail ("Doc " ++ toString (1 + 1 + earlier.length) ++
                ": storage error: " ++ laterErr)), after))) ∧
      final.SuccessfulDocs = (putLog sampleJson strictStub []
        ["\x7b\"documents\":[\x7b\"_id\":\"A\"\x7d,\x7b\"_id\":\"\"\x7d,\x7b\"_id\":\"B\"\x7d]\x7d"]).length) ∧
    batchInsert sampleJson strictStub "1ms" []
        ["\x7b\"documents\":[\x7b\"_id\":\"A\"\x7d,\x7b\"_id\":\"\"\x7d,\x7b\"_id\":\"B\"\x7d]\x7d"] =
      (.returned (shim.Success (sampleJson.MarshalResult
        { TotalDocs := 3, SuccessfulDocs := 2, FailedDocs := 1, ProcessingTime := "1ms",
          Errors := ["Doc 1: storage error: key must not be an empty string"] })),
        [("B", "\x7b\"_id\":\"B\"\x7d"), ("A", "\x7b\"_id\":\"A\"\x7d")]) ∧
    processDocuments sampleJson strictStub 0
        [[("_id", .string "A")], [("_id", .string "")]] (newResult 3) [] =
      (.returned
        { TotalDocs := 3, SuccessfulDocs := 1, FailedDocs := 1, ProcessingTime := "",
          Errors := ["Doc 1: storage error: key must not be an empty string"] },
        [("A", "\x7b\"_id\":\"A\"\x7d")]) ∧
    strictStub.PutState [("A", "\x7b\"_id\":\"A\"\x7d")] "B" "\x7b\"_id\":\"B\"\x7d" =
      (none, [("B", "\x7b\"_id\":\"B\"\x7d"), ("A", "\x7b\"_id\":\"A\"\x7d")]) ∧
    processDocuments sampleJson strictStub 0
        [[("_id", .string "A")], [("_id", .string "")], [("_id", .string "B")]]
        (newResult 3) [] =
      (.returned
        { TotalDocs := 3, SuccessfulDocs := 2, FailedDocs := 1, ProcessingTime := "",
          Errors := ["Doc 1: storage error: key must not be an empty string"] },
        [("B", "\x7b\"_id\":\"B\"\x7d"), ("A", "\x7b\"_id\":\"A\"\x7d")]) ∧
    putLog sampleJson strictStub []
        ["\x7b\"documents\":[\x7b\"_id\":\"A\"\x7d,\x7b\"_id\":\"\"\x7d,\x7b\"_id\":\"B\"\x7d]\x7d"] =
      [("A", "\x7b\"_id\":\"A\"\x7d"), ("B", "\x7b\"_id\":\"B\"\x7d")] :=
  ⟨batchInsert_isolates_put_error sampleJson strictStub "1ms" []
      [("A", "\x7b\"_id\":\"A\"\x7d")] [("A", "\x7b\"_id\":\"A\"\x7d")]
      "\x7b\"documents\":[\x7b\"_id\":\"A\"\x7d,\x7b\"_id\":\"\"\x7d,\x7b\"_id\":\"B\"\x7d]\x7d"
      [[("_id", .string "A")]] [[("_id", .string "B")]] [("_id", .string "")]
      "" "\x7b\"_id\":\"\"\x7d" "key must not be an empty string"
      (by rfl) (by decide) (by rfl) (by rfl) (by rfl) (by rfl),
    by rfl, by rfl, by rfl, by rfl, by rfl⟩

set_option maxRecDepth 1000000 in
/-- C5 (what the code does): on the batch whose first document has the number
7 as `_id` and whose second document has the `_id` "A", against the in-memory
store, `batchInsert` panics at the first document, so nothing is stored under
"A" and no document is counted. On a batch whose documents all have a string
`_id` or none, last write wins and every document with a key is counted; on
the concrete scenario the call returns totalDocs = 3, successfulDocs = 2,
failedDocs = 1, the error "Doc 1: missing _id", and "A" holds the third
document. -/
theorem batchInsert_last_write_after_panic :
    (batchInsert sampleJson memStub "1ms" []
          ["\x7b\"documents\":[\x7b\"_id\":7\x7d,\x7b\"_id\":\"A\",\"v\":1\x7d]\x7d"] =
        (.panicked "interface conversion: interface {} is float64, not string", []) ∧
      memStub.GetState [] "A" = .ok none) ∧
    (∀ (τ : Type) (json : Json) (stub : ChaincodeStubInterface τ), PutSucceeds stub →
      ∀ (elapsed : String) (st : τ) (payload : String) (docs : List Doc),
      json.UnmarshalBatch payload = .ok ⟨docs⟩ → docs ≠ [] →
      (∀ d ∈ docs, d.idChecked = true) →
      (∀ d ∈ docs, d.key?.isSome = true → (json.MarshalDoc d).isOk = true) →
      ∃ st',
        batchInsert json stub elapsed st [payload] =
          (.returned (shim.Success (json.MarshalResult
            { TotalDocs := docs.length
              SuccessfulDocs := docs.countP (fun d => d.key?.isSome)
              FailedDocs := docs.countP Doc.lacksId
              ProcessingTime := elapsed
              Errors := missingIdErrors 0 docs })), st') ∧
        ∀ (pre post : List Doc) (d : Doc) (key docBytes : String),
          docs = pre ++ d :: post →
          d.lookup "_id" = some (.string key) →
          (∀ d' ∈ post, d'.key? ≠ some key) →
          json.MarshalDoc d = .ok docBytes →
          stub.GetState st' key = .ok (some docBytes)) ∧
    batchInsert sampleJson memStub "1ms" [] [scenarioPayload] =
      (.returned (shim.Success (sampleJson.MarshalResult
        { TotalDocs := 3, SuccessfulDocs := 2, FailedDocs := 1, ProcessingTime := "1ms",
          Errors := ["Doc 1: missing _id"] })),
        [("A", "\x7b\"_id\":\"A\",\"v\":3\x7d")]) :=
  ⟨⟨by rfl, by rfl⟩,
    fun _ json stub hs elapsed st payload docs hparse hne hchk hser =>
      batchInsert_last_write json stub hs elapsed st payload docs hparse hne hchk hser,
    by rfl⟩

/-- C6: for every payload that deserializes to an empty document list,
`batchInsert` returns the error response "No documents provided", which
carries no payload, and leaves the state of the store as it was: no put is
made. -/
theorem batchInsert_rejects_empty_batch (json : Json) (stub : ChaincodeStubInterface σ)
    (elapsed : String) (st : σ) (payload : String) (batchData : BatchData)
    (hparse : json.UnmarshalBatch payload = .ok batchData)
    (hempty : batchData.Documents = []) :
    batchInsert json stub elapsed st [payload] =
      (.returned { Status := 500, Message := "No documents provided", Payload := none }, st) := by
  simp [batchInsert, hparse, hempty, shim.Error, shim.ERROR]

set_option maxRecDepth 1000000 in
/-- C6 at concrete inputs: `documents` empty, null and absent. -/
theorem batchInsert_rejects_empty_batch_witness :
    batchInsert sampleJson memStub "1ms" [("K", "kept")] ["\x7b\"documents\":[]\x7d"] =
      (.returned { Status := 500, Message := "No documents provided", Payload := none },
        [("K", "kept")]) ∧
    batchInsert sampleJson memStub "1ms" [("K", "kept")] ["\x7b\"documents\":null\x7d"] =
      (.returned { Status := 500, Message := "No documents provided", Payload := none },
        [("K", "kept")]) ∧
    batchInsert sampleJson memStub "1ms" [("K", "kept")] ["\x7b\"other\":1\x7d"] =
      (.returned { Status := 500, Message := "No documents provided", Payload := none },
        [("K", "kept")]) :=
  ⟨batchInsert_rejects_empty_batch sampleJson memStub "1ms" _ _ ⟨[]⟩ (by rfl) rfl,
    batchInsert_rejects_empty_batch sampleJson memStub "1ms" _ _ ⟨[]⟩ (by rfl) rfl,
    batchInsert_rejects_empty_batch sampleJson memStub "1ms" _ _ ⟨[]⟩ (by rfl) rfl⟩

/-- C7: for every payload that fails to deserialize, with the error `err`,
`batchInsert` returns the error response "Failed to parse batch data: err",
which carries no payload and whose message is not the message of the
empty-list error, and leaves the state of the store as it was: no put is
made. -/
theorem batchInsert_rejects_malformed_payload (json : Json) (stub : ChaincodeStubInterface σ)
    (elapsed : String) (st : σ) (payload err : String)
    (hparse : json.UnmarshalBatch payload = .error err) :
    batchInsert json stub elapsed st [payload] =
      (.returned
        { Status := 500, Message := "Failed to parse batch data: " ++ err, Payload := none },
        st) ∧
    "Failed to parse batch data: " ++ err ≠ "No documents provided" := by
  refine ⟨by simp [batchInsert, hparse, shim.Error, shim.ERROR], ?_⟩
  intro h
  have hd := congrArg String.data h
  rw [String.data_append] at hd
  have hh := congrArg List.head? hd
  simp at hh

set_option maxRecDepth 1000000 in
/-- C7 at concrete inputs: text that is not JSON, and a `documents` field that
is not an array. -/
theorem batchInsert_rejects_malformed_payload_witness :
    (batchInsert sampleJson memStub "1ms" [("K", "kept")] ["not json"] =
      (.returned
        { Status := 500
          Message := "Failed to parse batch data: " ++
            "invalid character looking for beginning of value"
          Payload := none },
        [("K", "kept")]) ∧
      "Failed to parse batch data: " ++ "invalid character looking for beginning of value"
        ≠ "No documents provided") ∧
    (batchInsert sampleJson memStub "1ms" [("K", "kept")] ["\x7b\"documents\":5\x7d"] =
      (.returned
        { Status := 500
          Message := "Failed to parse batch data: " ++
            ("json: cannot unmarshal number into Go struct field BatchData.documents " ++
              "of type []map[string]interface {}")
          Payload := none },
        [("K", "kept")]) ∧
      "Failed to parse batch data: " ++
          ("json: cannot unmarshal number into Go struct field BatchData.documents " ++
            "of type []map[string]interface {}")
        ≠ "No documents provided") :=
  ⟨batchInsert_rejects_malformed_payload sampleJson memStub "1ms" _ _ _ (by rfl),
    batchInsert_rejects_malformed_payload sampleJson memStub "1ms" _ _ _ (by rfl)⟩

/-- C8 (overwrite idempotence): against a store whose put succeeds, running
`batchInsert` on a payload a second time, from the store the first run left,
leaves every key of the store reading as after the first run, and has the
outcome of the first run: the same error response or panic, or a success
response carrying the same result (totalDocs, successfulDocs, failedDocs,
errors) with its own processing time. -/
theorem batchInsert_twice (json : Json) (stub : ChaincodeStubInterface σ)
    (hs : PutSucceeds stub) (e1 e2 : String) (st : σ) (payload : String) :
    (∀ key,
      stub.GetState
          (batchInsert json stub e2 (batchInsert json stub e1 st [payload]).2 [payload]).2 key =
        stub.GetState (batchInsert json stub e1 st [payload]).2 key) ∧
    ((batchInsert json stub e2 (batchInsert json stub e1 st [payload]).2 [payload]).1 =
        (batchInsert json stub e1 st [payload]).1 ∨
      ∃ result : BatchResult,
        (batchInsert json stub e1 st [payload]).1 =
          .returned (shim.Success
            (json.MarshalResult { result with ProcessingTime := e1 })) ∧
        (batchInsert json stub e2 (batchInsert json stub e1 st [payload]).2 [payload]).1 =
          .returned (shim.Success
            (json.MarshalResult { result with ProcessingTime := e2 }))) := by
  cases hparse : json.UnmarshalBatch payload with
  | error err =>
    have h : ∀ (e : String) (s : σ), batchInsert json stub e s [payload] =
        (.returned (shim.Error ("Failed to parse batch data: " ++ err)), s) := by
      intro e s; simp [batchInsert, hparse]
    simp [h]
  | ok batchData =>
    obtain ⟨docs⟩ := batchData
    by_cases hne : docs = []
    · have h : ∀ (e : String) (s : σ), batchInsert json stub e s [payload] =
          (.returned (shim.Error "No documents provided"), s) := by
        intro e s; simp [batchInsert, hparse, hne]
      simp [h]
    · have h := fun (e : String) (s : σ) =>
        batchInsert_putOk json stub hs.put_ok e s payload docs hparse hne
      rw [h e1 st, h e2]
      refine ⟨fun key => get_runPuts_twice stub hs st _ key, ?_⟩
      cases (processDocuments json nullStub 0 docs (newResult docs.length) ()).1 with
      | returned result => exact Or.inr ⟨result, rfl, rfl⟩
      | panicked msg => exact Or.inl rfl

set_option maxRecDepth 1000000 in
/-- C8 at a concrete input: the scenario batch run twice on the in-memory
store. -/
theorem batchInsert_twice_witness :
    ((∀ key,
      memStub.GetState
          (batchInsert sampleJson memStub "2ms"
            (batchInsert sampleJson memStub "1ms" [] [scenarioPayload]).2 [scenarioPayload]).2
          key =
        memStub.GetState
          (batchInsert sampleJson memStub "1ms" [] [scenarioPayload]).2
          key) ∧
    ((batchInsert sampleJson memStub "2ms"
          (batchInsert sampleJson memStub "1ms" [] [scenarioPayload]).2 [scenarioPayload]).1 =
        (batchInsert sampleJson memStub "1ms" [] [scenarioPayload]).1 ∨
      ∃ result : BatchResult,
        (batchInsert sampleJson memStub "1ms" [] [scenarioPayload]).1 =
          .returned (shim.Success
            (sampleJson.MarshalResult { result with ProcessingTime := "1ms" })) ∧
        (batchInsert sampleJson memStub "2ms"
          (batchInsert sampleJson memStub "1ms" [] [scenarioPayload]).2 [scenarioPayload]).1 =
          .returned (shim.Success
            (sampleJson.MarshalResult { result with ProcessingTime := "2ms" })))) ∧
    batchInsert sampleJson memStub "2ms" [("A", "\x7b\"_id\":\"A\",\"v\":3\x7d")] [scenarioPayload] =
      (.returned (shim.Success (sampleJson.MarshalResult
        { TotalDocs := 3, SuccessfulDocs := 2, FailedDocs := 1, ProcessingTime := "2ms",
          Errors := ["Doc 1: missing _id"] })),
        [("A", "\x7b\"_id\":\"A\",\"v\":3\x7d")]) :=
  ⟨batchInsert_twice sampleJson memStub memStub_putSucceeds "1ms" "2ms" [] _, by rfl⟩

/-- C9: for a payload that parses to a batch of N >= 1 documents of which
exactly K have no `_id` field, the others having a string `_id` and
serializing, against a store whose put succeeds, `batchInsert` returns a
success response with totalDocs = N, successfulDocs = N - K, failedDocs = K
and K errors. The string `_id`s need not be distinct. -/
theorem batchInsert_counts_missing_ids (json : Json) (stub : ChaincodeStubInterface σ)
    (elapsed : String) (st : σ) (payload : String) (docs : List Doc) (N K : Nat)
    (hparse : json.UnmarshalBatch payload = .ok ⟨docs⟩)
    (hN : docs.length = N) (hpos : 1 ≤ N)
    (hK : docs.countP Doc.lacksId = K)
    (hrest : ∀ d ∈ docs, d.lacksId = false → d.key?.isSome = true)
    (hser : ∀ d ∈ docs, d.key?.isSome = true → (json.MarshalDoc d).isOk = true)
    (hs : PutSucceeds stub) :
    ∃ errs st',
      batchInsert json stub elapsed st [payload] =
        (.returned (shim.Success (json.MarshalResult
          { TotalDocs := N, SuccessfulDocs := N - K, FailedDocs := K,
            ProcessingTime := elapsed, Errors := errs })), st') ∧
      errs.length = K := by
  have hne : docs ≠ [] := by
    intro h; rw [h] at hN; simp at hN; omega
  have hchk : ∀ d ∈ docs, d.idChecked = true := by
    intro d hd
    cases hl : d.lacksId with
    | true => simp [Doc.idChecked, hl]
    | false => simp [Doc.idChecked, hrest d hd hl]
  have hsum := countP_key_add_lacks docs hchk
  refine ⟨missingIdErrors 0 docs, runPuts stub st (putsOf json docs), ?_, ?_⟩
  · rw [batchInsert_clean json stub hs.put_ok elapsed st payload docs hparse hne hchk hser]
    have h1 : docs.countP (fun d => d.key?.isSome) = N - K := by omega
    rw [h1, hK, hN]
  · rw [missingIdErrors_length, hK]

set_option maxRecDepth 1000000 in
/-- C9 at a concrete input: N = 3 documents, K = 1 of them without `_id`. -/
theorem batchInsert_counts_missing_ids_witness :
    ∃ errs st',
      batchInsert sampleJson memStub "1ms" []
          ["\x7b\"documents\":[\x7b\"_id\":\"A\",\"v\":1\x7d,\x7b\"v\":2\x7d,\x7b\"_id\":\"B\",\"v\":3\x7d]\x7d"] =
        (.returned (shim.Success (sampleJson.MarshalResult
          { TotalDocs := 3, SuccessfulDocs := 3 - 1, FailedDocs := 1,
            ProcessingTime := "1ms", Errors := errs })), st') ∧
      errs.length = 1 :=
  batchInsert_counts_missing_ids sampleJson memStub "1ms" [] _
    [[("_id", .string "A"), ("v", .number ⟨4607182418800017408⟩)],
      [("v", .number ⟨4611686018427387904⟩)],
      [("_id", .string "B"), ("v", .number ⟨4613937818241073152⟩)]] 3 1
    (by rfl) (by rfl) (by decide) (by decide) (by decide) (by decide) memStub_putSucceeds

/-- C10 (accounting): whenever `batchInsert` returns a success response,
whatever the puts of the store did, the response carries the result the loop
ended with, in which totalDocs is the number of documents, successfulDocs +
failedDocs = totalDocs and the errors are as many as failedDocs; and after
each number `n` of iterations the loop holds a result with successfulDocs +
failedDocs = n and as many errors as failedDocs, from which the remaining
iterations lead to the final result. -/
theorem batchInsert_accounting (json : Json) (stub : ChaincodeStubInterface σ)
    (elapsed : String) (st st' : σ) (payload : String) (resp : Response)
    (hret : batchInsert json stub elapsed st [payload] = (.returned resp, st'))
    (hok : resp.Status = shim.OK) :
    ∃ docs result,
      json.UnmarshalBatch payload = .ok ⟨docs⟩ ∧
      processDocuments json stub 0 docs (newResult docs.length) st = (.returned result, st') ∧
      resp = shim.Success (json.MarshalResult { result with ProcessingTime := elapsed }) ∧
      result.TotalDocs = docs.length ∧
      result.SuccessfulDocs + result.FailedDocs = result.TotalDocs ∧
      result.Errors.length = result.FailedDocs ∧
      ∀ n, n ≤ docs.length →
        ∃ partialResult stn,
          processDocuments json stub 0 (docs.take n) (newResult docs.length) st =
            (.returned partialResult, stn) ∧
          processDocuments json stub n (docs.drop n) partialResult stn =
            (.returned result, st') ∧
          partialResult.TotalDocs = docs.length ∧
          partialResult.SuccessfulDocs + partialResult.FailedDocs = n ∧
          partialResult.Errors.length = partialResult.FailedDocs := by
  cases hparse : json.UnmarshalBatch payload with
  | error err =>
    simp [batchInsert, hparse] at hret
    rw [← hret.1] at hok
    simp [shim.Error, shim.ERROR, shim.OK] at hok
  | ok batchData =>
    obtain ⟨docs⟩ := batchData
    by_cases hne : docs = []
    · simp [batchInsert, hparse, hne] at hret
      rw [← hret.1] at hok
      simp [shim.Error, shim.ERROR, shim.OK] at hok
    · rw [batchInsert_loop json stub elapsed st payload docs hparse hne] at hret
      rcases hloop : processDocuments json stub 0 docs (newResult docs.length) st with
        ⟨result | msg, stf⟩
      · rw [hloop] at hret
        simp only [Prod.mk.injEq, Outcome.returned.injEq] at hret
        obtain ⟨hresp, hst⟩ := hret
        subst hst
        obtain ⟨h1, -, h3, h4, -, -⟩ :=
          processDocuments_accounting json stub docs 0 _ _ _ _ hloop
        simp only [newResult, List.length_nil, Nat.zero_add, Nat.add_zero] at h1 h3 h4
        refine ⟨docs, result, rfl, hloop, hresp.symm, h1, ?_, ?_, ?_⟩
        · rw [h1]; omega
        · omega
        · intro n hn
          have hsplit : docs = docs.take n ++ docs.drop n := (List.take_append_drop n docs).symm
          rw [hsplit] at hloop
          obtain ⟨mid, stm, hmid, hrest⟩ := processDocuments_prefix_returns json stub
            (docs.take n) (docs.drop n) 0 _ _ _ _ hloop
          rw [← hsplit] at hmid
          obtain ⟨g1, -, g3, g4, -, -⟩ :=
            processDocuments_accounting json stub (docs.take n) 0 _ _ _ _ hmid
          simp only [newResult, List.length_nil, Nat.zero_add, Nat.add_zero,
            List.length_take, Nat.min_eq_left hn] at g1 g3 g4 hrest
          exact ⟨mid, stm, hmid, hrest, g1, by omega, by omega⟩
      · rw [hloop] at hret
        simp at hret

set_option maxRecDepth 1000000 in
/-- C10 at a concrete input: of three documents one is stored, one is refused
by the store and one has no `_id`. -/
theorem batchInsert_accounting_witness :
    ∃ docs result,
      sampleJson.UnmarshalBatch
          "\x7b\"documents\":[\x7b\"_id\":\"A\"\x7d,\x7b\"_id\":\"\"\x7d,\x7b\"v\":1\x7d]\x7d" =
        .ok ⟨docs⟩ ∧
      processDocuments sampleJson strictStub 0 docs (newResult docs.length) [] =
        (.returned result, [("A", "\x7b\"_id\":\"A\"\x7d")]) ∧
      shim.Success (sampleJson.MarshalResult
          { TotalDocs := 3, SuccessfulDocs := 1, FailedDocs := 2, ProcessingTime := "1ms",
            Errors := ["Doc 1: storage error: key must not be an empty string",
              "Doc 2: missing _id"] }) =
        shim.Success (sampleJson.MarshalResult { result with ProcessingTime := "1ms" }) ∧
      result.TotalDocs = docs.length ∧
      result.SuccessfulDocs + result.FailedDocs = result.TotalDocs ∧
      result.Errors.length = result.FailedDocs ∧
      ∀ n, n ≤ docs.length →
        ∃ partialResult stn,
          processDocuments sampleJson strictStub 0 (docs.take n) (newResult docs.length) [] =
            (.returned partialResult, stn) ∧
          processDocuments sampleJson strictStub n (docs.drop n) partialResult stn =
            (.returned result, [("A", "\x7b\"_id\":\"A\"\x7d")]) ∧
          partialResult.TotalDocs = docs.length ∧
          partialResult.SuccessfulDocs + partialResult.FailedDocs = n ∧
          partialResult.Errors.length = partialResult.FailedDocs :=
  batchInsert_accounting sampleJson strictStub "1ms" [] _
    "\x7b\"documents\":[\x7b\"_id\":\"A\"\x7d,\x7b\"_id\":\"\"\x7d,\x7b\"v\":1\x7d]\x7d"
    (shim.Success (sampleJson.MarshalResult
      { TotalDocs := 3, SuccessfulDocs := 1, FailedDocs := 2, ProcessingTime := "1ms",
        Errors := ["Doc 1: storage error: key must not be an empty string",
          "Doc 2: missing _id"] }))
    (by rfl) (by rfl)

/-- C11: for every argument list whose length is not 1, `batchInsert` returns
the error response "Expecting 1 argument: JSON batch data", which carries no
payload, whatever the arguments hold; the state of the store is left as it
was and no put is made. -/
theorem batchInsert_rejects_argument_count (json : Json) (stub : ChaincodeStubInterface σ)
    (elapsed : String) (st : σ) (args : List String) (hlen : args.length ≠ 1) :
    batchInsert json stub elapsed st args =
      (.returned
        { Status := 500, Message := "Expecting 1 argument: JSON batch data", Payload := none },
        st) ∧
    putLog json stub st args = [] := by
  match args, hlen with
  | [], _ => exact ⟨rfl, rfl⟩
  | [_], h => exact absurd rfl h
  | _ :: _ :: _, _ => exact ⟨rfl, rfl⟩

set_option maxRecDepth 1000000 in
/-- C11 at concrete inputs: no argument, and two arguments that are each a
well-formed batch. -/
theorem batchInsert_rejects_argument_count_witness :
    (batchInsert sampleJson memStub "1ms" [("K", "kept")] [] =
        (.returned
          { Status := 500, Message := "Expecting 1 argument: JSON batch data", Payload := none },
          [("K", "kept")]) ∧
      putLog sampleJson memStub [("K", "kept")] [] = []) ∧
    (batchInsert sampleJson memStub "1ms" [("K", "kept")] [scenarioPayload, scenarioPayload] =
        (.returned
          { Status := 500, Message := "Expecting 1 argument: JSON batch data", Payload := none },
          [("K", "kept")]) ∧
      putLog sampleJson memStub [("K", "kept")] [scenarioPayload, scenarioPayload] = []) :=
  ⟨batchInsert_rejects_argument_count sampleJson memStub "1ms" _ [] (by decide),
    batchInsert_rejects_argument_count sampleJson memStub "1ms" _
      [scenarioPayload, scenarioPayload] (by decide)⟩

/-- C12: whenever `batchInsert` returns a success response, the errors of the
result it carries are one entry for each failed document, in input order, the
entry of the document at position `i` being "Doc i: " followed by its reason,
and none for a stored document. What happens to a document is what
`specOutcomes` tells: it fails for a missing `_id`, a marshal error or a put
that the store refuses, and is stored when its put reports no error. The
loop counts a document as failed exactly when it fails and as successful
exactly when it is stored; the positions of the failed documents are strictly
increasing, and every document is exactly one of failed and stored. -/
theorem batchInsert_errors_by_index (json : Json) (stub : ChaincodeStubInterface σ)
    (elapsed : String) (st st' : σ) (payload : String) (resp : Response)
    (hret : batchInsert json stub elapsed st [payload] = (.returned resp, st'))
    (hok : resp.Status = shim.OK) :
    ∃ docs result reasons,
      json.UnmarshalBatch payload = .ok ⟨docs⟩ ∧
      processDocuments json stub 0 docs (newResult docs.length) st = (.returned result, st') ∧
      resp = shim.Success (json.MarshalResult { result with ProcessingTime := elapsed }) ∧
      reasons.length = (failedDocs json stub docs st).length ∧
      result.Errors = List.zipWith (fun i reason => "Doc " ++ toString i ++ ": " ++ reason)
        (failedDocs json stub docs st) reasons ∧
      (failedDocs json stub docs st).Pairwise (fun i j => i < j) ∧
      (∀ i ∈ failedDocs json stub docs st, i < docs.length) ∧
      result.FailedDocs = (failedDocs json stub docs st).length ∧
      result.SuccessfulDocs = (storedDocs json stub docs st).length ∧
      (∀ i, i < docs.length →
        (failedAt json stub docs st i = true ∧ storedAt json stub docs st i = false) ∨
        (failedAt json stub docs st i = false ∧ storedAt json stub docs st i = true)) ∧
      (specOutcomes json stub st docs).length = docs.length ∧
      result.Errors = specErrors 0 (specOutcomes json stub st docs) ∧
      result.FailedDocs = (specOutcomes json stub st docs).countP IngestOutcome.isFailed ∧
      result.SuccessfulDocs = (specOutcomes json stub st docs).countP IngestOutcome.isStored ∧
      ∀ i, i < docs.length →
        (failedAt json stub docs st i = true ↔
          ∃ reason, (specOutcomes json stub st docs)[i]? = some (.Failed reason)) ∧
        (storedAt json stub docs st i = true ↔
          (specOutcomes json stub st docs)[i]? = some .Stored) := by
  obtain ⟨docs, result, hparse, hloop, hresp⟩ :=
    batchInsert_success json stub elapsed st st' payload resp hret hok
  have hwhole := hloop
  rw [← afterIterations_length] at hloop
  obtain ⟨reasons, h1, h2, h3, h4, h5⟩ :=
    afterIterations_errors json stub docs st docs.length (Nat.le_refl _) result st' hloop
  rw [afterIterations_length] at hloop
  obtain ⟨o1, o2, o3⟩ := processDocuments_outcomes json stub docs 0 _ result st st' hwhole
  refine ⟨docs, result, reasons, hparse, hloop, hresp, h1, h2, ?_, ?_, h3, h4, h5,
    specOutcomes_length json stub docs st, ?_, ?_, ?_,
    fun i hi => failedAt_iff_outcome json stub docs st st' result hwhole i hi⟩
  · exact (List.pairwise_lt_range docs.length).filter _
  · intro i hi
    exact List.mem_range.mp (List.mem_filter.mp hi).1
  · simpa [newResult] using o1
  · simpa [newResult] using o2
  · simpa [newResult] using o3

set_option maxRecDepth 1000000 in
/-- C12 at a concrete input: of three documents the first is stored, the
second is refused by the store and the third has no `_id`; the errors are
those of positions 1 and 2, in that order. -/
theorem batchInsert_errors_by_index_witness :
    (∃ docs result reasons,
      sampleJson.UnmarshalBatch
          "\x7b\"documents\":[\x7b\"_id\":\"A\"\x7d,\x7b\"_id\":\"\"\x7d,\x7b\"v\":1\x7d]\x7d" =
        .ok ⟨docs⟩ ∧
      processDocuments sampleJson strictStub 0 docs (newResult docs.length) [] =
        (.returned result, [("A", "\x7b\"_id\":\"A\"\x7d")]) ∧
      shim.Success (sampleJson.MarshalResult
          { TotalDocs := 3, SuccessfulDocs := 1, FailedDocs := 2, ProcessingTime := "1ms",
            Errors := ["Doc 1: storage error: key must not be an empty string",
              "Doc 2: missing _id"] }) =
        shim.Success (sampleJson.MarshalResult { result with ProcessingTime := "1ms" }) ∧
      reasons.length = (failedDocs sampleJson strictStub docs []).length ∧
      result.Errors = List.zipWith (fun i reason => "Doc " ++ toString i ++ ": " ++ reason)
        (failedDocs sampleJson strictStub docs []) reasons ∧
      (failedDocs sampleJson strictStub docs []).Pairwise (fun i j => i < j) ∧
      (∀ i ∈ failedDocs sampleJson strictStub docs [], i < docs.length) ∧
      result.FailedDocs = (failedDocs sampleJson strictStub docs []).length ∧
      result.SuccessfulDocs = (storedDocs sampleJson strictStub docs []).length ∧
      (∀ i, i < docs.length →
        (failedAt sampleJson strictStub docs [] i = true ∧
          storedAt sampleJson strictStub docs [] i = false) ∨
        (failedAt sampleJson strictStub docs [] i = false ∧
          storedAt sampleJson strictStub docs [] i = true)) ∧
      (specOutcomes sampleJson strictStub [] docs).length = docs.length ∧
      result.Errors = specErrors 0 (specOutcomes sampleJson strictStub [] docs) ∧
      result.FailedDocs =
        (specOutcomes sampleJson strictStub [] docs).countP IngestOutcome.isFailed ∧
      result.SuccessfulDocs =
        (specOutcomes sampleJson strictStub [] docs).countP IngestOutcome.isStored ∧
      ∀ i, i < docs.length →
        (failedAt sampleJson strictStub docs [] i = true ↔
          ∃ reason, (specOutcomes sampleJson strictStub [] docs)[i]? = some (.Failed reason)) ∧
        (storedAt sampleJson strictStub docs [] i = true ↔
          (specOutcomes sampleJson strictStub [] docs)[i]? = some .Stored)) ∧
    failedDocs sampleJson strictStub
        [[("_id", .string "A")], [("_id", .string "")],
          [("v", .number ⟨4607182418800017408⟩)]] [] = [1, 2] ∧
    storedDocs sampleJson strictStub
        [[("_id", .string "A")], [("_id", .string "")],
          [("v", .number ⟨4607182418800017408⟩)]] [] = [0] ∧
    specOutcomes sampleJson strictStub []
        [[("_id", .string "A")], [("_id", .string "")],
          [("v", .number ⟨4607182418800017408⟩)]] =
      [.Stored, .Failed "storage error: key must not be an empty string",
        .Failed "missing _id"] ∧
    specErrors 0 [.Stored, .Failed "storage error: key must not be an empty string",
        .Failed "missing _id"] =
      ["Doc 1: storage error: key must not be an empty string", "Doc 2: missing _id"] :=
  ⟨batchInsert_errors_by_index sampleJson strictStub "1ms" [] _
      "\x7b\"documents\":[\x7b\"_id\":\"A\"\x7d,\x7b\"_id\":\"\"\x7d,\x7b\"v\":1\x7d]\x7d"
      (shim.Success (sampleJson.MarshalResult
        { TotalDocs := 3, SuccessfulDocs := 1, FailedDocs := 2, ProcessingTime := "1ms",
          Errors := ["Doc 1: storage error: key must not be an empty string",
            "Doc 2: missing _id"] }))
      (by rfl) (by rfl),
    by rfl, by rfl, by rfl, by decide⟩

/-- C13 (frame): over a keyed store, in which a put that reports an error
leaves every key as it was, for every payload and initial state: recording
the puts that report no error changes neither the outcome nor the state; a
key that no recorded put names reads after the call what it read before; a
key that a recorded put names reads a value the call put; the keys of the
recorded puts are, in order, the `_id`s of the documents counted as
successful, one put for each, so that the keys written are as many as the
distinct `_id`s among those documents; and the iteration of a document
counted as failed leaves every key reading as before it. -/
theorem batchInsert_frame (json : Json) (stub : ChaincodeStubInterface σ)
    (hs : KeyedStore stub) (elapsed : String) (st : σ) (payload : String) :
    batchInsert json (withLog stub) elapsed (st, []) [payload] =
      ((batchInsert json stub elapsed st [payload]).1,
        ((batchInsert json stub elapsed st [payload]).2, putLog json stub st [payload])) ∧
    (∀ key, key ∉ (putLog json stub st [payload]).map Prod.fst →
      stub.GetState (batchInsert json stub elapsed st [payload]).2 key =
        stub.GetState st key) ∧
    (∀ key, key ∈ (putLog json stub st [payload]).map Prod.fst →
      ∃ value, (key, value) ∈ putLog json stub st [payload] ∧
        stub.GetState (batchInsert json stub elapsed st [payload]).2 key =
          .ok (some value)) ∧
    ∀ docs, json.UnmarshalBatch payload = .ok ⟨docs⟩ →
      (putLog json stub st [payload]).map Prod.fst = storedIds json stub docs st ∧
      ((putLog json stub st [payload]).map Prod.fst).dedup.length =
        (storedIds json stub docs st).dedup.length ∧
      ∀ k, failedAt json stub docs st k = true → ∀ key,
        stub.GetState (afterIterations json stub docs st (k + 1)).2 key =
          stub.GetState (afterIterations json stub docs st k).2 key := by
  by_cases hloop : ∃ docs, json.UnmarshalBatch payload = .ok ⟨docs⟩ ∧ docs ≠ []
  · obtain ⟨docs, hparse, hne⟩ := hloop
    have hlog : ∀ e, (batchInsert json (withLog stub) e (st, []) [payload]).2.2 =
        (processDocuments json (withLog stub) 0 docs (newResult docs.length) (st, [])).2.2 := by
      intro e
      rw [batchInsert_loop_state json (withLog stub) e (st, []) payload docs hparse hne]
    have hput : putLog json stub st [payload] =
        (processDocuments json (withLog stub) 0 docs (newResult docs.length) (st, [])).2.2 :=
      hlog ""
    have hstate := batchInsert_loop_state json stub elapsed st payload docs hparse hne
    obtain ⟨t1, t2⟩ := processDocuments_withLog json stub docs 0 (newResult docs.length) st []
    obtain ⟨new, hnew, hreads⟩ := processDocuments_withLog_reads json stub hs docs 0
      (newResult docs.length) st []
    rw [List.nil_append] at hnew
    have hreads' : ∀ key, stub.GetState (batchInsert json stub elapsed st [payload]).2 key =
        match (putLog json stub st [payload]).reverse.lookup key with
        | some value => .ok (some value)
        | none => stub.GetState st key := by
      intro key
      rw [hstate, ← t2, hput, hnew]
      exact hreads key
    have hids : (putLog json stub st [payload]).map Prod.fst = storedIds json stub docs st := by
      rw [hput, ← afterIterations_length json (withLog stub)]
      exact afterIterations_log json stub docs st docs.length (Nat.le_refl _)
    refine ⟨?_, ?_, ?_, ?_⟩
    · refine Prod.ext ?_ (Prod.ext ?_ ?_)
      · show (batchInsert json (withLog stub) elapsed (st, []) [payload]).1 = _
        rw [batchInsert_loop_outcome json (withLog stub) elapsed (st, []) payload docs hparse
            hne,
          batchInsert_loop_outcome json stub elapsed st payload docs hparse hne, t1]
      · show (batchInsert json (withLog stub) elapsed (st, []) [payload]).2.1 = _
        rw [batchInsert_loop_state json (withLog stub) elapsed (st, []) payload docs hparse
          hne, hstate, t2]
      · show (batchInsert json (withLog stub) elapsed (st, []) [payload]).2.2 = _
        rw [hlog elapsed, hput]
    · intro key hkey
      rw [hreads' key, lookup_reverse_of_not_mem _ key hkey]
    · intro key hkey
      obtain ⟨value, h1, h2⟩ := lookup_reverse_of_mem _ key hkey
      exact ⟨value, h2, by rw [hreads' key, h1]⟩
    · intro docs' hparse'
      rw [hparse] at hparse'
      cases hparse'
      exact ⟨hids, by rw [hids], fun k hf key => failedAt_reads json stub hs docs st k hf key⟩
  · have hnone : ∀ docs, json.UnmarshalBatch payload = .ok ⟨docs⟩ → docs = [] := by
      intro docs hparse
      by_contra hne
      exact hloop ⟨docs, hparse, hne⟩
    obtain ⟨resp, hresp⟩ := batchInsert_noLoop json payload hnone
    have hput : putLog json stub st [payload] = [] := by
      unfold putLog
      rw [hresp]
    refine ⟨?_, ?_, ?_, ?_⟩
    · rw [hresp, hresp, hput]
    · intro key _
      rw [hresp]
    · intro key hkey
      rw [hput] at hkey
      cases hkey
    · intro docs hparse
      have hnil := hnone docs hparse
      subst hnil
      refine ⟨?_, ?_, fun k hf key => failedAt_reads json stub hs [] st k hf key⟩
      · rw [hput]; rfl
      · rw [hput]; rfl

set_option maxRecDepth 1000000 in
/-- C13 at a concrete input: the store holds "K"; of four documents two have
the `_id` "A", one the empty `_id` the store refuses, one none. Two puts are
recorded, one key is written, and "K" reads as before. -/
theorem batchInsert_frame_witness :
    (batchInsert sampleJson (withLog strictStub) "1ms" ([("K", "kept")], [])
        ["\x7b\"documents\":[\x7b\"_id\":\"A\",\"v\":1\x7d,\x7b\"_id\":\"\"\x7d,\x7b\"v\":2\x7d,\x7b\"_id\":\"A\",\"v\":3\x7d]\x7d"] =
      ((batchInsert sampleJson strictStub "1ms" [("K", "kept")]
          ["\x7b\"documents\":[\x7b\"_id\":\"A\",\"v\":1\x7d,\x7b\"_id\":\"\"\x7d,\x7b\"v\":2\x7d,\x7b\"_id\":\"A\",\"v\":3\x7d]\x7d"]).1,
        ((batchInsert sampleJson strictStub "1ms" [("K", "kept")]
          ["\x7b\"documents\":[\x7b\"_id\":\"A\",\"v\":1\x7d,\x7b\"_id\":\"\"\x7d,\x7b\"v\":2\x7d,\x7b\"_id\":\"A\",\"v\":3\x7d]\x7d"]).2,
          putLog sampleJson strictStub [("K", "kept")]
            ["\x7b\"documents\":[\x7b\"_id\":\"A\",\"v\":1\x7d,\x7b\"_id\":\"\"\x7d,\x7b\"v\":2\x7d,\x7b\"_id\":\"A\",\"v\":3\x7d]\x7d"])) ∧
      (∀ key, key ∉ (putLog sampleJson strictStub [("K", "kept")]
          ["\x7b\"documents\":[\x7b\"_id\":\"A\",\"v\":1\x7d,\x7b\"_id\":\"\"\x7d,\x7b\"v\":2\x7d,\x7b\"_id\":\"A\",\"v\":3\x7d]\x7d"]).map
            Prod.fst →
        strictStub.GetState (batchInsert sampleJson strictStub "1ms" [("K", "kept")]
          ["\x7b\"documents\":[\x7b\"_id\":\"A\",\"v\":1\x7d,\x7b\"_id\":\"\"\x7d,\x7b\"v\":2\x7d,\x7b\"_id\":\"A\",\"v\":3\x7d]\x7d"]).2
            key =
          strictStub.GetState [("K", "kept")] key) ∧
      (∀ key, key ∈ (putLog sampleJson strictStub [("K", "kept")]
          ["\x7b\"documents\":[\x7b\"_id\":\"A\",\"v\":1\x7d,\x7b\"_id\":\"\"\x7d,\x7b\"v\":2\x7d,\x7b\"_id\":\"A\",\"v\":3\x7d]\x7d"]).map
            Prod.fst →
        ∃ value, (key, value) ∈ putLog sampleJson strictStub [("K", "kept")]
            ["\x7b\"documents\":[\x7b\"_id\":\"A\",\"v\":1\x7d,\x7b\"_id\":\"\"\x7d,\x7b\"v\":2\x7d,\x7b\"_id\":\"A\",\"v\":3\x7d]\x7d"] ∧
          strictStub.GetState (batchInsert sampleJson strictStub "1ms" [("K", "kept")]
            ["\x7b\"documents\":[\x7b\"_id\":\"A\",\"v\":1\x7d,\x7b\"_id\":\"\"\x7d,\x7b\"v\":2\x7d,\x7b\"_id\":\"A\",\"v\":3\x7d]\x7d"]).2
              key =
            .ok (some value)) ∧
      ∀ docs, sampleJson.UnmarshalBatch
          "\x7b\"documents\":[\x7b\"_id\":\"A\",\"v\":1\x7d,\x7b\"_id\":\"\"\x7d,\x7b\"v\":2\x7d,\x7b\"_id\":\"A\",\"v\":3\x7d]\x7d" =
            .ok ⟨docs⟩ →
        (putLog sampleJson strictStub [("K", "kept")]
          ["\x7b\"documents\":[\x7b\"_id\":\"A\",\"v\":1\x7d,\x7b\"_id\":\"\"\x7d,\x7b\"v\":2\x7d,\x7b\"_id\":\"A\",\"v\":3\x7d]\x7d"]).map
            Prod.fst =
          storedIds sampleJson strictStub docs [("K", "kept")] ∧
        ((putLog sampleJson strictStub [("K", "kept")]
          ["\x7b\"documents\":[\x7b\"_id\":\"A\",\"v\":1\x7d,\x7b\"_id\":\"\"\x7d,\x7b\"v\":2\x7d,\x7b\"_id\":\"A\",\"v\":3\x7d]\x7d"]).map
            Prod.fst).dedup.length =
          (storedIds sampleJson strictStub docs [("K", "kept")]).dedup.length ∧
        ∀ k, failedAt sampleJson strictStub docs [("K", "kept")] k = true → ∀ key,
          strictStub.GetState
              (afterIterations sampleJson strictStub docs [("K", "kept")] (k + 1)).2 key =
            strictStub.GetState
              (afterIterations sampleJson strictStub docs [("K", "kept")] k).2 key) ∧
    putLog sampleJson strictStub [("K", "kept")]
        ["\x7b\"documents\":[\x7b\"_id\":\"A\",\"v\":1\x7d,\x7b\"_id\":\"\"\x7d,\x7b\"v\":2\x7d,\x7b\"_id\":\"A\",\"v\":3\x7d]\x7d"] =
      [("A", "\x7b\"_id\":\"A\",\"v\":1\x7d"), ("A", "\x7b\"_id\":\"A\",\"v\":3\x7d")] ∧
    batchInsert sampleJson strictStub "1ms" [("K", "kept")]
        ["\x7b\"documents\":[\x7b\"_id\":\"A\",\"v\":1\x7d,\x7b\"_id\":\"\"\x7d,\x7b\"v\":2\x7d,\x7b\"_id\":\"A\",\"v\":3\x7d]\x7d"] =
      (.returned (shim.Success (sampleJson.MarshalResult
        { TotalDocs := 4, SuccessfulDocs := 2, FailedDocs := 2, ProcessingTime := "1ms",
          Errors := ["Doc 1: storage error: key must not be an empty string",
            "Doc 2: missing _id"] })),
        [("A", "\x7b\"_id\":\"A\",\"v\":3\x7d"), ("K", "kept")]) :=
  ⟨batchInsert_frame sampleJson strictStub strictStub_keyedStore "1ms" [("K", "kept")] _,
    by rfl, by rfl⟩

set_option maxRecDepth 1000000 in
/-- C14, counterexamples to the claim as stated. First: the put of
`countingStub` succeeds or not depending on the key alone (the empty key is
refused, and a refused put changes nothing), but the text of its refusal tells
how many keys the store holds. On the payload with one document of `_id` "",
the run from the empty store and the run from a store holding "K" return
different `errors`: the text of the store is copied into the entry
(main.go:96). Second: the put of `rollbackStub` reports an error, or none,
depending on the key alone, and an accepted put stores the value under its
key and leaves the other keys, but a refused put rolls the store back. On a payload that writes "A" and then has the `_id` "", the
run from the empty store and the run from a store holding an old "A" have the
same response and make the same put, yet the written key "A" reads absent after
the one and "old" after the other. -/
theorem batchInsert_store_error_text_counterexample :
    ((∀ s1 s2 key value,
      (countingStub.PutState s1 key value).1.isSome =
        (countingStub.PutState s2 key value).1.isSome) ∧
    (∀ st key value err st' other, countingStub.PutState st key value = (some err, st') →
      countingStub.GetState st' other = countingStub.GetState st other) ∧
    batchInsert sampleJson countingStub "1ms" [] ["\x7b\"documents\":[\x7b\"_id\":\"\"\x7d]\x7d"] =
      (.returned (shim.Success (sampleJson.MarshalResult
        { TotalDocs := 1, SuccessfulDocs := 0, FailedDocs := 1, ProcessingTime := "1ms",
          Errors :=
            ["Doc 0: storage error: key must not be an empty string, 0 keys stored"] })),
        []) ∧
    batchInsert sampleJson countingStub "1ms" [("K", "v")]
        ["\x7b\"documents\":[\x7b\"_id\":\"\"\x7d]\x7d"] =
      (.returned (shim.Success (sampleJson.MarshalResult
        { TotalDocs := 1, SuccessfulDocs := 0, FailedDocs := 1, ProcessingTime := "1ms",
          Errors :=
            ["Doc 0: storage error: key must not be an empty string, 1 keys stored"] })),
        [("K", "v")]) ∧
    ["Doc 0: storage error: key must not be an empty string, 0 keys stored"] ≠
      ["Doc 0: storage error: key must not be an empty string, 1 keys stored"]) ∧
    ((∀ s1 s2 key value,
      (rollbackStub.PutState s1 key value).1 = (rollbackStub.PutState s2 key value).1) ∧
    (∀ st key value st', rollbackStub.PutState st key value = (none, st') →
      rollbackStub.GetState st' key = .ok (some value)) ∧
    (∀ st key value st' other, rollbackStub.PutState st key value = (none, st') →
      other ≠ key → rollbackStub.GetState st' other = rollbackStub.GetState st other) ∧
    batchInsert sampleJson rollbackStub "1ms" ([], [])
        ["\x7b\"documents\":[\x7b\"_id\":\"A\",\"v\":1\x7d,\x7b\"_id\":\"\"\x7d]\x7d"] =
      (.returned (shim.Success (sampleJson.MarshalResult
        { TotalDocs := 2, SuccessfulDocs := 1, FailedDocs := 1, ProcessingTime := "1ms",
          Errors := ["Doc 1: storage error: key must not be an empty string"] })),
        ([], [])) ∧
    batchInsert sampleJson rollbackStub "1ms" ([("A", "old")], [("A", "old")])
        ["\x7b\"documents\":[\x7b\"_id\":\"A\",\"v\":1\x7d,\x7b\"_id\":\"\"\x7d]\x7d"] =
      (.returned (shim.Success (sampleJson.MarshalResult
        { TotalDocs := 2, SuccessfulDocs := 1, FailedDocs := 1, ProcessingTime := "1ms",
          Errors := ["Doc 1: storage error: key must not be an empty string"] })),
        ([("A", "old")], [("A", "old")])) ∧
    putLog sampleJson rollbackStub ([], [])
        ["\x7b\"documents\":[\x7b\"_id\":\"A\",\"v\":1\x7d,\x7b\"_id\":\"\"\x7d]\x7d"] =
      [("A", "\x7b\"_id\":\"A\",\"v\":1\x7d")] ∧
    putLog sampleJson rollbackStub ([("A", "old")], [("A", "old")])
        ["\x7b\"documents\":[\x7b\"_id\":\"A\",\"v\":1\x7d,\x7b\"_id\":\"\"\x7d]\x7d"] =
      [("A", "\x7b\"_id\":\"A\",\"v\":1\x7d")] ∧
    rollbackStub.GetState ([], []) "A" = .ok none ∧
    rollbackStub.GetState ([("A", "old")], [("A", "old")]) "A" = .ok (some "old")) := by
  refine ⟨⟨?_, countingStub_keyedStore.put_error, by rfl, by rfl, by decide⟩,
    ⟨?_, ?_, ?_, by rfl, by rfl, by rfl, by rfl, by rfl, by rfl⟩⟩
  · intro s1 s2 key value
    by_cases hk : key = "" <;> simp [countingStub, hk]
  · intro s1 s2 key value
    by_cases hk : key = "" <;> simp [rollbackStub, hk]
  · intro st key value st' h
    by_cases hk : key = ""
    · simp [rollbackStub, hk] at h
    · simp only [rollbackStub, hk, if_false, Prod.mk.injEq, true_and] at h
      subst h
      simp [rollbackStub, List.lookup_cons]
  · intro st key value st' other h hne
    by_cases hk : key = ""
    · simp [rollbackStub, hk] at h
    · simp only [rollbackStub, hk, if_false, Prod.mk.injEq, true_and] at h
      subst h
      have hb : (other == key) = false := by simpa using hne
      have hf := lookup_filter_ne st.2 key other hne
      simpa [rollbackStub, List.lookup_cons, hb] using hf

/-- C14, amended (no read-before-write): `batchInsert` runs the same against
every stub with the same put, whatever its get: it never calls the get of the
store. So for every payload and any two initial stores of a keyed store, in
which a put that reports an error leaves every key as it was, and whose put
reports an error or not depending only on the key and value given: the two
runs have the same error response or panic, or return results with the same
totalDocs, successfulDocs and failedDocs and with errors that are equal but
for the text the store reported in a storage error, and equal throughout when
that text depends only on the key and value too; they perform the same puts;
and the two final stores agree on every key that was written. -/
theorem batchInsert_store_independent (json : Json) (stub : ChaincodeStubInterface σ)
    (hs : KeyedStore stub)
    (hsucc : ∀ s1 s2 key value,
      (stub.PutState s1 key value).1.isSome = (stub.PutState s2 key value).1.isSome)
    (e1 e2 : String) (st1 st2 : σ) (payload : String) :
    (∀ (get : σ → String → Except String (Option String)) (txid : σ → String)
        (elapsed : String) (st : σ) (args : List String),
      batchInsert json { PutState := stub.PutState, GetState := get, GetTxID := txid }
          elapsed st args =
        batchInsert json stub elapsed st args) ∧
    ((batchInsert json stub e1 st1 [payload]).1 = (batchInsert json stub e2 st2 [payload]).1 ∨
      ∃ r1 r2 : BatchResult,
        (batchInsert json stub e1 st1 [payload]).1 =
          .returned (shim.Success (json.MarshalResult { r1 with ProcessingTime := e1 })) ∧
        (batchInsert json stub e2 st2 [payload]).1 =
          .returned (shim.Success (json.MarshalResult { r2 with ProcessingTime := e2 })) ∧
        r1.TotalDocs = r2.TotalDocs ∧ r1.SuccessfulDocs = r2.SuccessfulDocs ∧
        r1.FailedDocs = r2.FailedDocs ∧
        List.Forall₂ sameUpToStoreText r1.Errors r2.Errors ∧
        ((∀ s1 s2 key value,
            (stub.PutState s1 key value).1 = (stub.PutState s2 key value).1) →
          r1.Errors = r2.Errors)) ∧
    putLog json stub st1 [payload] = putLog json stub st2 [payload] ∧
    ∀ key, key ∈ (putLog json stub st1 [payload]).map Prod.fst →
      stub.GetState (batchInsert json stub e1 st1 [payload]).2 key =
        stub.GetState (batchInsert json stub e2 st2 [payload]).2 key := by
  obtain ⟨hlog, hout⟩ := batchInsert_rel json stub hsucc e1 e2 st1 st2 payload
  refine ⟨fun get txid elapsed st args =>
      batchInsert_congr_put json { PutState := stub.PutState, GetState := get, GetTxID := txid }
        stub rfl elapsed st args,
    hout, hlog, ?_⟩
  intro key hkey
  obtain ⟨value, hv, _⟩ := lookup_reverse_of_mem _ key hkey
  rw [batchInsert_reads json stub hs e1 st1 payload key,
    batchInsert_reads json stub hs e2 st2 payload key, ← hlog, hv]

set_option maxRecDepth 1000000 in
/-- C14 amended, at a concrete input: the store whose refusal of the empty key
tells how many keys it holds, run on four documents from the empty store and
from a store that holds "K" and an older value of "A". The counters and the
puts are the same, the errors differ in the text of the store only, and "A"
reads the same afterwards. -/
theorem batchInsert_store_independent_witness :
    ((∀ (get : List (String × String) → String → Except String (Option String))
        (txid : List (String × String) → String)
        (elapsed : String) (st : List (String × String)) (args : List String),
      batchInsert sampleJson
          { PutState := countingStub.PutState, GetState := get, GetTxID := txid }
          elapsed st args =
        batchInsert sampleJson countingStub elapsed st args) ∧
    ((batchInsert sampleJson countingStub "1ms" []
          ["\x7b\"documents\":[\x7b\"_id\":\"A\",\"v\":1\x7d,\x7b\"_id\":\"\"\x7d,\x7b\"v\":2\x7d,\x7b\"_id\":\"A\",\"v\":3\x7d]\x7d"]).1 =
        (batchInsert sampleJson countingStub "2ms" [("K", "kept"), ("A", "old")]
          ["\x7b\"documents\":[\x7b\"_id\":\"A\",\"v\":1\x7d,\x7b\"_id\":\"\"\x7d,\x7b\"v\":2\x7d,\x7b\"_id\":\"A\",\"v\":3\x7d]\x7d"]).1 ∨
      ∃ r1 r2 : BatchResult,
        (batchInsert sampleJson countingStub "1ms" []
          ["\x7b\"documents\":[\x7b\"_id\":\"A\",\"v\":1\x7d,\x7b\"_id\":\"\"\x7d,\x7b\"v\":2\x7d,\x7b\"_id\":\"A\",\"v\":3\x7d]\x7d"]).1 =
          .returned (shim.Success
            (sampleJson.MarshalResult { r1 with ProcessingTime := "1ms" })) ∧
        (batchInsert sampleJson countingStub "2ms" [("K", "kept"), ("A", "old")]
          ["\x7b\"documents\":[\x7b\"_id\":\"A\",\"v\":1\x7d,\x7b\"_id\":\"\"\x7d,\x7b\"v\":2\x7d,\x7b\"_id\":\"A\",\"v\":3\x7d]\x7d"]).1 =
          .returned (shim.Success
            (sampleJson.MarshalResult { r2 with ProcessingTime := "2ms" })) ∧
        r1.TotalDocs = r2.TotalDocs ∧ r1.SuccessfulDocs = r2.SuccessfulDocs ∧
        r1.FailedDocs = r2.FailedDocs ∧
        List.Forall₂ sameUpToStoreText r1.Errors r2.Errors ∧
        ((∀ s1 s2 key value,
            (countingStub.PutState s1 key value).1 = (countingStub.PutState s2 key value).1) →
          r1.Errors = r2.Errors)) ∧
    putLog sampleJson countingStub []
        ["\x7b\"documents\":[\x7b\"_id\":\"A\",\"v\":1\x7d,\x7b\"_id\":\"\"\x7d,\x7b\"v\":2\x7d,\x7b\"_id\":\"A\",\"v\":3\x7d]\x7d"] =
      putLog sampleJson countingStub [("K", "kept"), ("A", "old")]
        ["\x7b\"documents\":[\x7b\"_id\":\"A\",\"v\":1\x7d,\x7b\"_id\":\"\"\x7d,\x7b\"v\":2\x7d,\x7b\"_id\":\"A\",\"v\":3\x7d]\x7d"] ∧
    ∀ key, key ∈ (putLog sampleJson countingStub []
        ["\x7b\"documents\":[\x7b\"_id\":\"A\",\"v\":1\x7d,\x7b\"_id\":\"\"\x7d,\x7b\"v\":2\x7d,\x7b\"_id\":\"A\",\"v\":3\x7d]\x7d"]).map
          Prod.fst →
      countingStub.GetState (batchInsert sampleJson countingStub "1ms" []
          ["\x7b\"documents\":[\x7b\"_id\":\"A\",\"v\":1\x7d,\x7b\"_id\":\"\"\x7d,\x7b\"v\":2\x7d,\x7b\"_id\":\"A\",\"v\":3\x7d]\x7d"]).2
          key =
        countingStub.GetState
          (batchInsert sampleJson countingStub "2ms" [("K", "kept"), ("A", "old")]
          ["\x7b\"documents\":[\x7b\"_id\":\"A\",\"v\":1\x7d,\x7b\"_id\":\"\"\x7d,\x7b\"v\":2\x7d,\x7b\"_id\":\"A\",\"v\":3\x7d]\x7d"]).2
          key) ∧
    batchInsert sampleJson countingStub "1ms" []
        ["\x7b\"documents\":[\x7b\"_id\":\"A\",\"v\":1\x7d,\x7b\"_id\":\"\"\x7d,\x7b\"v\":2\x7d,\x7b\"_id\":\"A\",\"v\":3\x7d]\x7d"] =
      (.returned (shim.Success (sampleJson.MarshalResult
        { TotalDocs := 4, SuccessfulDocs := 2, FailedDocs := 2, ProcessingTime := "1ms",
          Errors := ["Doc 1: storage error: key must not be an empty string, 1 keys stored",
            "Doc 2: missing _id"] })),
        [("A", "\x7b\"_id\":\"A\",\"v\":3\x7d")]) ∧
    batchInsert sampleJson countingStub "2ms" [("K", "kept"), ("A", "old")]
        ["\x7b\"documents\":[\x7b\"_id\":\"A\",\"v\":1\x7d,\x7b\"_id\":\"\"\x7d,\x7b\"v\":2\x7d,\x7b\"_id\":\"A\",\"v\":3\x7d]\x7d"] =
      (.returned (shim.Success (sampleJson.MarshalResult
        { TotalDocs := 4, SuccessfulDocs := 2, FailedDocs := 2, ProcessingTime := "2ms",
          Errors := ["Doc 1: storage error: key must not be an empty string, 2 keys stored",
            "Doc 2: missing _id"] })),
        [("A", "\x7b\"_id\":\"A\",\"v\":3\x7d"), ("K", "kept")]) ∧
    putLog sampleJson countingStub []
        ["\x7b\"documents\":[\x7b\"_id\":\"A\",\"v\":1\x7d,\x7b\"_id\":\"\"\x7d,\x7b\"v\":2\x7d,\x7b\"_id\":\"A\",\"v\":3\x7d]\x7d"] =
      [("A", "\x7b\"_id\":\"A\",\"v\":1\x7d"), ("A", "\x7b\"_id\":\"A\",\"v\":3\x7d")] :=
  ⟨batchInsert_store_independent sampleJson countingStub countingStub_keyedStore
      (by
        intro s1 s2 key value
        by_cases hk : key = "" <;> simp [countingStub, hk])
      "1ms" "2ms" [] [("K", "kept"), ("A", "old")] _,
    by rfl, by rfl, by rfl⟩

/-- C15: `Invoke` dispatches on the function name alone. "batchInsert" gives
what `batchInsert` gives on the arguments; "healthCheck" gives a success
response, whatever the arguments, and leaves the state as it was; every other
name `f`, the empty name and names that differ in case included, gives the
error response "Unknown function: f" without payload and leaves the state as
it was, with no put made. -/
theorem Invoke_dispatch (json : Json) (stub : ChaincodeStubInterface σ)
    (elapsed timestamp : String) (st : σ) (args : List String) :
    Invoke json stub elapsed timestamp st "batchInsert" args =
      batchInsert json stub elapsed st args ∧
    Invoke json stub elapsed timestamp st "healthCheck" args =
      (.returned
        { Status := 200, Message := ""
          Payload := some (json.MarshalHealth timestamp (stub.GetTxID st)) }, st) ∧
    ∀ function : String, function ≠ "batchInsert" → function ≠ "healthCheck" →
      Invoke json stub elapsed timestamp st function args =
        (.returned
          { Status := 500, Message := "Unknown function: " ++ function, Payload := none },
          st) ∧
      (Invoke json (withLog stub) elapsed timestamp (st, []) function args).2.2 = [] := by
  refine ⟨?_, ?_, ?_⟩
  · simp [Invoke]
  · simp [Invoke, healthCheck, shim.Success, shim.OK]
  · intro function hname hhealth
    refine ⟨?_, ?_⟩
    · simp [Invoke, hname, hhealth, shim.Error, shim.ERROR]
    · simp [Invoke, hname, hhealth]

set_option maxRecDepth 1000000 in
/-- C15 at concrete inputs: the empty name and two names that differ from the
known ones in case only, each with a well-formed batch as argument;
"healthCheck" with two arguments; "batchInsert" with the scenario batch. -/
theorem Invoke_dispatch_witness :
    Invoke sampleJson memStub "1ms" "2024-09-13T09:20:31Z" [("K", "kept")] ""
        [scenarioPayload] =
      (.returned { Status := 500, Message := "Unknown function: ", Payload := none },
        [("K", "kept")]) ∧
    Invoke sampleJson memStub "1ms" "2024-09-13T09:20:31Z" [("K", "kept")] "BatchInsert"
        [scenarioPayload] =
      (.returned { Status := 500, Message := "Unknown function: BatchInsert", Payload := none },
        [("K", "kept")]) ∧
    Invoke sampleJson memStub "1ms" "2024-09-13T09:20:31Z" [("K", "kept")] "healthcheck"
        [scenarioPayload] =
      (.returned { Status := 500, Message := "Unknown function: healthcheck", Payload := none },
        [("K", "kept")]) ∧
    (Invoke sampleJson (withLog memStub) "1ms" "2024-09-13T09:20:31Z" ([("K", "kept")], [])
        "BatchInsert" [scenarioPayload]).2.2 = [] ∧
    Invoke sampleJson memStub "1ms" "2024-09-13T09:20:31Z" [("K", "kept")] "healthCheck"
        [scenarioPayload, "more"] =
      (.returned
        { Status := 200, Message := ""
          Payload := some ("\x7b\"chaincode\":\"SimpleBatchChaincode\",\"status\":\"OK\"," ++
            "\"timestamp\":\"2024-09-13T09:20:31Z\",\"txId\":\"txid\"\x7d") },
        [("K", "kept")]) ∧
    Invoke sampleJson memStub "1ms" "2024-09-13T09:20:31Z" [] "batchInsert"
        [scenarioPayload] =
      (.returned (shim.Success (sampleJson.MarshalResult
        { TotalDocs := 3, SuccessfulDocs := 2, FailedDocs := 1, ProcessingTime := "1ms",
          Errors := ["Doc 1: missing _id"] })),
        [("A", "\x7b\"_id\":\"A\",\"v\":3\x7d")]) :=
  ⟨((Invoke_dispatch sampleJson memStub "1ms" "2024-09-13T09:20:31Z" [("K", "kept")]
      [scenarioPayload]).2.2 "" (by decide) (by decide)).1,
    ((Invoke_dispatch sampleJson memStub "1ms" "2024-09-13T09:20:31Z" [("K", "kept")]
      [scenarioPayload]).2.2 "BatchInsert" (by decide) (by decide)).1,
    ((Invoke_dispatch sampleJson memStub "1ms" "2024-09-13T09:20:31Z" [("K", "kept")]
      [scenarioPayload]).2.2 "healthcheck" (by decide) (by decide)).1,
    ((Invoke_dispatch sampleJson memStub "1ms" "2024-09-13T09:20:31Z" [("K", "kept")]
      [scenarioPayload]).2.2 "BatchInsert" (by decide) (by decide)).2,
    by rfl,
    (Invoke_dispatch sampleJson memStub "1ms" "2024-09-13T09:20:31Z" []
      [scenarioPayload]).1.trans (by rfl)⟩

end Claims

end MigrationDbCc2
